import Mathlib

/-!
# odin-protoc-plugin: the descriptor → Odin declaration generator

A shallow embedding of `src/source/odin-code-generator.cpp`.

Conventions of the embedding.

* `std::string` / `std::string_view` are Lean `String`s compared by content; sizes and
  offsets count characters (schema identifiers are ASCII, where bytes and characters agree).
* The descriptor graph of the protobuf library is read-only input.  Only the accessors the
  generator calls are modelled, under the names they have in the library.
* `google::protobuf::io::Printer` is an external sink.  Its state is the sequence of calls
  the generator made on it (`PrinterOp`): a `Print` call is recorded with its text after the
  `$var$` substitution, `Indent` and `Outdent` are recorded as such.
* A C++ function that returns `bool` and mutates `Context` (and the alias registry) returns
  an `Outcome`: either `returned ok state`, or `aborted` when the process does not survive
  the call (a failed `assert`, a null dereference, an uncaught `std::out_of_range`).
-/

namespace OdinGen

/-! ## Descriptor graph (read-only input) -/

/-- The `(odin)` field option message: `has_external()`/`external()` and
`has_typedef_()`/`typedef_()`.  An unset string reads as the empty string. -/
structure OdinOptions where
  external? : Option String
  typedef? : Option String
deriving DecidableEq, Repr

def OdinOptions.has_external (o : OdinOptions) : Bool := o.external?.isSome
def OdinOptions.external (o : OdinOptions) : String := o.external?.getD ""
def OdinOptions.has_typedef_ (o : OdinOptions) : Bool := o.typedef?.isSome
def OdinOptions.typedef_ (o : OdinOptions) : String := o.typedef?.getD ""

/-- Only `start_line` (0-based) of `SourceLocation` is read. -/
structure SourceLocation where
  start_line : Int
deriving DecidableEq, Repr

structure EnumValueDescriptor where
  name : String
  number : Int
deriving DecidableEq, Repr

structure EnumDescriptor where
  full_name : String
  values : List EnumValueDescriptor
deriving DecidableEq, Repr

/-- Values of `FieldDescriptor::Type` (descriptor.h); the type is kept as its raw integer tag. -/
abbrev TYPE_DOUBLE : Nat := 1
abbrev TYPE_FLOAT : Nat := 2
abbrev TYPE_INT64 : Nat := 3
abbrev TYPE_UINT64 : Nat := 4
abbrev TYPE_INT32 : Nat := 5
abbrev TYPE_FIXED64 : Nat := 6
abbrev TYPE_FIXED32 : Nat := 7
abbrev TYPE_BOOL : Nat := 8
abbrev TYPE_STRING : Nat := 9
abbrev TYPE_GROUP : Nat := 10
abbrev TYPE_MESSAGE : Nat := 11
abbrev TYPE_BYTES : Nat := 12
abbrev TYPE_UINT32 : Nat := 13
abbrev TYPE_ENUM : Nat := 14
abbrev TYPE_SFIXED32 : Nat := 15
abbrev TYPE_SFIXED64 : Nat := 16
abbrev TYPE_SINT32 : Nat := 17
abbrev TYPE_SINT64 : Nat := 18

mutual
/-- A field as the generator reads it.  `options` is `some` exactly when
`options().HasExtension(odin)`; `source_location` is `none` when `GetSourceLocation` fails
(synthetic fields); `containing_oneof` tells whether `containing_oneof() != nullptr`. -/
inductive FieldDescriptor where
  | mk (name : String) (number : Int) (type : Nat) (is_repeated : Bool) (is_packed : Bool)
      (containing_oneof : Bool) (source_location : Option SourceLocation)
      (options : Option OdinOptions) (enum_type : Option EnumDescriptor)
      (message_type : MessageType)
/-- What `FieldDescriptor::message_type()` points at: `null`, a message whose `map_key()` is
null, or a synthetic map-entry message with its `map_key()` and `map_value()` fields. -/
inductive MessageType where
  | null
  | message (full_name : String) (name : String)
  | map_entry (full_name : String) (name : String) (map_key : FieldDescriptor)
      (map_value : FieldDescriptor)
end

def FieldDescriptor.name : FieldDescriptor → String
  | .mk n _ _ _ _ _ _ _ _ _ => n
def FieldDescriptor.number : FieldDescriptor → Int
  | .mk _ n _ _ _ _ _ _ _ _ => n
def FieldDescriptor.type : FieldDescriptor → Nat
  | .mk _ _ t _ _ _ _ _ _ _ => t
def FieldDescriptor.is_repeated : FieldDescriptor → Bool
  | .mk _ _ _ r _ _ _ _ _ _ => r
def FieldDescriptor.is_packed : FieldDescriptor → Bool
  | .mk _ _ _ _ p _ _ _ _ _ => p
def FieldDescriptor.containing_oneof : FieldDescriptor → Bool
  | .mk _ _ _ _ _ c _ _ _ _ => c
def FieldDescriptor.source_location : FieldDescriptor → Option SourceLocation
  | .mk _ _ _ _ _ _ l _ _ _ => l
def FieldDescriptor.options : FieldDescriptor → Option OdinOptions
  | .mk _ _ _ _ _ _ _ o _ _ => o
def FieldDescriptor.enum_type : FieldDescriptor → Option EnumDescriptor
  | .mk _ _ _ _ _ _ _ _ e _ => e
def FieldDescriptor.message_type : FieldDescriptor → MessageType
  | .mk _ _ _ _ _ _ _ _ _ m => m

/-- The library's `FieldDescriptor::is_packable()`: `is_repeated() && IsTypePackable(type())`,
where every type but string, group, message and bytes is packable. -/
def FieldDescriptor.is_packable (f : FieldDescriptor) : Bool :=
  f.is_repeated && !(f.type == TYPE_STRING || f.type == TYPE_GROUP
    || f.type == TYPE_MESSAGE || f.type == TYPE_BYTES)

/-- The result of `->full_name()` on `message_type()`; `none` is a null dereference. -/
def MessageType.full_name : MessageType → Option String
  | .null => none
  | .message fn _ => some fn
  | .map_entry fn _ _ _ => some fn

/-- The result of `->name()` on `message_type()`; `none` is a null dereference. -/
def MessageType.name : MessageType → Option String
  | .null => none
  | .message _ n => some n
  | .map_entry _ n _ _ => some n

structure OneofDescriptor where
  name : String
  fields : List FieldDescriptor

/-- A message as `PrintMessage` walks it.  `is_map_entry` tells whether `map_key() != nullptr`. -/
inductive Descriptor where
  | mk (full_name : String) (is_map_entry : Bool) (fields : List FieldDescriptor)
      (oneof_decls : List OneofDescriptor) (nested_types : List Descriptor)
      (enum_types : List EnumDescriptor)

def Descriptor.full_name : Descriptor → String
  | .mk n _ _ _ _ _ => n
def Descriptor.is_map_entry : Descriptor → Bool
  | .mk _ m _ _ _ _ => m
def Descriptor.fields : Descriptor → List FieldDescriptor
  | .mk _ _ f _ _ _ => f
def Descriptor.oneof_decls : Descriptor → List OneofDescriptor
  | .mk _ _ _ o _ _ => o
def Descriptor.nested_types : Descriptor → List Descriptor
  | .mk _ _ _ _ n _ => n
def Descriptor.enum_types : Descriptor → List EnumDescriptor
  | .mk _ _ _ _ _ e => e

structure FileDescriptor where
  package : String
  message_types : List Descriptor
  enum_types : List EnumDescriptor

/-! ## Generator state -/

/-- One call on the `io::Printer`; `Print` carries the text after variable substitution. -/
inductive PrinterOp where
  | Print (text : String)
  | Indent
  | Outdent
deriving DecidableEq, Repr

/-- The `Context` struct (lines 14-19); `error` is the string `*error` points at. -/
structure Context where
  printer : List PrinterOp
  error : String
  proto_package : String
deriving DecidableEq, Repr

def Context.Print (context : Context) (text : String) : Context :=
  { context with printer := context.printer ++ [PrinterOp.Print text] }

def Context.Indent (context : Context) : Context :=
  { context with printer := context.printer ++ [PrinterOp.Indent] }

def Context.Outdent (context : Context) : Context :=
  { context with printer := context.printer ++ [PrinterOp.Outdent] }

/-- How a call ends: it returns its `bool` with the state it leaves behind, or the process
is gone (failed `assert`, null dereference, uncaught exception). -/
inductive Outcome (σ : Type) where
  | returned (ok : Bool) (state : σ)
  | aborted
deriving DecidableEq, Repr

/-! ## Name Resolver and Type Mapper (lines 21-123) -/

/-- `std::replace(result.begin(), result.end(), '.', '_')`. -/
def replaceDots (s : String) : String :=
  String.mk (s.data.map (fun c => if c = '.' then '_' else c))

/-- `ConvertFullTypeName` (lines 23-29).  `string_view::substr(offset)` throws
`std::out_of_range` when `offset > size()`: the result is then `none`. -/
def ConvertFullTypeName (full_name : String) (package_name : String) : Option String :=
  let offset := if package_name = "" then 0 else package_name.length + 1
  if offset > full_name.length then none
  else some (replaceDots (String.mk (full_name.data.drop offset)))

inductive OdinBuiltinType where
  | t_none
  | t_i32
  | t_i64
  | t_u32
  | t_u64
  | t_f64
  | t_f32
  | t_bool
  | t_enum
  | t_string
  | t_byte_slice
  | t_message
deriving DecidableEq, Repr

/-- `GetOdinBuiltinType` (lines 47-90). -/
def GetOdinBuiltinType (type : Nat) : OdinBuiltinType :=
  match type with
  | 1 => OdinBuiltinType.t_f64          -- TYPE_DOUBLE
  | 2 => OdinBuiltinType.t_f32          -- TYPE_FLOAT
  | 3 => OdinBuiltinType.t_i64          -- TYPE_INT64
  | 4 => OdinBuiltinType.t_u64          -- TYPE_UINT64
  | 5 => OdinBuiltinType.t_i32          -- TYPE_INT32
  | 6 => OdinBuiltinType.t_u64          -- TYPE_FIXED64
  | 7 => OdinBuiltinType.t_u32          -- TYPE_FIXED32
  | 8 => OdinBuiltinType.t_bool         -- TYPE_BOOL
  | 9 => OdinBuiltinType.t_string       -- TYPE_STRING
  | 10 => OdinBuiltinType.t_message     -- TYPE_GROUP
  | 11 => OdinBuiltinType.t_message     -- TYPE_MESSAGE
  | 12 => OdinBuiltinType.t_byte_slice  -- TYPE_BYTES
  | 13 => OdinBuiltinType.t_u32         -- TYPE_UINT32
  | 14 => OdinBuiltinType.t_enum        -- TYPE_ENUM
  | 15 => OdinBuiltinType.t_i32         -- TYPE_SFIXED32
  | 16 => OdinBuiltinType.t_i64         -- TYPE_SFIXED64
  | 17 => OdinBuiltinType.t_i32         -- TYPE_SINT32
  | 18 => OdinBuiltinType.t_i64         -- TYPE_SINT64
  | _ => OdinBuiltinType.t_none

/-- `GetOdinBuiltinTypeName` (lines 92-123). -/
def GetOdinBuiltinTypeName (type : OdinBuiltinType) : String :=
  match type with
  | .t_none => ""
  | .t_i32 => "i32"
  | .t_i64 => "i64"
  | .t_u32 => "u32"
  | .t_u64 => "u64"
  | .t_f64 => "f64"
  | .t_f32 => "f32"
  | .t_bool => "bool"
  | .t_enum => ""
  | .t_string => "string"
  | .t_byte_slice => "[]u8"
  | .t_message => ""

/-! ## Field Emitter (lines 125-219) -/

/-- `GetOdinFieldTypeName` (lines 125-160); `none` when a `ConvertFullTypeName` call throws. -/
def GetOdinFieldTypeName : FieldDescriptor → String → Option String
  | .mk _ _ _ _ _ _ _ _ _ (.map_entry _ _ map_key map_value), package_name =>
    match GetOdinFieldTypeName map_key package_name with
    | none => none
    | some key_type_str =>
      match GetOdinFieldTypeName map_value package_name with
      | none => none
      | some value_type_str =>
        -- is_map: the repeated marker is not applied
        some ("map[" ++ key_type_str ++ "]" ++ value_type_str)
  | .mk _ _ _ is_repeated _ _ _ _ _ (.message full_name _), package_name =>
    match ConvertFullTypeName full_name package_name with
    | none => none
    | some type_name => some (if is_repeated then "[]" ++ type_name else type_name)
  | .mk _ _ type is_repeated _ _ _ _ enum_type .null, package_name =>
    match enum_type with
    | some enum_desc =>
      match ConvertFullTypeName enum_desc.full_name package_name with
      | none => none
      | some type_name => some (if is_repeated then "[]" ++ type_name else type_name)
    | none =>
      let type_name := GetOdinBuiltinTypeName (GetOdinBuiltinType type)
      some (if is_repeated then "[]" ++ type_name else type_name)

/-- The loop body of `PrintUnionDiscriminantField` (lines 172-177), from index `idx` on. -/
def PrintUnionDiscriminantEntries : List FieldDescriptor → Nat → Context → Context
  | [], _, context => context
  | field :: rest, idx, context =>
    PrintUnionDiscriminantEntries rest (idx + 1)
      (context.Print (field.name ++ " = " ++ toString idx ++ ",\n"))

/-- `PrintUnionDiscriminantField` (lines 163-181). -/
def PrintUnionDiscriminantField (oneof_desc : OneofDescriptor) (context : Context) : Context :=
  let context := context.Print (oneof_desc.name ++ "_variant: enum \x7b\n")
  let context := context.Indent
  let context := PrintUnionDiscriminantEntries oneof_desc.fields 0 context
  let context := context.Outdent
  context.Print "\x7d,\n"

/-- `fmt::to_string(bool)`. -/
def boolToString (b : Bool) : String := if b then "true" else "false"

/-- `PrintField` (lines 183-219).  The variable map is built before anything is printed, so a
throwing `GetOdinFieldTypeName` aborts with nothing written. -/
def PrintField (field_desc : FieldDescriptor) (context : Context) : Outcome Context :=
  match GetOdinFieldTypeName field_desc context.proto_package with
  | none => .aborted
  | some odin_type =>
    let context := context.Print (field_desc.name ++ " : " ++ odin_type ++ " `")
    let context := context.Print ("id:\"" ++ toString field_desc.number ++ "\"")
    let context := context.Print (" type:\"" ++ toString field_desc.type ++ "\"")
    let context :=
      if field_desc.is_packable then
        context.Print (" packed:\"" ++ boolToString field_desc.is_packed ++ "\"")
      else context
    let context :=
      match field_desc.message_type with
      | .map_entry _ _ map_key map_value =>
        let context := context.Print (" key_type:\"" ++ toString map_key.type ++ "\"")
        context.Print (" value_type:\"" ++ toString map_value.type ++ "\"")
      | _ => context
    .returned true (context.Print "`,\n")

/-! ## Oneof Transformer (lines 221-374) -/

/-- `SetError` (lines 221-229).  The `assert` is taken as compiled in: it is the only call of
`GetSourceLocation`, and it stops the process on a field without source location.  The
function returns `false`; `rest` packs the context with the remaining state of the caller. -/
def SetError {σ : Type} (context : Context) (field : FieldDescriptor) (message : String)
    (rest : Context → σ) : Outcome σ :=
  match field.source_location with
  | none => .aborted
  | some loc =>
    .returned false
      (rest { context with error := "line " ++ toString (loc.start_line + 1) ++ ": " ++ message })

/-- What lines 240-267 of `ValidateOneofFieldTypes` compute for one member. -/
inductive FieldTypeKey where
  /-- An override is present and empty: the message handed to `SetError`. -/
  | invalid (message : String)
  /-- The discriminating key `field_type`, and whether the member has the extension. -/
  | key (field_type : String) (has_extension : Bool)
  /-- `message_type()` is null on a `TYPE_MESSAGE` member. -/
  | null_deref
deriving DecidableEq, Repr

/-- Lines 240-267: the discriminating type key of one oneof member. -/
def OneofFieldTypeKey (field : FieldDescriptor) : FieldTypeKey :=
  match field.options with
  | some options =>
    if options.has_external && options.external = "" then
      .invalid "(odin).external must not be empty"
    else if options.has_typedef_ && options.typedef_ = "" then
      .invalid "(odin).typedef must not be empty"
    else
      .key (if options.has_external then options.external else options.typedef_) true
  | none =>
    if field.type = TYPE_MESSAGE then
      match field.message_type.full_name with
      | none => .null_deref
      | some full_name => .key full_name false
    else
      .key (GetOdinBuiltinTypeName (GetOdinBuiltinType field.type)) false

/-- The loop of `ValidateOneofFieldTypes` (lines 237-283) over the members still to scan.
The state returned is the context and `*out_use_tagged_union`. -/
def ValidateOneofFieldTypesLoop : List FieldDescriptor → Bool → List String → Context → Bool →
    Outcome (Context × Bool)
  | [], _, _, context, _ => .returned true (context, true)
  | field :: rest, force_tagged, used_field_types, context, out_use_tagged_union =>
    match OneofFieldTypeKey field with
    | .null_deref => .aborted
    | .invalid message =>
      SetError context field message (fun c => (c, out_use_tagged_union))
    | .key field_type has_extension =>
      let force_tagged := force_tagged || has_extension
      if field_type ∈ used_field_types then
        if force_tagged then
          SetError context field
            ("Duplicate Odin union type " ++ field_type ++ " for field " ++ field.name
              ++ " after applying (odin).external/typedef overrides")
            (fun c => (c, out_use_tagged_union))
        else
          .returned true (context, false)
      else
        ValidateOneofFieldTypesLoop rest force_tagged (field_type :: used_field_types)
          context out_use_tagged_union

/-- `ValidateOneofFieldTypes` (lines 232-287).  `out_use_tagged_union` is the value the
out-parameter holds before the call; it is left as it is when the call fails. -/
def ValidateOneofFieldTypes (oneof_desc : OneofDescriptor) (context : Context)
    (out_use_tagged_union : Bool) : Outcome (Context × Bool) :=
  ValidateOneofFieldTypesLoop oneof_desc.fields false [] context out_use_tagged_union

/-- `TypeAliasMap` (line 290): alias → underlying type, keys unique, kept in insertion order. -/
abbrev TypeAliasMap := List (String × String)

/-- `unordered_map::emplace`: the map after the call, `it->second`, and `inserted`. -/
def TypeAliasMap.emplace (type_aliases : TypeAliasMap) (alias_ : String) (underlying : String) :
    TypeAliasMap × String × Bool :=
  match type_aliases.lookup alias_ with
  | some existing => (type_aliases, existing, false)
  | none => (type_aliases ++ [(alias_, underlying)], underlying, true)

/-- The tagged-union loop of `PrintOneof` (lines 308-349) over the members still to print. -/
def PrintOneofTaggedLoop : List FieldDescriptor → Context → TypeAliasMap →
    Outcome (Context × TypeAliasMap)
  | [], context, type_aliases => .returned true (context, type_aliases)
  | field :: rest, context, type_aliases =>
    match field.options with
    | some options =>
      if options.has_external then
        PrintOneofTaggedLoop rest (context.Print (options.external ++ ",\n")) type_aliases
      else if options.has_typedef_ then
        let alias_ := options.typedef_
        let underlying_type? :=
          if field.type = TYPE_MESSAGE then field.message_type.name
          else some (GetOdinBuiltinTypeName (GetOdinBuiltinType field.type))
        match underlying_type? with
        | none => .aborted
        | some underlying_type =>
          match type_aliases.emplace alias_ underlying_type with
          | (type_aliases, it_second, inserted) =>
            if !inserted && it_second ≠ underlying_type then
              SetError context field
                ("Type alias '" ++ alias_ ++ "' already refers to '" ++ it_second
                  ++ "', cannot redefine as '" ++ underlying_type ++ "'")
                (fun c => (c, type_aliases))
            else
              PrintOneofTaggedLoop rest (context.Print (options.typedef_ ++ ",\n")) type_aliases
      else
        -- effective_type stays the empty string
        PrintOneofTaggedLoop rest (context.Print ("" ++ ",\n")) type_aliases
    | none =>
      if field.type = TYPE_MESSAGE then
        match field.message_type.name with
        | none => .aborted
        | some effective_type =>
          PrintOneofTaggedLoop rest (context.Print (effective_type ++ ",\n")) type_aliases
      else
        match GetOdinFieldTypeName field context.proto_package with
        | none => .aborted
        | some effective_type =>
          PrintOneofTaggedLoop rest (context.Print (effective_type ++ ",\n")) type_aliases

/-- The raw-union loop of `PrintOneof` (lines 357-363). -/
def PrintOneofRawLoop : List FieldDescriptor → Context → Outcome Context
  | [], context => .returned true context
  | field :: rest, context =>
    match PrintField field context with
    | .aborted => .aborted
    | .returned false context => .returned false context
    | .returned true context => PrintOneofRawLoop rest context

/-- `PrintOneof` (lines 292-374).  `gen_tagged_union` is uninitialised before the call to
`ValidateOneofFieldTypes` and is only read when that call succeeded, after it was written. -/
def PrintOneof (oneof_desc : OneofDescriptor) (context : Context) (type_aliases : TypeAliasMap) :
    Outcome (Context × TypeAliasMap) :=
  match ValidateOneofFieldTypes oneof_desc context false with
  | .aborted => .aborted
  | .returned false (context, _) => .returned false (context, type_aliases)
  | .returned true (context, gen_tagged_union) =>
    if gen_tagged_union then
      let context := context.Print ("\n" ++ oneof_desc.name ++ ": union \x7b\n")
      let context := context.Indent
      match PrintOneofTaggedLoop oneof_desc.fields context type_aliases with
      | .aborted => .aborted
      | .returned false state => .returned false state
      | .returned true (context, type_aliases) =>
        let context := context.Outdent
        .returned true (context.Print "\x7d,\n", type_aliases)
    else
      let context := context.Print ("\n" ++ oneof_desc.name ++ ": struct #raw_union \x7b\n")
      let context := context.Indent
      match PrintOneofRawLoop oneof_desc.fields context with
      | .aborted => .aborted
      | .returned false context => .returned false (context, type_aliases)
      | .returned true context =>
        let context := context.Outdent
        let context := context.Print "\x7d,\n"
        .returned true (PrintUnionDiscriminantField oneof_desc context, type_aliases)

/-! ## Message/Enum Emitter (lines 376-469) -/

/-- The value loop of `PrintEnum` (lines 387-395). -/
def PrintEnumValues : List EnumValueDescriptor → Context → Context
  | [], context => context
  | value_desc :: rest, context =>
    PrintEnumValues rest
      (context.Print (value_desc.name ++ " = " ++ toString value_desc.number ++ ",\n"))

/-- `PrintEnum` (lines 376-401). -/
def PrintEnum (enum_desc : EnumDescriptor) (context : Context) : Outcome Context :=
  match ConvertFullTypeName enum_desc.full_name context.proto_package with
  | none => .aborted
  | some name =>
    let context := context.Print ("\n" ++ name ++ " :: enum \x7b\n")
    let context := context.Indent
    let context := PrintEnumValues enum_desc.values context
    let context := context.Outdent
    .returned true (context.Print "\x7d\n")

/-- The field loop of `PrintMessage` (lines 415-428). -/
def PrintMessageFields : List FieldDescriptor → Context → Outcome Context
  | [], context => .returned true context
  | field :: rest, context =>
    if field.containing_oneof then
      -- oneof fields will be generated separately
      PrintMessageFields rest context
    else
      match PrintField field context with
      | .aborted => .aborted
      | .returned false context => .returned false context
      | .returned true context => PrintMessageFields rest context

/-- The oneof loop of `PrintMessage` (lines 430-436). -/
def PrintMessageOneofs : List OneofDescriptor → Context → TypeAliasMap →
    Outcome (Context × TypeAliasMap)
  | [], context, type_aliases => .returned true (context, type_aliases)
  | oneof_decl :: rest, context, type_aliases =>
    match PrintOneof oneof_decl context type_aliases with
    | .aborted => .aborted
    | .returned false state => .returned false state
    | .returned true (context, type_aliases) => PrintMessageOneofs rest context type_aliases

/-- The enum loops of `PrintMessage` (lines 460-466) and `PrintFile` (lines 505-511). -/
def PrintEnums : List EnumDescriptor → Context → Outcome Context
  | [], context => .returned true context
  | enum_type :: rest, context =>
    match PrintEnum enum_type context with
    | .aborted => .aborted
    | .returned false context => .returned false context
    | .returned true context => PrintEnums rest context

mutual
/-- `PrintMessage` (lines 403-469). -/
def PrintMessage : Descriptor → Context → TypeAliasMap → Outcome (Context × TypeAliasMap)
  | .mk full_name is_map_entry fields oneof_decls nested_types enum_types, context,
      type_aliases =>
    -- assert(message_desc.map_key() == nullptr), taken as compiled in
    if is_map_entry then .aborted
    else
      match ConvertFullTypeName full_name context.proto_package with
      | none => .aborted
      | some name =>
        let context := context.Print ("\n" ++ name ++ " :: struct \x7b\n")
        let context := context.Indent
        match PrintMessageFields fields context with
        | .aborted => .aborted
        | .returned false context => .returned false (context, type_aliases)
        | .returned true context =>
          match PrintMessageOneofs oneof_decls context type_aliases with
          | .aborted => .aborted
          | .returned false state => .returned false state
          | .returned true (context, type_aliases) =>
            let context := context.Outdent
            let context := context.Print "\x7d\n"
            match PrintNestedTypes nested_types context type_aliases with
            | .aborted => .aborted
            | .returned false state => .returned false state
            | .returned true (context, type_aliases) =>
              match PrintEnums enum_types context with
              | .aborted => .aborted
              | .returned ok context => .returned ok (context, type_aliases)
/-- The nested-type loop of `PrintMessage` (lines 441-458). -/
def PrintNestedTypes : List Descriptor → Context → TypeAliasMap →
    Outcome (Context × TypeAliasMap)
  | [], context, type_aliases => .returned true (context, type_aliases)
  | nested_type :: rest, context, type_aliases =>
    if nested_type.is_map_entry then
      -- Don't generate custom types for maps
      PrintNestedTypes rest context type_aliases
    else
      match PrintMessage nested_type context type_aliases with
      | .aborted => .aborted
      | .returned false state => .returned false state
      | .returned true (context, type_aliases) => PrintNestedTypes rest context type_aliases
end

/-! ## File Emitter (lines 471-514) -/

/-- The message loop of `PrintFile` (lines 490-496). -/
def PrintFileMessages : List Descriptor → Context → TypeAliasMap →
    Outcome (Context × TypeAliasMap)
  | [], context, type_aliases => .returned true (context, type_aliases)
  | message_type :: rest, context, type_aliases =>
    match PrintMessage message_type context type_aliases with
    | .aborted => .aborted
    | .returned false state => .returned false state
    | .returned true (context, type_aliases) => PrintFileMessages rest context type_aliases

/-- The alias loop of `PrintFile` (lines 499-503) over the entries in iteration order. -/
def PrintTypeAliases : List (String × String) → Context → Context
  | [], context => context
  | (alias_, underlying) :: rest, context =>
    PrintTypeAliases rest (context.Print (alias_ ++ " :: distinct " ++ underlying ++ "\n"))

/-- The package identifier computed at lines 474-479; `ConvertFullTypeName` with an empty
package never throws. -/
def PackageName (file_desc : FileDescriptor) : String :=
  if file_desc.package = "" then "proto"
  else "proto" ++ "_" ++ (ConvertFullTypeName file_desc.package "").getD ""

/-- `PrintFile` (lines 471-514).  The registry is an `unordered_map`, whose iteration order
is up to the implementation: `iteration_order` lists the entries of a registry as the
range-for at line 499 visits them. -/
def PrintFile (iteration_order : TypeAliasMap → List (String × String))
    (file_desc : FileDescriptor) (context : Context) : Outcome Context :=
  let context := context.Print ("\npackage " ++ PackageName file_desc ++ "\n")
  match PrintFileMessages file_desc.message_types context [] with
  | .aborted => .aborted
  | .returned false (context, _) => .returned false context
  | .returned true (context, type_aliases_to_generate) =>
    let context := PrintTypeAliases (iteration_order type_aliases_to_generate) context
    PrintEnums file_desc.enum_types context

/-! ## Statement vocabulary -/

/-- `effective_type` as lines 312-346 of `PrintOneof` compute it for one member, the alias
registration of lines 323-336 left aside; `none` when the computation does not survive. -/
def EffectiveType (field : FieldDescriptor) (package_name : String) : Option String :=
  match field.options with
  | some options =>
    if options.has_external then some options.external
    else if options.has_typedef_ then some options.typedef_
    else some ""
  | none =>
    if field.type = TYPE_MESSAGE then field.message_type.name
    else GetOdinFieldTypeName field package_name

/-- What one `PrintField` call appends to the printer, read off `PrintField` itself run on an
empty printer; `none` when the call aborts. -/
def PrintFieldOutput (field : FieldDescriptor) (package_name : String) :
    Option (List PrinterOp) :=
  match PrintField field { printer := [], error := "", proto_package := package_name } with
  | .returned _ context => some context.printer
  | .aborted => none

/-- All results of a list of partial computations, or `none` if one of them failed. -/
def allResults {α : Type} : List (Option α) → Option (List α)
  | [] => some []
  | none :: _ => none
  | some a :: rest =>
    match allResults rest with
    | none => none
    | some as => some (a :: as)

/-- The `Print` calls of the tagged-union loop for the given spellings. -/
def variantLines (spellings : List String) : List PrinterOp :=
  spellings.map (fun s => PrinterOp.Print (s ++ ",\n"))

/-- The discriminating key of a member without override (lines 260-267), the null
dereference read as the empty name. -/
def UnforcedKey (f : FieldDescriptor) : String :=
  if f.type = TYPE_MESSAGE then f.message_type.full_name.getD ""
  else GetOdinBuiltinTypeName (GetOdinBuiltinType f.type)

/-- The registry `after` keeps every entry of `before`: it extends it, and every alias bound
in `before` is bound to the same underlying type in `after`. -/
def RegistryKept (before after : TypeAliasMap) : Prop :=
  before <+: after ∧ ∀ a u, before.lookup a = some u → after.lookup a = some u

/-- The registry a call leaves behind keeps every entry of the registry it was given. -/
def Outcome.registryKept (before : TypeAliasMap) :
    Outcome (Context × TypeAliasMap) → Prop
  | .returned _ (_, after) => RegistryKept before after
  | .aborted => True

/-! ## Concrete schemas -/

/-- Oneof member without override: `name`, field number, wire type, 0-based source line. -/
def scalarMember (name : String) (number : Int) (type : Nat) (line : Int) : FieldDescriptor :=
  .mk name number type false false true (some ⟨line⟩) none none .null

/-- Oneof member of message type `full_name` (short name `short`), without override. -/
def messageMember (name : String) (number : Int) (full_name short : String) (line : Int) :
    FieldDescriptor :=
  .mk name number TYPE_MESSAGE false false true (some ⟨line⟩) none none
    (.message full_name short)

/-- Oneof member of enum type `full_name`, without override. -/
def enumMember (name : String) (number : Int) (full_name : String) (line : Int) :
    FieldDescriptor :=
  .mk name number TYPE_ENUM false false true (some ⟨line⟩) none (some ⟨full_name, []⟩) .null

/-- Scalar oneof member carrying the `(odin)` option `options`. -/
def overrideMember (name : String) (number : Int) (type : Nat) (line : Int)
    (options : OdinOptions) : FieldDescriptor :=
  .mk name number type false false true (some ⟨line⟩) (some options) none .null

/-- The context `Generate` hands to `PrintFile` for a file of package `pkg`, header apart. -/
def startContext (pkg : String) : Context := { printer := [], error := "", proto_package := pkg }

/-- A duplicate `i32` at the second member, then an empty `external` override and a third
`i32`. -/
def exampleC4 : OneofDescriptor :=
  { name := "value",
    fields := [scalarMember "a" 1 TYPE_INT32 3, scalarMember "b" 2 TYPE_SINT32 4,
      overrideMember "c" 3 TYPE_STRING 5 { external? := some "", typedef? := none },
      scalarMember "d" 4 TYPE_INT32 6] }

/-- A duplicate `i32` at the second member, an override `Foo` on the third. -/
def exampleC3 : OneofDescriptor :=
  { name := "value",
    fields := [scalarMember "a" 1 TYPE_INT32 3, scalarMember "b" 2 TYPE_INT32 4,
      overrideMember "c" 3 TYPE_STRING 5 { external? := some "Foo", typedef? := none }] }

/-- The member `payload`, on 0-based line 4, has `external` set to the empty string. -/
def exampleC7 : OneofDescriptor :=
  { name := "value",
    fields := [scalarMember "id" 1 TYPE_INT32 3,
      overrideMember "payload" 2 TYPE_STRING 4 { external? := some "", typedef? := none }] }

/-- Members of pairwise distinct keys: `i32`, `pkg.Item`, the empty key of the enum, `string`. -/
def exampleC1 : OneofDescriptor :=
  { name := "value",
    fields := [scalarMember "count" 1 TYPE_INT32 3, messageMember "inner" 2 "pkg.Item" "Item" 4,
      enumMember "color" 3 "pkg.Color" 5, scalarMember "text" 4 TYPE_STRING 6] }

/-- Two members of distinct enum types and no override. -/
def exampleTwoEnums : OneofDescriptor :=
  { name := "kind",
    fields := [enumMember "color" 1 "pkg.Color" 3, enumMember "shape" 2 "pkg.Shape" 4] }

/-- Two members of the same message type, schema field numbers 5 and 9. -/
def exampleC2 : OneofDescriptor :=
  { name := "shape",
    fields := [messageMember "first" 5 "pkg.Point" "Point" 3,
      messageMember "second" 9 "pkg.Point" "Point" 4] }

/-- Member `name` of wire type `type` with the option `(odin).typedef = alias_`. -/
def typedefMember (name : String) (number : Int) (type : Nat) (line : Int) (alias_ : String) :
    FieldDescriptor :=
  overrideMember name number type line { external? := none, typedef? := some alias_ }

/-- A top-level message `pkg.<name>` whose only content is one oneof with one member. -/
def singleOneofMessage (name : String) (oneof_name : String) (member : FieldDescriptor) :
    Descriptor :=
  .mk ("pkg." ++ name) false [member] [{ name := oneof_name, fields := [member] }] [] []

/-- `Foo` requested over `i32` by two oneofs of the same file. -/
def exampleAliasTwice : FileDescriptor :=
  { package := "pkg",
    message_types := [singleOneofMessage "A" "x" (typedefMember "a" 1 TYPE_INT32 3 "Foo"),
      singleOneofMessage "B" "y" (typedefMember "b" 1 TYPE_SINT32 8 "Foo")],
    enum_types := [] }

/-- `Foo` requested over `i32`, then over `string`. -/
def exampleAliasConflict : FileDescriptor :=
  { package := "pkg",
    message_types := [singleOneofMessage "A" "x" (typedefMember "a" 1 TYPE_INT32 3 "Foo"),
      singleOneofMessage "B" "y" (typedefMember "b" 1 TYPE_STRING 8 "Foo")],
    enum_types := [] }

/-- An override on the first member, a duplicate key at the third. -/
def exampleC3Forced : OneofDescriptor :=
  { name := "value",
    fields := [overrideMember "a" 1 TYPE_INT32 3 { external? := some "Foo", typedef? := none },
      scalarMember "b" 2 TYPE_STRING 4, scalarMember "c" 3 TYPE_STRING 5,
      scalarMember "d" 4 TYPE_BOOL 6] }

/-- Message `pkg.Outer` with the nested message `pkg.Outer.Inner` and a oneof over it. -/
def exampleC8 : Descriptor :=
  .mk "pkg.Outer" false
    [messageMember "inner" 1 "pkg.Outer.Inner" "Inner" 4, scalarMember "count" 2 TYPE_INT32 5]
    [{ name := "payload",
       fields := [messageMember "inner" 1 "pkg.Outer.Inner" "Inner" 4,
         scalarMember "count" 2 TYPE_INT32 5] }]
    [.mk "pkg.Outer.Inner" false [] [] [] []] []

/-! ## Vocabulary and schemas for the emitters and the traversal -/

/-- Whether `message_type()->map_key() != nullptr` (false on a null `message_type()`). -/
def MessageType.has_map_key : MessageType → Bool
  | .map_entry _ _ _ _ => true
  | _ => false

/-- The `key_type` and `value_type` keys of a map field (lines 204-214), nothing otherwise. -/
def MapTypeKeys : MessageType → List PrinterOp
  | .map_entry _ _ map_key map_value =>
    [PrinterOp.Print (" key_type:\"" ++ toString map_key.type ++ "\""),
      PrinterOp.Print (" value_type:\"" ++ toString map_value.type ++ "\"")]
  | _ => []

/-- The rendering of one field as claim C12 words it: name and type, the `id` and `type`
keys, `packed` only when packable, the map keys only on a map field, the closing part. -/
def FieldLines (field_desc : FieldDescriptor) (odin_type : String) : List PrinterOp :=
  [PrinterOp.Print (field_desc.name ++ " : " ++ odin_type ++ " `"),
    PrinterOp.Print ("id:\"" ++ toString field_desc.number ++ "\""),
    PrinterOp.Print (" type:\"" ++ toString field_desc.type ++ "\"")]
  ++ (if field_desc.is_packable then
        [PrinterOp.Print (" packed:\"" ++ boolToString field_desc.is_packed ++ "\"")]
      else [])
  ++ MapTypeKeys field_desc.message_type
  ++ [PrinterOp.Print "`,\n"]

/-- The type name of one element of a field that is not a map field: the flattened name of
its message type, else the flattened name of its enum type, else the mapped builtin name. -/
def ElementTypeName (field_desc : FieldDescriptor) (package_name : String) : Option String :=
  match field_desc.message_type.full_name with
  | some full_name => ConvertFullTypeName full_name package_name
  | none =>
    match field_desc.enum_type with
    | some enum_desc => ConvertFullTypeName enum_desc.full_name package_name
    | none => some (GetOdinBuiltinTypeName (GetOdinBuiltinType field_desc.type))

/-- A field that is not a oneof member: `name`, number, wire type, `is_repeated`, `is_packed`. -/
def plainField (name : String) (number : Int) (type : Nat) (is_repeated is_packed : Bool) :
    FieldDescriptor :=
  .mk name number type is_repeated is_packed false (some ⟨0⟩) none none .null

/-- The field `payload` of message type `b.M`, declared in a file of another package. -/
def exampleForeignField : FieldDescriptor :=
  .mk "payload" 1 TYPE_MESSAGE false false false (some ⟨2⟩) none none (.message "b.M" "M")

/-- The field `tags`, declared `repeated string tags = 4`. -/
def exampleRepeatedString : FieldDescriptor := plainField "tags" 4 TYPE_STRING true false

/-- The field `scores`, declared `repeated int32 scores = 5` with packed encoding. -/
def exampleRepeatedInt32 : FieldDescriptor := plainField "scores" 5 TYPE_INT32 true true

/-- The field `attrs`, declared `map<string, int32> attrs = 7` in message `pkg.Item`. -/
def exampleMapField : FieldDescriptor :=
  .mk "attrs" 7 TYPE_MESSAGE true false false (some ⟨3⟩) none none
    (.map_entry "pkg.Item.AttrsEntry" "AttrsEntry"
      (.mk "key" 1 TYPE_STRING false false false none none none .null)
      (.mk "value" 2 TYPE_INT32 false false false none none none .null))

/-- Two members of the distinct message types `pkg.A.Item` and `pkg.B.Item`. -/
def exampleSameShortName : OneofDescriptor :=
  { name := "choice",
    fields := [messageMember "first" 1 "pkg.A.Item" "Item" 3,
      messageMember "second" 2 "pkg.B.Item" "Item" 4] }

/-- A member of enum type `pkg.Color` and a `string` member overridden to `Color`. -/
def exampleEnumAndOverride : OneofDescriptor :=
  { name := "choice",
    fields := [enumMember "tint" 1 "pkg.Color" 3,
      overrideMember "label" 2 TYPE_STRING 4 { external? := some "Color", typedef? := none }] }

/-- An `int32` member, a `string` member overridden to `Name`, a `bool` member. -/
def exampleKeysAreSpellings : OneofDescriptor :=
  { name := "choice",
    fields := [scalarMember "count" 1 TYPE_INT32 3,
      overrideMember "label" 2 TYPE_STRING 4 { external? := some "Name", typedef? := none },
      scalarMember "flag" 3 TYPE_BOOL 5] }

/-- A member of enum type `pkg.Color` with the option `(odin).typedef = "Shade"`. -/
def exampleEnumTypedef : FieldDescriptor :=
  .mk "tint" 1 TYPE_ENUM false false true (some ⟨3⟩)
    (some { external? := none, typedef? := some "Shade" }) (some ⟨"pkg.Color", []⟩) .null

/-- A file whose only message holds a oneof over `exampleEnumTypedef`. -/
def exampleEnumTypedefFile : FileDescriptor :=
  { package := "pkg",
    message_types := [singleOneofMessage "Paint" "kind" exampleEnumTypedef],
    enum_types := [] }

/-- Message `pkg.Item` with a map field, a plain field, the synthetic entry message of the
map, the nested message `Part` (which holds a map entry of its own) and a nested enum. -/
def exampleItem : Descriptor :=
  .mk "pkg.Item" false [exampleMapField, plainField "id" 1 TYPE_INT32 false false] []
    [.mk "pkg.Item.AttrsEntry" true
        [.mk "key" 1 TYPE_STRING false false false none none none .null,
          .mk "value" 2 TYPE_INT32 false false false none none none .null] [] [] [],
      .mk "pkg.Item.Part" false [] []
        [.mk "pkg.Item.Part.TagsEntry" true [] [] [] []] []]
    [⟨"pkg.Item.Kind", [⟨"UNKNOWN", 0⟩, ⟨"BIG", 2⟩]⟩]

/-- Whether a printer call is a struct declaration header: a `Print` whose text ends with
` :: struct {` and a newline, the ending of the header `PrintMessage` prints at line 412. -/
def isStructDecl : PrinterOp → Bool
  | .Print text => " :: struct \x7b\n".data.isSuffixOf text.data
  | _ => false

/-- The struct declaration header of a message in a file of package `package_name`. -/
def StructDecl (package_name : String) (message_desc : Descriptor) : Option PrinterOp :=
  (ConvertFullTypeName message_desc.full_name package_name).map
    (fun name => PrinterOp.Print ("\n" ++ name ++ " :: struct \x7b\n"))

/-- The call leaves `after` from `before`: it appended `new` to the printer, kept the package,
and, when it returned `true`, left the error string alone. -/
def Stepped (before : Context) (ok : Bool) (after : Context) (new : List PrinterOp) : Prop :=
  after.printer = before.printer ++ new ∧ after.proto_package = before.proto_package
    ∧ (ok = true → after.error = before.error)

/-- None of the printer calls is a struct declaration header. -/
def NoStruct (new : List PrinterOp) : Prop := ∀ op ∈ new, isStructDecl op = false

/-- A call that returned left its context by a step that printed no struct declaration
header; `ctx` reads the context off the returned state. -/
def Clean {σ : Type} (ctx : σ → Context) (before : Context) : Outcome σ → Prop
  | .returned ok state => ∃ new, Stepped before ok (ctx state) new ∧ NoStruct new
  | .aborted => True

mutual
/-- The messages a complete run of `PrintMessage` on a message enters, in the order of their
struct headers: the message itself, then, for each nested message that is no map entry, in
declaration order, the messages entered for it. -/
def EnteredMessages : Descriptor → List Descriptor
  | .mk full_name is_map_entry fields oneof_decls nested_types enum_types =>
    .mk full_name is_map_entry fields oneof_decls nested_types enum_types
      :: EnteredNested nested_types
/-- The messages entered for a list of nested messages. -/
def EnteredNested : List Descriptor → List Descriptor
  | [] => []
  | nested_type :: rest =>
    if nested_type.is_map_entry then EnteredNested rest
    else EnteredMessages nested_type ++ EnteredNested rest
end

/-- The step from `before` to `after` printed the struct declaration headers of `entered`, a
prefix of the messages `all` of a complete run and all of them when the call returned `true`,
in that order, and no other struct declaration header. -/
def StructsEntered (before : Context) (ok : Bool) (after : Context) (all : List Descriptor) :
    Prop :=
  ∃ (new : List PrinterOp) (entered : List Descriptor),
    Stepped before ok after new ∧ entered <+: all ∧ (ok = true → entered = all)
    ∧ (new.filter isStructDecl).map some = entered.map (StructDecl before.proto_package)

/-- The struct declarations a call printed, when it returned, are those of `all`. -/
def Outcome.structsEntered (before : Context) (all : List Descriptor) :
    Outcome (Context × TypeAliasMap) → Prop
  | .returned ok state => StructsEntered before ok state.1 all
  | .aborted => True

/-- The aliases of a registry are pairwise distinct: each alias is bound once. -/
def KeysDistinct (al : TypeAliasMap) : Prop := (al.map Prod.fst).Nodup

/-- The registry a call leaves behind, when it returns, binds each alias once. -/
def Outcome.keysDistinct : Outcome (Context × TypeAliasMap) → Prop
  | .returned _ state => KeysDistinct state.2
  | .aborted => True

/-- The `<alias> :: distinct <underlying>` line of one registry entry (line 502). -/
def AliasLine (entry : String × String) : PrinterOp :=
  PrinterOp.Print (entry.1 ++ " :: distinct " ++ entry.2 ++ "\n")

/-- The rendering of one enum as claim C16 words it: the header with the flattened name, one
`<name> = <number>` line per value in declaration order, the closing brace. -/
def EnumLines (enum_desc : EnumDescriptor) (package_name : String) : Option (List PrinterOp) :=
  (ConvertFullTypeName enum_desc.full_name package_name).map (fun name =>
    [PrinterOp.Print ("\n" ++ name ++ " :: enum \x7b\n"), PrinterOp.Indent]
      ++ enum_desc.values.map
          (fun v => PrinterOp.Print (v.name ++ " = " ++ toString v.number ++ ",\n"))
      ++ [PrinterOp.Outdent, PrinterOp.Print "\x7d\n"])

/-- The calls `step x` for the elements `x` of a list are made in list order, each on the
state the previous one left, and each returns `true`; `final` is the state after the last. -/
def RunsInOrder {α σ : Type} (step : α → σ → Outcome σ) : List α → σ → σ → Prop
  | [], start, final => final = start
  | x :: rest, start, final =>
    ∃ mid, step x start = Outcome.returned true mid ∧ RunsInOrder step rest mid final

/-- `PrintOneof` on a state: the context paired with the alias registry. -/
def PrintOneofStep (oneof_desc : OneofDescriptor) (state : Context × TypeAliasMap) :
    Outcome (Context × TypeAliasMap) :=
  PrintOneof oneof_desc state.1 state.2

/-- `PrintMessage` on a state: the context paired with the alias registry. -/
def PrintMessageStep (message_desc : Descriptor) (state : Context × TypeAliasMap) :
    Outcome (Context × TypeAliasMap) :=
  PrintMessage message_desc state.1 state.2

/-- The traversal of `PrintMessage message_desc` from the state `start` gets to the call of
`PrintOneof oneof_desc` on the state `at_oneof`, everything before that call having returned
`true`: the oneof is one of the message's own (the fields and the oneofs declared before it
are done), or it is reached inside a nested message that is no map entry (the fields, all
own oneofs and the nested messages declared before that one are done). -/
inductive ReachesOneof : Descriptor → Context × TypeAliasMap → OneofDescriptor →
    Context × TypeAliasMap → Prop where
  | own (message_desc : Descriptor) (start : Context × TypeAliasMap) (name : String)
      (c1 : Context) (before : List OneofDescriptor) (oneof_desc : OneofDescriptor)
      (after : List OneofDescriptor) (at_oneof : Context × TypeAliasMap) :
      message_desc.is_map_entry = false →
      ConvertFullTypeName message_desc.full_name start.1.proto_package = some name →
      PrintMessageFields message_desc.fields
          (start.1.Print ("\n" ++ name ++ " :: struct \x7b\n")).Indent
        = Outcome.returned true c1 →
      message_desc.oneof_decls = before ++ oneof_desc :: after →
      PrintMessageOneofs before c1 start.2 = Outcome.returned true at_oneof →
      ReachesOneof message_desc start oneof_desc at_oneof
  | nested (message_desc : Descriptor) (start : Context × TypeAliasMap) (name : String)
      (c1 : Context) (s2 : Context × TypeAliasMap) (before : List Descriptor)
      (nested_type : Descriptor) (after : List Descriptor) (s3 : Context × TypeAliasMap)
      (oneof_desc : OneofDescriptor) (at_oneof : Context × TypeAliasMap) :
      message_desc.is_map_entry = false →
      ConvertFullTypeName message_desc.full_name start.1.proto_package = some name →
      PrintMessageFields message_desc.fields
          (start.1.Print ("\n" ++ name ++ " :: struct \x7b\n")).Indent
        = Outcome.returned true c1 →
      PrintMessageOneofs message_desc.oneof_decls c1 start.2 = Outcome.returned true s2 →
      message_desc.nested_types = before ++ nested_type :: after →
      PrintNestedTypes before (s2.1.Outdent.Print "\x7d\n") s2.2 = Outcome.returned true s3 →
      nested_type.is_map_entry = false →
      ReachesOneof nested_type s3 oneof_desc at_oneof →
      ReachesOneof message_desc start oneof_desc at_oneof

/-- The traversal of `PrintFile` gets to the call of `PrintOneof oneof_desc` on `at_oneof`:
the top-level messages before the one that holds it are done, from the empty registry. -/
def FileReachesOneof (file_desc : FileDescriptor) (context : Context)
    (oneof_desc : OneofDescriptor) (at_oneof : Context × TypeAliasMap) : Prop :=
  ∃ (before : List Descriptor) (message_type : Descriptor) (after : List Descriptor)
    (s1 : Context × TypeAliasMap),
    file_desc.message_types = before ++ message_type :: after
    ∧ PrintFileMessages before
        (context.Print ("\npackage " ++ PackageName file_desc ++ "\n")) []
      = Outcome.returned true s1
    ∧ ReachesOneof message_type s1 oneof_desc at_oneof

/-- Two members of the same message type `b.M`, declared in a file of another package. -/
def exampleForeignOneof : OneofDescriptor :=
  { name := "shape",
    fields := [messageMember "first" 5 "b.M" "M" 3, messageMember "second" 9 "b.M" "M" 4] }

/-- One of the steps `PrintMessage` makes for the message itself aborts in some context of
the package: resolving the name of the message for the struct header (line 409), printing its
fields outside a oneof, printing its oneofs, or printing its enums. -/
def OwnPartAborts (message_desc : Descriptor) (package_name : String) : Prop :=
  ConvertFullTypeName message_desc.full_name package_name = none
  ∨ (∃ c : Context, c.proto_package = package_name
      ∧ PrintMessageFields message_desc.fields c = Outcome.aborted)
  ∨ (∃ (c : Context) (al : TypeAliasMap), c.proto_package = package_name
      ∧ PrintMessageOneofs message_desc.oneof_decls c al = Outcome.aborted)
  ∨ (∃ c : Context, c.proto_package = package_name
      ∧ PrintEnums message_desc.enum_types c = Outcome.aborted)

/-- Message `pkg.Holder` whose only oneof fails (an override and a duplicate key), with the
nested message `Part`. -/
def exampleCutShort : Descriptor :=
  .mk "pkg.Holder" false exampleC3Forced.fields [exampleC3Forced]
    [.mk "pkg.Holder.Part" false [] [] [] []] []

/-! ## Name Resolver -/

theorem replaceDots_data (s : String) :
    (replaceDots s).data = s.data.map (fun c => if c = '.' then '_' else c) := rfl

theorem replaceDots_no_dot (s : String) : '.' ∉ (replaceDots s).data := by
  rw [replaceDots_data]
  intro h
  obtain ⟨c, _, hc⟩ := List.mem_map.mp h
  by_cases hd : c = '.'
  · rw [if_pos hd] at hc
    exact absurd hc (by decide)
  · rw [if_neg hd] at hc
    exact hd hc

theorem string_length_eq (s : String) : s.length = s.data.length := rfl

theorem ConvertFullTypeName_empty_package (full_name : String) :
    ConvertFullTypeName full_name "" = some (replaceDots full_name) := by
  simp [ConvertFullTypeName]

theorem ConvertFullTypeName_strip (P rest : String) (hP : P ≠ "") :
    ConvertFullTypeName (P ++ "." ++ rest) P = some (replaceDots rest) := by
  have hlen : (P ++ "." ++ rest).length = P.length + 1 + rest.length := by
    rw [String.length_append, String.length_append]
    rfl
  have hdrop : (P ++ "." ++ rest).data.drop (P.length + 1) = rest.data := by
    have h1 : (P ++ "." ++ rest).data = (P.data ++ ['.']) ++ rest.data := by
      simp [String.data_append]
    rw [h1]
    have h2 : (P.data ++ ['.']).length = P.length + 1 := by
      rw [List.length_append, string_length_eq]
      rfl
    rw [← h2, List.drop_left]
  unfold ConvertFullTypeName
  simp only [if_neg hP]
  rw [if_neg (by omega), hdrop]

/-! ## Validation loop -/

theorem ValidateLoop_prefix (pre rest : List FieldDescriptor) :
    ∀ (pairs : List (String × Bool)) (force_tagged : Bool) (used : List String)
      (context : Context) (out : Bool),
      pre.map OneofFieldTypeKey = pairs.map (fun p => FieldTypeKey.key p.1 p.2) →
      (pairs.map Prod.fst).Nodup →
      (∀ k ∈ pairs.map Prod.fst, k ∉ used) →
      ValidateOneofFieldTypesLoop (pre ++ rest) force_tagged used context out =
        ValidateOneofFieldTypesLoop rest (force_tagged || pairs.any (fun p => p.2))
          ((pairs.map Prod.fst).reverse ++ used) context out := by
  induction pre with
  | nil =>
    intro pairs force_tagged used context out hkeys _ _
    cases pairs with
    | nil => simp
    | cons p ps => simp at hkeys
  | cons f pre ih =>
    intro pairs force_tagged used context out hkeys hnodup hdisj
    cases pairs with
    | nil => simp at hkeys
    | cons p ps =>
      simp only [List.map_cons, List.cons.injEq] at hkeys
      obtain ⟨hf, hrest⟩ := hkeys
      simp only [List.map_cons, List.nodup_cons] at hnodup
      obtain ⟨hp, hnd⟩ := hnodup
      have hpu : p.1 ∉ used := hdisj p.1 (by simp)
      have hdisj2 : ∀ k ∈ ps.map Prod.fst, k ∉ p.1 :: used := by
        intro k hk hmem
        rcases List.mem_cons.mp hmem with h | h
        · exact hp (h ▸ hk)
        · exact hdisj k (by simp at hk ⊢; right; exact hk) h
      rw [List.cons_append, ValidateOneofFieldTypesLoop, hf]
      simp only [if_neg hpu]
      rw [ih ps (force_tagged || p.2) (p.1 :: used) context out hrest hnd hdisj2]
      simp [Bool.or_assoc]

theorem ValidateLoop_unforced (fields : List FieldDescriptor) :
    ∀ (keys used : List String) (context : Context) (out : Bool),
      fields.map OneofFieldTypeKey = keys.map (fun k => FieldTypeKey.key k false) →
      ValidateOneofFieldTypesLoop fields false used context out =
        Outcome.returned true (context, decide (keys.Nodup ∧ ∀ k ∈ keys, k ∉ used)) := by
  induction fields with
  | nil =>
    intro keys used context out hkeys
    cases keys with
    | nil => simp [ValidateOneofFieldTypesLoop]
    | cons k ks => simp at hkeys
  | cons f rest ih =>
    intro keys used context out hkeys
    cases keys with
    | nil => simp at hkeys
    | cons k ks =>
      simp only [List.map_cons, List.cons.injEq] at hkeys
      obtain ⟨hf, hrest⟩ := hkeys
      rw [ValidateOneofFieldTypesLoop, hf]
      by_cases hk : k ∈ used
      · simp [hk]
      · simp only [if_neg hk, Bool.or_false]
        rw [ih ks (k :: used) context out hrest]
        congr 2
        simp only [List.nodup_cons, List.mem_cons, decide_eq_decide]
        constructor
        · rintro ⟨hnd, hall⟩
          refine ⟨⟨fun hmem => (hall k hmem) (Or.inl rfl), hnd⟩, ?_⟩
          intro k2 hk2
          rcases hk2 with h | h
          · rw [h]; exact hk
          · exact fun hu => hall k2 h (Or.inr hu)
        · rintro ⟨⟨hnk, hnd⟩, hall⟩
          refine ⟨hnd, ?_⟩
          intro k2 hk2 hmem
          rcases hmem with h | h
          · exact hnk (h ▸ hk2)
          · exact hall k2 (Or.inr hk2) h

theorem options_none_of_key_false (f : FieldDescriptor) (k : String)
    (h : OneofFieldTypeKey f = FieldTypeKey.key k false) : f.options = none := by
  unfold OneofFieldTypeKey at h
  cases ho : f.options with
  | none => rfl
  | some o =>
    rw [ho] at h
    simp only at h
    split_ifs at h <;> simp at h

theorem key_of_no_override (f : FieldDescriptor) (hno : f.options = none)
    (hwf : f.type = TYPE_MESSAGE → f.message_type.full_name ≠ none) :
    OneofFieldTypeKey f = FieldTypeKey.key (UnforcedKey f) false := by
  unfold OneofFieldTypeKey UnforcedKey
  rw [hno]
  by_cases ht : f.type = TYPE_MESSAGE
  · simp only [if_pos ht]
    cases hm : f.message_type.full_name with
    | none => exact absurd hm (hwf ht)
    | some fn => simp
  · simp only [if_neg ht]

theorem keys_of_no_override (fields : List FieldDescriptor)
    (hno : ∀ f ∈ fields, f.options = none)
    (hwf : ∀ f ∈ fields, f.type = TYPE_MESSAGE → f.message_type.full_name ≠ none) :
    fields.map OneofFieldTypeKey
      = (fields.map UnforcedKey).map (fun k => FieldTypeKey.key k false) := by
  rw [List.map_map]
  apply List.map_congr_left
  intro f hf
  exact key_of_no_override f (hno f hf) (hwf f hf)

/-! ## Printing loops -/

theorem PrintField_eq (field : FieldDescriptor) (context : Context) :
    PrintField field context =
      match PrintFieldOutput field context.proto_package with
      | none => Outcome.aborted
      | some ops => Outcome.returned true { context with printer := context.printer ++ ops } := by
  unfold PrintFieldOutput PrintField
  cases hname : GetOdinFieldTypeName field context.proto_package with
  | none => simp
  | some odin_type =>
    cases hm : field.message_type <;> cases hp : field.is_packable <;>
      simp [Context.Print, List.append_assoc]

theorem PrintOneofRawLoop_eq (fields : List FieldDescriptor) :
    ∀ context : Context,
      PrintOneofRawLoop fields context =
        match allResults (fields.map (fun f => PrintFieldOutput f context.proto_package)) with
        | none => Outcome.aborted
        | some rendered =>
          Outcome.returned true { context with printer := context.printer ++ rendered.flatten } := by
  induction fields with
  | nil => intro context; simp [PrintOneofRawLoop, allResults]
  | cons f rest ih =>
    intro context
    rw [PrintOneofRawLoop, PrintField_eq]
    cases hf : PrintFieldOutput f context.proto_package with
    | none => simp [allResults, hf]
    | some ops =>
      simp only [List.map_cons, hf, allResults]
      rw [ih]
      cases hr : allResults (rest.map (fun f => PrintFieldOutput f context.proto_package)) with
      | none => simp [hr]
      | some rendered => simp [hr, List.append_assoc]

theorem PrintUnionDiscriminantEntries_eq (fields : List FieldDescriptor) :
    ∀ (idx : Nat) (context : Context),
      PrintUnionDiscriminantEntries fields idx context =
        { context with
            printer := context.printer ++
              (fields.enumFrom idx).map
                (fun p => PrinterOp.Print (p.2.name ++ " = " ++ toString p.1 ++ ",\n")) } := by
  induction fields with
  | nil => intro idx context; simp [PrintUnionDiscriminantEntries]
  | cons f rest ih =>
    intro idx context
    rw [PrintUnionDiscriminantEntries, ih]
    simp [Context.Print, List.enumFrom, List.append_assoc]

theorem PrintOneofTaggedLoop_no_override (fields : List FieldDescriptor) :
    ∀ (context : Context) (type_aliases : TypeAliasMap),
      (∀ f ∈ fields, f.options = none) →
      PrintOneofTaggedLoop fields context type_aliases =
        match allResults (fields.map (fun f => EffectiveType f context.proto_package)) with
        | none => Outcome.aborted
        | some spellings =>
          Outcome.returned true
            ({ context with printer := context.printer ++ variantLines spellings },
              type_aliases) := by
  induction fields with
  | nil => intro context type_aliases _; simp [PrintOneofTaggedLoop, allResults, variantLines]
  | cons f rest ih =>
    intro context type_aliases hno
    have hf : f.options = none := hno f (by simp)
    have hrest : ∀ g ∈ rest, g.options = none := fun g hg => hno g (by simp [hg])
    have hE : EffectiveType f context.proto_package =
        (if f.type = TYPE_MESSAGE then f.message_type.name
          else GetOdinFieldTypeName f context.proto_package) := by
      simp [EffectiveType, hf]
    rw [PrintOneofTaggedLoop, hf]
    simp only [List.map_cons, hE]
    by_cases ht : f.type = TYPE_MESSAGE
    · simp only [if_pos ht]
      cases hn : f.message_type.name with
      | none => simp [allResults]
      | some s =>
        simp only [allResults]
        rw [ih _ _ hrest]
        simp only [Context.Print]
        cases hr : allResults (rest.map (fun f => EffectiveType f context.proto_package)) with
        | none => simp
        | some sp => simp [variantLines, List.append_assoc]
    · simp only [if_neg ht]
      cases hn : GetOdinFieldTypeName f context.proto_package with
      | none => simp [allResults]
      | some s =>
        simp only [allResults]
        rw [ih _ _ hrest]
        simp only [Context.Print]
        cases hr : allResults (rest.map (fun f => EffectiveType f context.proto_package)) with
        | none => simp
        | some sp => simp [variantLines, List.append_assoc]

theorem PrintOneofTaggedLoop_append (pre rest : List FieldDescriptor) :
    ∀ (context : Context) (al : TypeAliasMap),
      PrintOneofTaggedLoop (pre ++ rest) context al =
        match PrintOneofTaggedLoop pre context al with
        | .aborted => Outcome.aborted
        | .returned false s => Outcome.returned false s
        | .returned true (c, a) => PrintOneofTaggedLoop rest c a := by
  induction pre with
  | nil => intro context al; simp [PrintOneofTaggedLoop]
  | cons f pre ih =>
    intro context al
    rw [List.cons_append, PrintOneofTaggedLoop]
    conv_rhs => rw [PrintOneofTaggedLoop]
    cases ho : f.options with
    | none =>
      simp only
      split_ifs
      · cases f.message_type.name with
        | none => rfl
        | some s => exact ih _ _
      · cases GetOdinFieldTypeName f context.proto_package with
        | none => rfl
        | some s => exact ih _ _
    | some o =>
      simp only
      by_cases h1 : o.has_external = true
      · simp only [h1, if_true]
        exact ih _ _
      · simp only [h1, Bool.false_eq_true, if_false]
        by_cases h2 : o.has_typedef_ = true
        · simp only [h2, if_true]
          generalize (if f.type = TYPE_MESSAGE then f.message_type.name
            else some (GetOdinBuiltinTypeName (GetOdinBuiltinType f.type))) = u?
          cases u? with
          | none => rfl
          | some underlying =>
            simp only
            split_ifs
            · unfold SetError
              cases f.source_location <;> rfl
            · exact ih _ _
        · simp only [h2, Bool.false_eq_true, if_false]
          exact ih _ _

theorem variant_line_ne_discriminant (s name : String) :
    s ++ ",\n" ≠ name ++ "_variant: enum \x7b\n" := by
  intro h
  have h2 := congrArg (fun t => t.data.reverse) h
  simp [String.data_append] at h2

theorem header_ne_discriminant (name : String) :
    "\n" ++ name ++ ": union \x7b\n" ≠ name ++ "_variant: enum \x7b\n" := by
  intro h
  have h2 := congrArg String.length h
  simp only [String.length_append] at h2
  have h3 : "\n".length = 1 := rfl
  have h4 : ": union \x7b\n".length = 10 := rfl
  have h5 : "_variant: enum \x7b\n".length = 17 := rfl
  omega

theorem close_ne_discriminant (name : String) :
    "\x7d,\n" ≠ name ++ "_variant: enum \x7b\n" := by
  intro h
  have h2 := congrArg String.length h
  simp only [String.length_append] at h2
  have h3 : "\x7d,\n".length = 3 := rfl
  have h5 : "_variant: enum \x7b\n".length = 17 := rfl
  omega

/-! ## Alias registry -/

theorem lookup_append_of_some (l1 l2 : TypeAliasMap) (a u : String)
    (h : l1.lookup a = some u) : (l1 ++ l2).lookup a = some u := by
  induction l1 with
  | nil => simp at h
  | cons p ps ih =>
    obtain ⟨k, v⟩ := p
    simp only [List.cons_append, List.lookup_cons] at h ⊢
    cases hk : a == k with
    | true => rw [hk] at h; exact h
    | false => rw [hk] at h; exact ih h

theorem RegistryKept.refl (al : TypeAliasMap) : RegistryKept al al :=
  ⟨List.prefix_refl al, fun _ _ h => h⟩

theorem RegistryKept.trans {a b c : TypeAliasMap} (h1 : RegistryKept a b)
    (h2 : RegistryKept b c) : RegistryKept a c :=
  ⟨h1.1.trans h2.1, fun k u h => h2.2 k u (h1.2 k u h)⟩

theorem RegistryKept.emplace (al : TypeAliasMap) (a u : String) :
    RegistryKept al (al.emplace a u).1 := by
  unfold TypeAliasMap.emplace
  cases h : List.lookup a al with
  | some e => exact RegistryKept.refl al
  | none => exact ⟨List.prefix_append al _, fun k v hk => lookup_append_of_some al _ k v hk⟩

theorem registryKept_of_step {before mid : TypeAliasMap}
    {r : Outcome (Context × TypeAliasMap)} (h1 : RegistryKept before mid)
    (h2 : r.registryKept mid) : r.registryKept before := by
  cases r with
  | aborted => trivial
  | returned ok s => exact RegistryKept.trans h1 h2

theorem SetError_registryKept (context : Context) (field : FieldDescriptor) (message : String)
    (before al : TypeAliasMap) (h : RegistryKept before al) :
    (SetError context field message (fun c => (c, al))).registryKept before := by
  unfold SetError
  cases field.source_location with
  | none => trivial
  | some loc => exact h

theorem PrintOneofTaggedLoop_registryKept (fields : List FieldDescriptor) :
    ∀ (context : Context) (al : TypeAliasMap),
      (PrintOneofTaggedLoop fields context al).registryKept al := by
  induction fields with
  | nil => intro context al; exact RegistryKept.refl al
  | cons f rest ih =>
    intro context al
    rw [PrintOneofTaggedLoop]
    cases ho : f.options with
    | none =>
      simp only
      split_ifs
      · cases f.message_type.name with
        | none => trivial
        | some s => exact ih _ _
      · cases GetOdinFieldTypeName f context.proto_package with
        | none => trivial
        | some s => exact ih _ _
    | some o =>
      simp only
      by_cases h1 : o.has_external = true
      · simp only [h1, if_true]
        exact ih _ _
      · simp only [h1, Bool.false_eq_true, if_false]
        by_cases h2 : o.has_typedef_ = true
        · simp only [h2, if_true]
          generalize (if f.type = TYPE_MESSAGE then f.message_type.name
            else some (GetOdinBuiltinTypeName (GetOdinBuiltinType f.type))) = u?
          cases u? with
          | none => trivial
          | some underlying =>
            simp only
            have hk := RegistryKept.emplace al o.typedef_ underlying
            split_ifs
            · exact SetError_registryKept _ _ _ _ _ hk
            · exact registryKept_of_step hk (ih _ _)
        · simp only [h2, Bool.false_eq_true, if_false]
          exact ih _ _

theorem PrintOneof_registryKept (oneof_desc : OneofDescriptor) (context : Context)
    (al : TypeAliasMap) : (PrintOneof oneof_desc context al).registryKept al := by
  unfold PrintOneof
  cases ValidateOneofFieldTypes oneof_desc context false with
  | aborted => trivial
  | returned ok s =>
    obtain ⟨c, tagged⟩ := s
    cases ok with
    | false => exact RegistryKept.refl al
    | true =>
      cases tagged with
      | true =>
        simp only [if_true]
        have h := PrintOneofTaggedLoop_registryKept oneof_desc.fields
          (c.Print ("\n" ++ oneof_desc.name ++ ": union \x7b\n")).Indent al
        cases hr : PrintOneofTaggedLoop oneof_desc.fields
            (c.Print ("\n" ++ oneof_desc.name ++ ": union \x7b\n")).Indent al with
        | aborted => trivial
        | returned ok2 s2 =>
          rw [hr] at h
          obtain ⟨c2, al2⟩ := s2
          cases ok2 <;> exact h
      | false =>
        simp only [Bool.false_eq_true, if_false]
        cases PrintOneofRawLoop oneof_desc.fields
            (c.Print ("\n" ++ oneof_desc.name ++ ": struct #raw_union \x7b\n")).Indent with
        | aborted => trivial
        | returned ok2 c2 => cases ok2 <;> exact RegistryKept.refl al

theorem PrintMessageOneofs_registryKept (oneofs : List OneofDescriptor) :
    ∀ (context : Context) (al : TypeAliasMap),
      (PrintMessageOneofs oneofs context al).registryKept al := by
  induction oneofs with
  | nil => intro context al; exact RegistryKept.refl al
  | cons o rest ih =>
    intro context al
    rw [PrintMessageOneofs]
    have h := PrintOneof_registryKept o context al
    cases hr : PrintOneof o context al with
    | aborted => trivial
    | returned ok s =>
      rw [hr] at h
      obtain ⟨c, al2⟩ := s
      cases ok with
      | false => exact h
      | true => exact registryKept_of_step h (ih c al2)

mutual
theorem PrintMessage_registryKept : ∀ (message_desc : Descriptor) (context : Context)
    (al : TypeAliasMap), (PrintMessage message_desc context al).registryKept al
  | .mk full_name is_map_entry fields oneof_decls nested_types enum_types, context, al => by
    rw [PrintMessage]
    cases is_map_entry with
    | true => trivial
    | false =>
      simp only [Bool.false_eq_true, if_false]
      cases ConvertFullTypeName full_name context.proto_package with
      | none => trivial
      | some name =>
        simp only
        cases PrintMessageFields fields
            (context.Print ("\n" ++ name ++ " :: struct \x7b\n")).Indent with
        | aborted => trivial
        | returned ok c =>
          cases ok with
          | false => exact RegistryKept.refl al
          | true =>
            simp only
            have h := PrintMessageOneofs_registryKept oneof_decls c al
            cases hr : PrintMessageOneofs oneof_decls c al with
            | aborted => trivial
            | returned ok2 s2 =>
              rw [hr] at h
              obtain ⟨c2, al2⟩ := s2
              cases ok2 with
              | false => exact h
              | true =>
                simp only
                have h3 := PrintNestedTypes_registryKept nested_types
                  (c2.Outdent.Print "\x7d\n") al2
                cases hr3 : PrintNestedTypes nested_types (c2.Outdent.Print "\x7d\n") al2 with
                | aborted => trivial
                | returned ok3 s3 =>
                  rw [hr3] at h3
                  obtain ⟨c3, al3⟩ := s3
                  cases ok3 with
                  | false => exact RegistryKept.trans h h3
                  | true =>
                    simp only
                    cases PrintEnums enum_types c3 with
                    | aborted => trivial
                    | returned ok4 c4 => exact RegistryKept.trans h h3
theorem PrintNestedTypes_registryKept : ∀ (nested_types : List Descriptor) (context : Context)
    (al : TypeAliasMap), (PrintNestedTypes nested_types context al).registryKept al
  | [], context, al => by
    rw [PrintNestedTypes]
    exact RegistryKept.refl al
  | nested_type :: rest, context, al => by
    rw [PrintNestedTypes]
    split_ifs
    · exact PrintNestedTypes_registryKept rest context al
    · have h := PrintMessage_registryKept nested_type context al
      cases hr : PrintMessage nested_type context al with
      | aborted => trivial
      | returned ok s =>
        rw [hr] at h
        obtain ⟨c, al2⟩ := s
        cases ok with
        | false => exact h
        | true => exact registryKept_of_step h (PrintNestedTypes_registryKept rest c al2)
end

theorem PrintFileMessages_registryKept (messages : List Descriptor) :
    ∀ (context : Context) (al : TypeAliasMap),
      (PrintFileMessages messages context al).registryKept al := by
  induction messages with
  | nil => intro context al; exact RegistryKept.refl al
  | cons m rest ih =>
    intro context al
    rw [PrintFileMessages]
    have h := PrintMessage_registryKept m context al
    cases hr : PrintMessage m context al with
    | aborted => trivial
    | returned ok s =>
      rw [hr] at h
      obtain ⟨c, al2⟩ := s
      cases ok with
      | false => exact h
      | true => exact registryKept_of_step h (ih c al2)

/-! ## Claims -/

/-- C1 (as amended): for every oneof group whose members carry no override and have pairwise
distinct discriminating keys (`keys`: the message full name for a `TYPE_MESSAGE` member, the
mapped builtin name otherwise, which is empty for every enum- or group-typed member),
`ValidateOneofFieldTypes` succeeds and selects the tagged union, and `PrintOneof`, unless
resolving a member's type name aborts, emits the `<oneof>: union` header, one variant line per
member in declaration order, the closing line, and no `<oneof>_variant` discriminant. -/
theorem C1_distinct_keys_tagged_union (oneof_desc : OneofDescriptor) (context : Context)
    (type_aliases : TypeAliasMap) (out : Bool) (keys : List String)
    (hkeys : oneof_desc.fields.map OneofFieldTypeKey
      = keys.map (fun k => FieldTypeKey.key k false))
    (hnodup : keys.Nodup) :
    ValidateOneofFieldTypes oneof_desc context out = Outcome.returned true (context, true)
    ∧ PrintOneof oneof_desc context type_aliases =
        (match allResults
            (oneof_desc.fields.map (fun f => EffectiveType f context.proto_package)) with
          | none => Outcome.aborted
          | some spellings =>
            Outcome.returned true
              ({ context with
                  printer := context.printer
                    ++ ([PrinterOp.Print ("\n" ++ oneof_desc.name ++ ": union \x7b\n"),
                          PrinterOp.Indent]
                        ++ variantLines spellings
                        ++ [PrinterOp.Outdent, PrinterOp.Print "\x7d,\n"]) },
                type_aliases))
    ∧ ∀ spellings : List String,
        PrinterOp.Print (oneof_desc.name ++ "_variant: enum \x7b\n")
          ∉ [PrinterOp.Print ("\n" ++ oneof_desc.name ++ ": union \x7b\n"), PrinterOp.Indent]
              ++ variantLines spellings ++ [PrinterOp.Outdent, PrinterOp.Print "\x7d,\n"] := by
  have hval : ∀ o : Bool, ValidateOneofFieldTypes oneof_desc context o
      = Outcome.returned true (context, true) := by
    intro o
    unfold ValidateOneofFieldTypes
    rw [ValidateLoop_unforced oneof_desc.fields keys [] context o hkeys]
    simp [hnodup]
  have hno : ∀ f ∈ oneof_desc.fields, f.options = none := by
    intro f hf
    have hmem : OneofFieldTypeKey f ∈ oneof_desc.fields.map OneofFieldTypeKey :=
      List.mem_map_of_mem _ hf
    rw [hkeys] at hmem
    obtain ⟨k, _, hk⟩ := List.mem_map.mp hmem
    exact options_none_of_key_false f k hk.symm
  refine ⟨hval out, ?_, ?_⟩
  · unfold PrintOneof
    rw [hval false]
    simp only [if_true]
    rw [PrintOneofTaggedLoop_no_override _ _ _ hno]
    simp only [Context.Print, Context.Indent, Context.Outdent]
    cases allResults (oneof_desc.fields.map (fun f => EffectiveType f context.proto_package)) with
    | none => rfl
    | some sp => simp [List.append_assoc]
  · intro spellings hmem
    simp only [List.mem_append, List.mem_cons, List.mem_singleton, variantLines, List.mem_map,
      PrinterOp.Print.injEq, List.not_mem_nil, or_false, reduceCtorEq, false_or] at hmem
    rcases hmem with (h | ⟨s, _, h⟩) | h
    · exact header_ne_discriminant _ h.symm
    · exact variant_line_ne_discriminant s _ h
    · exact close_ne_discriminant _ h.symm

/-- C1: the amended statement at a oneof over `int32`, a message, an enum and `string`. -/
theorem C1_distinct_keys_tagged_union_witness :
    ValidateOneofFieldTypes exampleC1 (startContext "pkg") false
      = Outcome.returned true (startContext "pkg", true)
    ∧ PrintOneof exampleC1 (startContext "pkg") []
      = Outcome.returned true
          ({ startContext "pkg" with
              printer := [PrinterOp.Print "\nvalue: union \x7b\n", PrinterOp.Indent,
                PrinterOp.Print "i32,\n", PrinterOp.Print "Item,\n", PrinterOp.Print "Color,\n",
                PrinterOp.Print "string,\n", PrinterOp.Outdent, PrinterOp.Print "\x7d,\n"] },
            []) := by
  have h := C1_distinct_keys_tagged_union exampleC1 (startContext "pkg") [] false
    ["i32", "pkg.Item", "", "string"] (by decide) (by decide)
  exact ⟨h.1, h.2.1.trans (by decide)⟩

/-- C1 fails as stated: two members of distinct enum types and no override share the empty
key, so the fallback representation with its `kind_variant` discriminant is chosen. -/
theorem C1_counterexample :
    (∀ f ∈ exampleTwoEnums.fields, f.options = none)
    ∧ (exampleTwoEnums.fields.map (fun f => f.enum_type)).Nodup
    ∧ ValidateOneofFieldTypes exampleTwoEnums (startContext "pkg") true
        = Outcome.returned true (startContext "pkg", false)
    ∧ PrintOneof exampleTwoEnums (startContext "pkg") []
        = Outcome.returned true
            ({ startContext "pkg" with
                printer := [PrinterOp.Print "\nkind: struct #raw_union \x7b\n", PrinterOp.Indent,
                  PrinterOp.Print "color : Color `", PrinterOp.Print "id:\"1\"",
                  PrinterOp.Print " type:\"14\"", PrinterOp.Print "`,\n",
                  PrinterOp.Print "shape : Shape `", PrinterOp.Print "id:\"2\"",
                  PrinterOp.Print " type:\"14\"", PrinterOp.Print "`,\n",
                  PrinterOp.Outdent, PrinterOp.Print "\x7d,\n",
                  PrinterOp.Print "kind_variant: enum \x7b\n", PrinterOp.Indent,
                  PrinterOp.Print "color = 0,\n", PrinterOp.Print "shape = 1,\n",
                  PrinterOp.Outdent, PrinterOp.Print "\x7d,\n"] },
              []) := by
  refine ⟨by decide, by decide, by decide, by decide⟩

/-- For every oneof group without overrides in which two members `a` and `b` have the same
message type `m`, `ValidateOneofFieldTypes` succeeds and selects the fallback, and
`PrintOneof` aborts when a `PrintField` call aborts and otherwise emits the
`struct #raw_union` header, the members as `PrintField` renders them in declaration order,
the closing line, and immediately after it the `<oneof>_variant: enum` whose entries are the
member names in declaration order numbered by position from 0. -/
theorem same_message_type_falls_back (oneof_desc : OneofDescriptor) (context : Context)
    (type_aliases : TypeAliasMap) (out : Bool) (l1 l2 l3 : List FieldDescriptor)
    (a b : FieldDescriptor) (m : String)
    (hfields : oneof_desc.fields = l1 ++ a :: (l2 ++ b :: l3))
    (hno : ∀ f ∈ oneof_desc.fields, f.options = none)
    (hwf : ∀ f ∈ oneof_desc.fields, f.type = TYPE_MESSAGE → f.message_type.full_name ≠ none)
    (ha : a.type = TYPE_MESSAGE) (hb : b.type = TYPE_MESSAGE)
    (ham : a.message_type.full_name = some m) (hbm : b.message_type.full_name = some m) :
    ValidateOneofFieldTypes oneof_desc context out = Outcome.returned true (context, false)
    ∧ PrintOneof oneof_desc context type_aliases =
        (match allResults
            (oneof_desc.fields.map (fun f => PrintFieldOutput f context.proto_package)) with
          | none => Outcome.aborted
          | some rendered =>
            Outcome.returned true
              ({ context with
                  printer := context.printer
                    ++ ([PrinterOp.Print ("\n" ++ oneof_desc.name ++ ": struct #raw_union \x7b\n"),
                          PrinterOp.Indent]
                        ++ rendered.flatten
                        ++ [PrinterOp.Outdent, PrinterOp.Print "\x7d,\n"]
                        ++ [PrinterOp.Print (oneof_desc.name ++ "_variant: enum \x7b\n"),
                          PrinterOp.Indent]
                        ++ oneof_desc.fields.enum.map
                            (fun p => PrinterOp.Print (p.2.name ++ " = " ++ toString p.1 ++ ",\n"))
                        ++ [PrinterOp.Outdent, PrinterOp.Print "\x7d,\n"]) },
                type_aliases)) := by
  have hkeys := keys_of_no_override oneof_desc.fields hno hwf
  have hka : UnforcedKey a = m := by simp [UnforcedKey, ha, ham]
  have hkb : UnforcedKey b = m := by simp [UnforcedKey, hb, hbm]
  have hnd : ¬ (oneof_desc.fields.map UnforcedKey).Nodup := by
    rw [hfields]
    simp [List.nodup_append, hka, hkb]
  have hval : ∀ o : Bool, ValidateOneofFieldTypes oneof_desc context o
      = Outcome.returned true (context, false) := by
    intro o
    unfold ValidateOneofFieldTypes
    rw [ValidateLoop_unforced oneof_desc.fields _ [] context o hkeys]
    simp [hnd]
  refine ⟨hval out, ?_⟩
  unfold PrintOneof
  rw [hval false]
  simp only [Bool.false_eq_true, if_false]
  rw [PrintOneofRawLoop_eq]
  simp only [Context.Print, Context.Indent, Context.Outdent]
  cases allResults (oneof_desc.fields.map (fun f => PrintFieldOutput f context.proto_package)) with
  | none => rfl
  | some rendered =>
    simp [PrintUnionDiscriminantField, PrintUnionDiscriminantEntries_eq, Context.Print,
      Context.Indent, Context.Outdent, List.enum, List.append_assoc]

/-- C2 at the failing input: the oneof `shape` has no override and two members of the same
message type `b.M`, imported into a file of package `long.pkg`; validation selects the
fallback, and `PrintOneof` aborts (`ConvertFullTypeName` is out of range in `PrintField`)
instead of emitting the raw union.  Everywhere else the code does what the claim says:
validation succeeds with the fallback, and when every member is rendered `PrintOneof` emits
the `struct #raw_union` header, the members as `PrintField` renders them in declaration
order, the closing line, and immediately after it the `<oneof>_variant: enum` whose entries
are the member names in declaration order numbered by position from 0, whatever the members'
field numbers are. -/
theorem C2_raw_union_aborts_on_foreign_type :
    (∀ f ∈ exampleForeignOneof.fields, f.options = none)
    ∧ exampleForeignOneof.fields.map (fun f => (f.type, f.message_type.full_name))
        = [(TYPE_MESSAGE, some "b.M"), (TYPE_MESSAGE, some "b.M")]
    ∧ ValidateOneofFieldTypes exampleForeignOneof (startContext "long.pkg") true
        = Outcome.returned true (startContext "long.pkg", false)
    ∧ PrintOneof exampleForeignOneof (startContext "long.pkg") [] = Outcome.aborted
    ∧ (∀ (oneof_desc : OneofDescriptor) (context : Context) (type_aliases : TypeAliasMap)
        (out : Bool) (l1 l2 l3 : List FieldDescriptor) (a b : FieldDescriptor) (m : String),
        oneof_desc.fields = l1 ++ a :: (l2 ++ b :: l3) →
        (∀ f ∈ oneof_desc.fields, f.options = none) →
        (∀ f ∈ oneof_desc.fields, f.type = TYPE_MESSAGE → f.message_type.full_name ≠ none) →
        a.type = TYPE_MESSAGE → b.type = TYPE_MESSAGE →
        a.message_type.full_name = some m → b.message_type.full_name = some m →
        ValidateOneofFieldTypes oneof_desc context out = Outcome.returned true (context, false)
        ∧ PrintOneof oneof_desc context type_aliases =
            (match allResults
                (oneof_desc.fields.map (fun f => PrintFieldOutput f context.proto_package)) with
              | none => Outcome.aborted
              | some rendered =>
                Outcome.returned true
                  ({ context with
                      printer := context.printer
                        ++ ([PrinterOp.Print
                              ("\n" ++ oneof_desc.name ++ ": struct #raw_union \x7b\n"),
                              PrinterOp.Indent]
                            ++ rendered.flatten
                            ++ [PrinterOp.Outdent, PrinterOp.Print "\x7d,\n"]
                            ++ [PrinterOp.Print (oneof_desc.name ++ "_variant: enum \x7b\n"),
                              PrinterOp.Indent]
                            ++ oneof_desc.fields.enum.map
                                (fun p =>
                                  PrinterOp.Print (p.2.name ++ " = " ++ toString p.1 ++ ",\n"))
                            ++ [PrinterOp.Outdent, PrinterOp.Print "\x7d,\n"]) },
                    type_aliases))) :=
  ⟨by decide, by decide, by decide, by decide,
    same_message_type_falls_back⟩

/-- C2: the general part at two members of type `pkg.Point` numbered 5 and 9, which get the
values 0 and 1. -/
theorem C2_raw_union_aborts_on_foreign_type_witness :
    ValidateOneofFieldTypes exampleC2 (startContext "pkg") true
      = Outcome.returned true (startContext "pkg", false)
    ∧ PrintOneof exampleC2 (startContext "pkg") []
      = Outcome.returned true
          ({ startContext "pkg" with
              printer := [PrinterOp.Print "\nshape: struct #raw_union \x7b\n", PrinterOp.Indent,
                PrinterOp.Print "first : Point `", PrinterOp.Print "id:\"5\"",
                PrinterOp.Print " type:\"11\"", PrinterOp.Print "`,\n",
                PrinterOp.Print "second : Point `", PrinterOp.Print "id:\"9\"",
                PrinterOp.Print " type:\"11\"", PrinterOp.Print "`,\n",
                PrinterOp.Outdent, PrinterOp.Print "\x7d,\n",
                PrinterOp.Print "shape_variant: enum \x7b\n", PrinterOp.Indent,
                PrinterOp.Print "first = 0,\n", PrinterOp.Print "second = 1,\n",
                PrinterOp.Outdent, PrinterOp.Print "\x7d,\n"] },
            []) := by
  have h := C2_raw_union_aborts_on_foreign_type.2.2.2.2 exampleC2 (startContext "pkg") [] true
    [] [] []
    (messageMember "first" 5 "pkg.Point" "Point" 3)
    (messageMember "second" 9 "pkg.Point" "Point" 4) "pkg.Point" rfl (by decide) (by decide)
    (by decide) (by decide) (by decide) (by decide)
  exact ⟨h.1, h.2.trans (by decide)⟩


/-- C3 (as amended): when the first duplicate key occurs at member `f`, every earlier member
has a key, and `f` or an earlier member carries an override, `ValidateOneofFieldTypes` fails
with the conflict error on the line of `f`, naming the key and the name of `f` and the
overrides; `*out_use_tagged_union` is left untouched, so no representation is chosen. -/
theorem C3_forced_duplicate_is_conflict (oneof_desc : OneofDescriptor) (context : Context)
    (out : Bool) (pre post : List FieldDescriptor) (f : FieldDescriptor)
    (pairs : List (String × Bool)) (k : String) (e : Bool) (loc : SourceLocation)
    (hfields : oneof_desc.fields = pre ++ f :: post)
    (hpre : pre.map OneofFieldTypeKey = pairs.map (fun p => FieldTypeKey.key p.1 p.2))
    (hnodup : (pairs.map Prod.fst).Nodup)
    (hf : OneofFieldTypeKey f = FieldTypeKey.key k e)
    (hdup : k ∈ pairs.map Prod.fst)
    (hforced : e = true ∨ true ∈ pairs.map Prod.snd)
    (hloc : f.source_location = some loc) :
    ValidateOneofFieldTypes oneof_desc context out
      = Outcome.returned false
          ({ context with
              error := "line " ++ toString (loc.start_line + 1) ++ ": "
                ++ ("Duplicate Odin union type " ++ k ++ " for field " ++ f.name
                  ++ " after applying (odin).external/typedef overrides") }, out) := by
  have hforce : (false || pairs.any (fun p => p.2) || e) = true := by
    rcases hforced with h | h
    · simp [h]
    · have : pairs.any (fun p => p.2) = true := by
        rw [List.any_eq_true]
        obtain ⟨p, hp, hp2⟩ := List.mem_map.mp h
        exact ⟨p, hp, hp2⟩
      simp [this]
  unfold ValidateOneofFieldTypes
  rw [hfields, ValidateLoop_prefix pre (f :: post) pairs false [] context out hpre hnodup
    (by simp)]
  rw [ValidateOneofFieldTypesLoop, hf]
  have hmem : k ∈ (pairs.map Prod.fst).reverse ++ [] := by simpa using hdup
  simp only [hmem, hforce, if_true, SetError, hloc]

/-- C3: the amended statement at an override on the first member and a duplicate `string`
at the third. -/
theorem C3_forced_duplicate_is_conflict_witness :
    ValidateOneofFieldTypes exampleC3Forced (startContext "pkg") true
      = Outcome.returned false
          ({ startContext "pkg" with
              error := "line 6: Duplicate Odin union type string for field c after applying (odin).external/typedef overrides" },
            true) :=
  (C3_forced_duplicate_is_conflict exampleC3Forced (startContext "pkg") true
    [overrideMember "a" 1 TYPE_INT32 3 { external? := some "Foo", typedef? := none },
      scalarMember "b" 2 TYPE_STRING 4]
    [scalarMember "d" 4 TYPE_BOOL 6] (scalarMember "c" 3 TYPE_STRING 5)
    [("Foo", true), ("string", false)] "string" false ⟨5⟩
    rfl (by decide) (by decide) (by decide) (by decide) (Or.inr (by decide)) rfl).trans
    (by decide)

/-- C3 fails as stated: a member with the non-empty override `Foo` comes after the first
duplicate (`a` and `b` are both `i32`), and the scan has already returned with the fallback. -/
theorem C3_counterexample :
    (overrideMember "c" 3 TYPE_STRING 5 { external? := some "Foo", typedef? := none }
        ∈ exampleC3.fields)
    ∧ OneofFieldTypeKey (scalarMember "a" 1 TYPE_INT32 3)
        = OneofFieldTypeKey (scalarMember "b" 2 TYPE_INT32 4)
    ∧ ValidateOneofFieldTypes exampleC3 (startContext "pkg") true
        = Outcome.returned true (startContext "pkg", false) := by
  refine ⟨?_, ?_, ?_⟩
  · simp [exampleC3]
  · decide
  · decide

/-- C4: when the first duplicate key occurs at member `f` and neither `f` nor an earlier
member carries an override, `ValidateOneofFieldTypes` succeeds with the fallback whatever the
members `post` after `f` are. -/
theorem C4_scan_short_circuits (oneof_desc : OneofDescriptor) (context : Context) (out : Bool)
    (pre post : List FieldDescriptor) (f : FieldDescriptor) (keys : List String) (k : String)
    (hfields : oneof_desc.fields = pre ++ f :: post)
    (hpre : pre.map OneofFieldTypeKey = keys.map (fun k => FieldTypeKey.key k false))
    (hnodup : keys.Nodup)
    (hf : OneofFieldTypeKey f = FieldTypeKey.key k false)
    (hdup : k ∈ keys) :
    ValidateOneofFieldTypes oneof_desc context out = Outcome.returned true (context, false) := by
  have hpre2 : pre.map OneofFieldTypeKey
      = (keys.map (fun k => (k, false))).map (fun p => FieldTypeKey.key p.1 p.2) := by
    rw [hpre, List.map_map]; rfl
  have hfst : (keys.map (fun k => (k, false))).map Prod.fst = keys := by
    rw [List.map_map]; simp [Function.comp_def]
  have hany : (keys.map (fun k => (k, false))).any (fun p => p.2) = false := by
    simp
  unfold ValidateOneofFieldTypes
  rw [hfields, ValidateLoop_prefix pre (f :: post) _ false [] context out hpre2
    (by rw [hfst]; exact hnodup) (by simp)]
  rw [hfst, hany, ValidateOneofFieldTypesLoop, hf]
  simp [hdup]

/-- C4 at a oneof whose members after the duplicate hold an empty `external` override and a
further duplicate. -/
theorem C4_scan_short_circuits_witness :
    ValidateOneofFieldTypes exampleC4 (startContext "pkg") true
      = Outcome.returned true (startContext "pkg", false) :=
  C4_scan_short_circuits exampleC4 (startContext "pkg") true
    [scalarMember "a" 1 TYPE_INT32 3]
    [overrideMember "c" 3 TYPE_STRING 5 { external? := some "", typedef? := none },
      scalarMember "d" 4 TYPE_INT32 6]
    (scalarMember "b" 2 TYPE_SINT32 4) ["i32"] "i32" rfl (by decide) (by decide) (by decide)
    (by decide)

/-- C5: in the tagged-union loop of `PrintOneof`, at a member whose `typedef` alias is already
registered (`registered`), the registration leaves the registry as it is and the loop goes on
with the next member when the new underlying type equals the registered one, and `PrintOneof`
fails with the alias-redefinition error naming the alias and both underlying types when they
differ. -/
theorem C5_alias_reregistration (oneof_desc : OneofDescriptor) (context : Context)
    (type_aliases : TypeAliasMap) (pre rest : List FieldDescriptor) (field : FieldDescriptor)
    (options : OdinOptions) (alias_ underlying registered : String) (c1 : Context)
    (a1 : TypeAliasMap) (loc : SourceLocation)
    (hfields : oneof_desc.fields = pre ++ field :: rest)
    (hval : ValidateOneofFieldTypes oneof_desc context false
      = Outcome.returned true (context, true))
    (hpre : PrintOneofTaggedLoop pre
        (context.Print ("\n" ++ oneof_desc.name ++ ": union \x7b\n")).Indent type_aliases
      = Outcome.returned true (c1, a1))
    (hopt : field.options = some options) (hext : options.external? = none)
    (htd : options.typedef? = some alias_)
    (hund : (if field.type = TYPE_MESSAGE then field.message_type.name
        else some (GetOdinBuiltinTypeName (GetOdinBuiltinType field.type))) = some underlying)
    (hreg : a1.lookup alias_ = some registered)
    (hloc : field.source_location = some loc) :
    (registered = underlying →
      a1.emplace alias_ underlying = (a1, registered, false)
      ∧ PrintOneof oneof_desc context type_aliases =
        match PrintOneofTaggedLoop rest (c1.Print (alias_ ++ ",\n")) a1 with
        | .aborted => Outcome.aborted
        | .returned false s => Outcome.returned false s
        | .returned true (c, a) => Outcome.returned true (c.Outdent.Print "\x7d,\n", a))
    ∧ (registered ≠ underlying →
      PrintOneof oneof_desc context type_aliases =
        Outcome.returned false
          ({ c1 with
              error := "line " ++ toString (loc.start_line + 1) ++ ": "
                ++ ("Type alias '" ++ alias_ ++ "' already refers to '" ++ registered
                  ++ "', cannot redefine as '" ++ underlying ++ "'") }, a1)) := by
  have hemp : a1.emplace alias_ underlying = (a1, registered, false) := by
    simp [TypeAliasMap.emplace, hreg]
  have hhe : options.has_external = false := by simp [OdinOptions.has_external, hext]
  have hht : options.has_typedef_ = true := by simp [OdinOptions.has_typedef_, htd]
  have hta : options.typedef_ = alias_ := by simp [OdinOptions.typedef_, htd]
  have hstep : PrintOneofTaggedLoop (field :: rest) c1 a1 =
      if registered ≠ underlying then
        Outcome.returned false
          ({ c1 with
              error := "line " ++ toString (loc.start_line + 1) ++ ": "
                ++ ("Type alias '" ++ alias_ ++ "' already refers to '" ++ registered
                  ++ "', cannot redefine as '" ++ underlying ++ "'") }, a1)
      else PrintOneofTaggedLoop rest (c1.Print (alias_ ++ ",\n")) a1 := by
    rw [PrintOneofTaggedLoop, hopt]
    simp only [hhe, hht, hta, hund, hemp, Bool.false_eq_true, if_false, if_true, Bool.not_false,
      Bool.true_and, decide_eq_true_eq, SetError, hloc]
  have hprint : PrintOneof oneof_desc context type_aliases =
      match PrintOneofTaggedLoop (field :: rest) c1 a1 with
      | .aborted => Outcome.aborted
      | .returned false s => Outcome.returned false s
      | .returned true (c, a) => Outcome.returned true (c.Outdent.Print "\x7d,\n", a) := by
    unfold PrintOneof
    rw [hval]
    simp only [if_true]
    rw [hfields, PrintOneofTaggedLoop_append, hpre]
  refine ⟨fun heq => ⟨hemp, ?_⟩, fun hne => ?_⟩
  · rw [hprint, hstep, if_neg (by simpa using heq)]
  · rw [hprint, hstep, if_pos hne]

/-- C5 at `Foo` over `i32`: requested again over `i32` (from `sint32`) and over `string`, in
one oneof and through `PrintFile` from two oneofs of the same file. -/
theorem C5_alias_reregistration_witness :
    PrintOneof { name := "y", fields := [typedefMember "b" 1 TYPE_SINT32 8 "Foo"] }
        (startContext "pkg") [("Foo", "i32")]
      = Outcome.returned true
          ({ startContext "pkg" with
              printer := [PrinterOp.Print "\ny: union \x7b\n", PrinterOp.Indent,
                PrinterOp.Print "Foo,\n", PrinterOp.Outdent, PrinterOp.Print "\x7d,\n"] },
            [("Foo", "i32")])
    ∧ PrintOneof { name := "y", fields := [typedefMember "b" 1 TYPE_STRING 8 "Foo"] }
        (startContext "pkg") [("Foo", "i32")]
      = Outcome.returned false
          ({ startContext "pkg" with
              printer := [PrinterOp.Print "\ny: union \x7b\n", PrinterOp.Indent],
              error := "line 9: Type alias 'Foo' already refers to 'i32', cannot redefine as 'string'" },
            [("Foo", "i32")])
    ∧ PrintFile (fun m => m) exampleAliasTwice (startContext "pkg")
      = Outcome.returned true
          ({ startContext "pkg" with
              printer := [PrinterOp.Print "\npackage proto_pkg\n",
                PrinterOp.Print "\nA :: struct \x7b\n", PrinterOp.Indent,
                PrinterOp.Print "\nx: union \x7b\n", PrinterOp.Indent,
                PrinterOp.Print "Foo,\n", PrinterOp.Outdent, PrinterOp.Print "\x7d,\n",
                PrinterOp.Outdent, PrinterOp.Print "\x7d\n",
                PrinterOp.Print "\nB :: struct \x7b\n", PrinterOp.Indent,
                PrinterOp.Print "\ny: union \x7b\n", PrinterOp.Indent,
                PrinterOp.Print "Foo,\n", PrinterOp.Outdent, PrinterOp.Print "\x7d,\n",
                PrinterOp.Outdent, PrinterOp.Print "\x7d\n",
                PrinterOp.Print "Foo :: distinct i32\n"] })
    ∧ ∀ order, PrintFile order exampleAliasConflict (startContext "pkg")
      = Outcome.returned false
          ({ startContext "pkg" with
              printer := [PrinterOp.Print "\npackage proto_pkg\n",
                PrinterOp.Print "\nA :: struct \x7b\n", PrinterOp.Indent,
                PrinterOp.Print "\nx: union \x7b\n", PrinterOp.Indent,
                PrinterOp.Print "Foo,\n", PrinterOp.Outdent, PrinterOp.Print "\x7d,\n",
                PrinterOp.Outdent, PrinterOp.Print "\x7d\n",
                PrinterOp.Print "\nB :: struct \x7b\n", PrinterOp.Indent,
                PrinterOp.Print "\ny: union \x7b\n", PrinterOp.Indent],
              error := "line 9: Type alias 'Foo' already refers to 'i32', cannot redefine as 'string'" }) := by
  have hsame := (C5_alias_reregistration
    { name := "y", fields := [typedefMember "b" 1 TYPE_SINT32 8 "Foo"] } (startContext "pkg")
    [("Foo", "i32")] [] [] (typedefMember "b" 1 TYPE_SINT32 8 "Foo")
    { external? := none, typedef? := some "Foo" } "Foo" "i32" "i32"
    ((startContext "pkg").Print "\ny: union \x7b\n").Indent [("Foo", "i32")] ⟨8⟩
    rfl (by decide) (by decide) rfl rfl rfl (by decide) (by decide) rfl).1 rfl
  have hdiff := (C5_alias_reregistration
    { name := "y", fields := [typedefMember "b" 1 TYPE_STRING 8 "Foo"] } (startContext "pkg")
    [("Foo", "i32")] [] [] (typedefMember "b" 1 TYPE_STRING 8 "Foo")
    { external? := none, typedef? := some "Foo" } "Foo" "string" "i32"
    ((startContext "pkg").Print "\ny: union \x7b\n").Indent [("Foo", "i32")] ⟨8⟩
    rfl (by decide) (by decide) rfl rfl rfl (by decide) (by decide) rfl).2 (by decide)
  refine ⟨hsame.2.trans (by decide), hdiff.trans (by decide), by decide, ?_⟩
  intro order
  rfl

/-- C6: whatever `PrintOneof`, `PrintMessage` and the message loop of `PrintFile` return,
the registry they leave behind extends the one they were given and binds every alias of it
to the same underlying type; `PrintFile` starts its message loop on the empty registry. -/
theorem C6_alias_registry_only_grows :
    (∀ (oneof_desc : OneofDescriptor) (context : Context) (al : TypeAliasMap),
      (PrintOneof oneof_desc context al).registryKept al)
    ∧ (∀ (message_desc : Descriptor) (context : Context) (al : TypeAliasMap),
      (PrintMessage message_desc context al).registryKept al)
    ∧ (∀ (messages : List Descriptor) (context : Context) (al : TypeAliasMap),
      (PrintFileMessages messages context al).registryKept al)
    ∧ (∀ (order : TypeAliasMap → List (String × String)) (file_desc : FileDescriptor)
        (context : Context),
      PrintFile order file_desc context =
        match PrintFileMessages file_desc.message_types
            (context.Print ("\npackage " ++ PackageName file_desc ++ "\n")) [] with
        | .aborted => Outcome.aborted
        | .returned false (c, _) => Outcome.returned false c
        | .returned true (c, al) =>
          PrintEnums file_desc.enum_types (PrintTypeAliases (order al) c)) :=
  ⟨PrintOneof_registryKept, PrintMessage_registryKept, PrintFileMessages_registryKept,
    fun _ _ _ => rfl⟩

/-- C6 at a oneof registering `Bar` into a registry that holds `Foo`. -/
theorem C6_alias_registry_only_grows_witness :
    (PrintOneof { name := "y", fields := [typedefMember "b" 1 TYPE_STRING 8 "Bar"] }
        (startContext "pkg") [("Foo", "i32")]).registryKept [("Foo", "i32")]
    ∧ PrintOneof { name := "y", fields := [typedefMember "b" 1 TYPE_STRING 8 "Bar"] }
        (startContext "pkg") [("Foo", "i32")]
      = Outcome.returned true
          ({ startContext "pkg" with
              printer := [PrinterOp.Print "\ny: union \x7b\n", PrinterOp.Indent,
                PrinterOp.Print "Bar,\n", PrinterOp.Outdent, PrinterOp.Print "\x7d,\n"] },
            [("Foo", "i32"), ("Bar", "string")]) :=
  ⟨C6_alias_registry_only_grows.1 _ _ _, by decide⟩

/-- C7 (as amended): when the scan reaches a member `x` whose override has `external` set to
the empty string, `ValidateOneofFieldTypes` fails with the error text
`line <start_line + 1>: (odin).external must not be empty`. -/
theorem C7_empty_external_error (oneof_desc : OneofDescriptor) (context : Context) (out : Bool)
    (pre post : List FieldDescriptor) (x : FieldDescriptor) (pairs : List (String × Bool))
    (options : OdinOptions) (loc : SourceLocation)
    (hfields : oneof_desc.fields = pre ++ x :: post)
    (hpre : pre.map OneofFieldTypeKey = pairs.map (fun p => FieldTypeKey.key p.1 p.2))
    (hnodup : (pairs.map Prod.fst).Nodup)
    (hopt : x.options = some options) (hext : options.external? = some "")
    (hloc : x.source_location = some loc) :
    ValidateOneofFieldTypes oneof_desc context out
      = Outcome.returned false
          ({ context with
              error := "line " ++ toString (loc.start_line + 1) ++ ": "
                ++ "(odin).external must not be empty" }, out) := by
  have hkey : OneofFieldTypeKey x = FieldTypeKey.invalid "(odin).external must not be empty" := by
    simp [OneofFieldTypeKey, hopt, OdinOptions.has_external, OdinOptions.external, hext]
  unfold ValidateOneofFieldTypes
  rw [hfields, ValidateLoop_prefix pre (x :: post) pairs false [] context out hpre hnodup
    (by simp)]
  rw [ValidateOneofFieldTypesLoop, hkey]
  simp only [SetError, hloc]

/-- C7: the amended statement at the member `payload` on source line 4 (0-based). -/
theorem C7_empty_external_error_witness :
    ValidateOneofFieldTypes exampleC7 (startContext "pkg") true
      = Outcome.returned false
          ({ startContext "pkg" with error := "line 5: (odin).external must not be empty" },
            true) :=
  (C7_empty_external_error exampleC7 (startContext "pkg") true
    [scalarMember "id" 1 TYPE_INT32 3] []
    (overrideMember "payload" 2 TYPE_STRING 4 { external? := some "", typedef? := none })
    [("i32", false)] { external? := some "", typedef? := none } ⟨4⟩
    rfl (by decide) (by decide) rfl rfl rfl).trans (by decide)

/-- C7 fails as stated: the error text for the member `payload` does not contain its name. -/
theorem C7_counterexample :
    ValidateOneofFieldTypes exampleC7 (startContext "pkg") false
        = Outcome.returned false
            ({ startContext "pkg" with error := "line 5: (odin).external must not be empty" },
              false)
    ∧ ¬ ("payload".data <:+: "line 5: (odin).external must not be empty".data) := by
  refine ⟨by decide, by decide⟩

/-- C8 at the failing input: for the member of the nested message type `pkg.Outer.Inner`
the variant line is the short name `Inner`, not the flattened name `Outer_Inner` under which
`PrintMessage` declares the type. -/
theorem C8_message_variant_is_short_name :
    ConvertFullTypeName "pkg.Outer.Inner" "pkg" = some "Outer_Inner"
    ∧ PrintMessage exampleC8 (startContext "pkg") []
      = Outcome.returned true
          ({ startContext "pkg" with
              printer := [PrinterOp.Print "\nOuter :: struct \x7b\n", PrinterOp.Indent,
                PrinterOp.Print "\npayload: union \x7b\n", PrinterOp.Indent,
                PrinterOp.Print "Inner,\n", PrinterOp.Print "i32,\n",
                PrinterOp.Outdent, PrinterOp.Print "\x7d,\n",
                PrinterOp.Outdent, PrinterOp.Print "\x7d\n",
                PrinterOp.Print "\nOuter_Inner :: struct \x7b\n", PrinterOp.Indent,
                PrinterOp.Outdent, PrinterOp.Print "\x7d\n"] },
            []) := by
  refine ⟨by decide, by decide⟩

/-- C9: `GetOdinBuiltinTypeName` after `GetOdinBuiltinType` is the fixed table; message, group,
enum and every tag outside 1..18 give the empty string; types with the same builtin give the
same name. -/
theorem C9_type_mapper_table :
    GetOdinBuiltinTypeName (GetOdinBuiltinType TYPE_INT32) = "i32"
    ∧ GetOdinBuiltinTypeName (GetOdinBuiltinType TYPE_SINT32) = "i32"
    ∧ GetOdinBuiltinTypeName (GetOdinBuiltinType TYPE_SFIXED32) = "i32"
    ∧ GetOdinBuiltinTypeName (GetOdinBuiltinType TYPE_INT64) = "i64"
    ∧ GetOdinBuiltinTypeName (GetOdinBuiltinType TYPE_SINT64) = "i64"
    ∧ GetOdinBuiltinTypeName (GetOdinBuiltinType TYPE_SFIXED64) = "i64"
    ∧ GetOdinBuiltinTypeName (GetOdinBuiltinType TYPE_UINT32) = "u32"
    ∧ GetOdinBuiltinTypeName (GetOdinBuiltinType TYPE_FIXED32) = "u32"
    ∧ GetOdinBuiltinTypeName (GetOdinBuiltinType TYPE_UINT64) = "u64"
    ∧ GetOdinBuiltinTypeName (GetOdinBuiltinType TYPE_FIXED64) = "u64"
    ∧ GetOdinBuiltinTypeName (GetOdinBuiltinType TYPE_DOUBLE) = "f64"
    ∧ GetOdinBuiltinTypeName (GetOdinBuiltinType TYPE_FLOAT) = "f32"
    ∧ GetOdinBuiltinTypeName (GetOdinBuiltinType TYPE_BOOL) = "bool"
    ∧ GetOdinBuiltinTypeName (GetOdinBuiltinType TYPE_STRING) = "string"
    ∧ GetOdinBuiltinTypeName (GetOdinBuiltinType TYPE_BYTES) = "[]u8"
    ∧ GetOdinBuiltinTypeName (GetOdinBuiltinType TYPE_MESSAGE) = ""
    ∧ GetOdinBuiltinTypeName (GetOdinBuiltinType TYPE_GROUP) = ""
    ∧ GetOdinBuiltinTypeName (GetOdinBuiltinType TYPE_ENUM) = ""
    ∧ GetOdinBuiltinTypeName (GetOdinBuiltinType 0) = ""
    ∧ (∀ n : Nat, GetOdinBuiltinTypeName (GetOdinBuiltinType (19 + n)) = "")
    ∧ (∀ t1 t2 : Nat, GetOdinBuiltinType t1 = GetOdinBuiltinType t2 →
        GetOdinBuiltinTypeName (GetOdinBuiltinType t1)
          = GetOdinBuiltinTypeName (GetOdinBuiltinType t2)) := by
  refine ⟨rfl, rfl, rfl, rfl, rfl, rfl, rfl, rfl, rfl, rfl, rfl, rfl, rfl, rfl, rfl, rfl, rfl,
    rfl, rfl, ?_, ?_⟩
  · intro n
    have h : GetOdinBuiltinType (19 + n) = OdinBuiltinType.t_none := by
      rw [Nat.add_comm]; rfl
    rw [h]; rfl
  · intro t1 t2 h
    rw [h]

/-- C9 at `TYPE_INT32` and `TYPE_SINT32`. -/
theorem C9_type_mapper_table_witness :
    GetOdinBuiltinTypeName (GetOdinBuiltinType TYPE_INT32)
      = GetOdinBuiltinTypeName (GetOdinBuiltinType TYPE_SINT32) :=
  C9_type_mapper_table.2.2.2.2.2.2.2.2.2.2.2.2.2.2.2.2.2.2.2.2 TYPE_INT32 TYPE_SINT32
    (by decide)

/-- C10: for a non-empty package `P` and a name `P.rest`, `ConvertFullTypeName` stays in
bounds and returns `rest` with every dot replaced by an underscore; under the empty package it
returns the whole name so replaced; no result contains a dot. -/
theorem C10_flatten_inside_package (package_name rest : String) (hP : package_name ≠ "") :
    ConvertFullTypeName (package_name ++ "." ++ rest) package_name
        = some (String.mk (rest.data.map (fun c => if c = '.' then '_' else c)))
    ∧ (∀ full_name : String, ConvertFullTypeName full_name ""
        = some (String.mk (full_name.data.map (fun c => if c = '.' then '_' else c))))
    ∧ '.' ∉ (String.mk (rest.data.map (fun c => if c = '.' then '_' else c))).data
    ∧ (∀ full_name pkg result, ConvertFullTypeName full_name pkg = some result →
        '.' ∉ result.data) := by
  refine ⟨ConvertFullTypeName_strip package_name rest hP,
    ConvertFullTypeName_empty_package, replaceDots_no_dot rest, ?_⟩
  intro full_name pkg result h
  unfold ConvertFullTypeName at h
  simp only at h
  split_ifs at h
  · rw [← Option.some.inj h]; exact replaceDots_no_dot _
  · rw [← Option.some.inj h]; exact replaceDots_no_dot _

/-- C10 at `A.B.C` under the package `A` and under the empty package. -/
theorem C10_flatten_inside_package_witness :
    ConvertFullTypeName "A.B.C" "A" = some "B_C"
    ∧ ConvertFullTypeName "A.B.C" "" = some "A_B_C" := by
  have h := C10_flatten_inside_package "A" "B.C" (by decide)
  exact ⟨h.1.trans (by decide), (h.2.1 "A.B.C").trans (by decide)⟩

/-! ## Name Resolver, out of the package -/

theorem ConvertFullTypeName_length (full_name package_name result : String)
    (hP : package_name ≠ "") (h : ConvertFullTypeName full_name package_name = some result) :
    result.length + (package_name.length + 1) = full_name.length := by
  unfold ConvertFullTypeName at h
  simp only [if_neg hP] at h
  split_ifs at h with hlt
  rw [← Option.some.inj h]
  simp only [replaceDots, String.length, List.length_map, List.length_drop]
  simp only [String.length] at hlt
  omega

/-- C11 at the failing inputs: under the package `pkg` the name `other.Msg`, which does not
start with `pkg.`, loses its first four characters, and under `long.pkg` the name `b.M` is
out of range; under a non-empty package every result is `package.size() + 1` characters
shorter than the name, so it is never the entire name. -/
theorem C11_prefix_stripped_unconditionally :
    ¬ ("pkg.".data <+: "other.Msg".data)
    ∧ ConvertFullTypeName "other.Msg" "pkg" = some "r_Msg"
    ∧ ConvertFullTypeName "b.M" "long.pkg" = none
    ∧ (∀ full_name package_name result : String, package_name ≠ "" →
        ConvertFullTypeName full_name package_name = some result →
        result.length + (package_name.length + 1) = full_name.length) :=
  ⟨by decide, by decide, by decide, ConvertFullTypeName_length⟩

theorem PrintField_output (field_desc : FieldDescriptor) (context : Context) :
    PrintField field_desc context =
      match GetOdinFieldTypeName field_desc context.proto_package with
      | none => Outcome.aborted
      | some odin_type =>
        Outcome.returned true
          { context with printer := context.printer ++ FieldLines field_desc odin_type } := by
  unfold PrintField FieldLines
  cases hname : GetOdinFieldTypeName field_desc context.proto_package with
  | none => rfl
  | some odin_type =>
    cases hm : field_desc.message_type <;> cases hp : field_desc.is_packable <;>
      simp [Context.Print, MapTypeKeys, List.append_assoc]

theorem PrintFieldOutput_eq (field_desc : FieldDescriptor) (package_name : String) :
    PrintFieldOutput field_desc package_name =
      (GetOdinFieldTypeName field_desc package_name).map (FieldLines field_desc) := by
  unfold PrintFieldOutput
  rw [PrintField_output]
  cases GetOdinFieldTypeName field_desc package_name <;> simp

theorem PrintField_never_false (field_desc : FieldDescriptor) (context c : Context) :
    PrintField field_desc context ≠ Outcome.returned false c := by
  rw [PrintField_output]
  cases GetOdinFieldTypeName field_desc context.proto_package <;> simp

/-! ## Field Emitter -/

/-- C12 at the failing input: the field `payload` of the imported message type `b.M`, in a
file of package `long.pkg`, makes `PrintField` abort (`ConvertFullTypeName` is out of range)
instead of returning.  Everywhere else `PrintField` does what the claim says: it never returns
`false`, and when the type name resolves it appends exactly the name and type, the `id` and
`type` keys, `packed` when packable, `key_type` and `value_type` on a map field, and the
closing backquote, comma and newline. -/
theorem C12_PrintField_aborts_on_foreign_type :
    GetOdinFieldTypeName exampleForeignField "long.pkg" = none
    ∧ PrintField exampleForeignField (startContext "long.pkg") = Outcome.aborted
    ∧ (∀ (field_desc : FieldDescriptor) (context c : Context),
        PrintField field_desc context ≠ Outcome.returned false c)
    ∧ (∀ (field_desc : FieldDescriptor) (context : Context),
        PrintField field_desc context =
          match GetOdinFieldTypeName field_desc context.proto_package with
          | none => Outcome.aborted
          | some odin_type =>
            Outcome.returned true
              { context with
                  printer := context.printer ++ FieldLines field_desc odin_type }) :=
  ⟨by decide, by decide, PrintField_never_false, PrintField_output⟩

theorem name_part_ne_packed (a b : String) : a ++ " `" ≠ " packed:\"" ++ b ++ "\"" := by
  intro h
  have h2 := congrArg (fun t => t.data.reverse) h
  simp [String.data_append] at h2

theorem id_part_ne_packed (a b : String) :
    "id:\"" ++ a ++ "\"" ≠ " packed:\"" ++ b ++ "\"" := by
  intro h
  have h2 := congrArg String.data h
  simp [String.data_append] at h2

theorem type_part_ne_packed (a b : String) :
    " type:\"" ++ a ++ "\"" ≠ " packed:\"" ++ b ++ "\"" := by
  intro h
  have h2 := congrArg String.data h
  simp [String.data_append] at h2

theorem key_type_part_ne_packed (a b : String) :
    " key_type:\"" ++ a ++ "\"" ≠ " packed:\"" ++ b ++ "\"" := by
  intro h
  have h2 := congrArg String.data h
  simp [String.data_append] at h2

theorem value_type_part_ne_packed (a b : String) :
    " value_type:\"" ++ a ++ "\"" ≠ " packed:\"" ++ b ++ "\"" := by
  intro h
  have h2 := congrArg String.data h
  simp [String.data_append] at h2

theorem close_part_ne_packed (b : String) : "`,\n" ≠ " packed:\"" ++ b ++ "\"" := by
  intro h
  have h2 := congrArg String.data h
  simp [String.data_append] at h2

/-- C13 (as amended): `PrintField` renders the `packed` key exactly when `is_packable` holds,
that is for a repeated field of any wire type but string, bytes, message and group; a
non-repeated field and a repeated string, bytes, message or group field get no `packed` key. -/
theorem C13_packed_key_iff_packable (field_desc : FieldDescriptor) (package_name : String)
    (odin_type : String)
    (hname : GetOdinFieldTypeName field_desc package_name = some odin_type) :
    (field_desc.is_packable = true ↔
      (field_desc.is_repeated = true ∧ field_desc.type ≠ TYPE_STRING
        ∧ field_desc.type ≠ TYPE_BYTES ∧ field_desc.type ≠ TYPE_MESSAGE
        ∧ field_desc.type ≠ TYPE_GROUP))
    ∧ ∃ ops, PrintFieldOutput field_desc package_name = some ops
      ∧ (field_desc.is_packable = true →
          PrinterOp.Print (" packed:\"" ++ boolToString field_desc.is_packed ++ "\"") ∈ ops)
      ∧ (field_desc.is_packable = false →
          ∀ b : String, PrinterOp.Print (" packed:\"" ++ b ++ "\"") ∉ ops) := by
  refine ⟨?_, ?_⟩
  · simp only [FieldDescriptor.is_packable, Bool.and_eq_true, Bool.not_eq_true',
      Bool.or_eq_false_iff, beq_eq_false_iff_ne, ne_eq]
    tauto
  · rw [PrintFieldOutput_eq, hname]
    refine ⟨_, rfl, ?_, ?_⟩
    · intro hp
      simp [FieldLines, hp]
    · intro hp b hmem
      simp only [FieldLines, hp, Bool.false_eq_true, if_false, List.append_nil, List.mem_append,
        List.mem_cons, List.mem_singleton, PrinterOp.Print.injEq, List.not_mem_nil,
        or_false] at hmem
      rcases hmem with ((h | h | h) | h) | h
      · exact name_part_ne_packed _ b h.symm
      · exact id_part_ne_packed _ b h.symm
      · exact type_part_ne_packed _ b h.symm
      · cases hm : field_desc.message_type with
        | null => simp [hm, MapTypeKeys] at h
        | message fn n => simp [hm, MapTypeKeys] at h
        | map_entry fn n k v =>
          simp only [hm, MapTypeKeys, List.mem_cons, List.mem_singleton, PrinterOp.Print.injEq,
            List.not_mem_nil, or_false] at h
          rcases h with h | h
          · exact key_type_part_ne_packed _ b h.symm
          · exact value_type_part_ne_packed _ b h.symm
      · exact close_part_ne_packed b h.symm

/-- C13: the amended statement at `repeated int32 scores = 5`. -/
theorem C13_packed_key_iff_packable_witness :
    exampleRepeatedInt32.is_packable = true
    ∧ PrintFieldOutput exampleRepeatedInt32 "pkg"
      = some [PrinterOp.Print "scores : []i32 `", PrinterOp.Print "id:\"5\"",
          PrinterOp.Print " type:\"5\"", PrinterOp.Print " packed:\"true\"",
          PrinterOp.Print "`,\n"] := by
  have h := C13_packed_key_iff_packable exampleRepeatedInt32 "pkg" "[]i32" (by decide)
  exact ⟨h.1.mpr (by decide), by decide⟩

/-- C13 fails as stated: `repeated string tags = 4`, outside any oneof, is a repeated scalar
field and its annotation has no `packed` key. -/
theorem C13_counterexample :
    exampleRepeatedString.is_repeated = true
    ∧ exampleRepeatedString.containing_oneof = false
    ∧ exampleRepeatedString.type = TYPE_STRING
    ∧ PrintField exampleRepeatedString (startContext "pkg")
      = Outcome.returned true
          { startContext "pkg" with
              printer := [PrinterOp.Print "tags : []string `", PrinterOp.Print "id:\"4\"",
                PrinterOp.Print " type:\"9\"", PrinterOp.Print "`,\n"] } := by
  refine ⟨by decide, by decide, by decide, by decide⟩

/-! ## Map fields and alias underlying types -/

theorem GetOdinFieldTypeName_map (name : String) (number : Int) (type : Nat)
    (is_repeated is_packed containing_oneof : Bool) (loc : Option SourceLocation)
    (options : Option OdinOptions) (enum_type : Option EnumDescriptor) (fn n : String)
    (k v : FieldDescriptor) (package_name : String) :
    GetOdinFieldTypeName
        (.mk name number type is_repeated is_packed containing_oneof loc options enum_type
          (.map_entry fn n k v)) package_name
      = (GetOdinFieldTypeName k package_name).bind (fun key_type =>
          (GetOdinFieldTypeName v package_name).map (fun value_type =>
            "map[" ++ key_type ++ "]" ++ value_type)) := by
  rw [GetOdinFieldTypeName]
  cases GetOdinFieldTypeName k package_name with
  | none => rfl
  | some kt =>
    cases GetOdinFieldTypeName v package_name with
    | none => rfl
    | some vt => rfl

theorem GetOdinFieldTypeName_not_map (field_desc : FieldDescriptor) (package_name : String)
    (h : field_desc.message_type.has_map_key = false) :
    GetOdinFieldTypeName field_desc package_name
      = (ElementTypeName field_desc package_name).map
          (fun t => if field_desc.is_repeated then "[]" ++ t else t) := by
  obtain ⟨name, number, type, rep, packed, oneof, loc, options, en, mt⟩ := field_desc
  cases mt with
  | map_entry fn n k v => simp [FieldDescriptor.message_type, MessageType.has_map_key] at h
  | message fn n =>
    simp only [GetOdinFieldTypeName, ElementTypeName, FieldDescriptor.message_type, MessageType.full_name,
      FieldDescriptor.is_repeated]
    cases ConvertFullTypeName fn package_name <;> rfl
  | null =>
    simp only [GetOdinFieldTypeName, ElementTypeName, FieldDescriptor.message_type, MessageType.full_name,
      FieldDescriptor.is_repeated, FieldDescriptor.enum_type, FieldDescriptor.type]
    cases en with
    | none => rfl
    | some e =>
      cases hc : ConvertFullTypeName e.full_name package_name <;> simp [hc]

/-- C14: the type name of a map field is `map[K]V`, with `K` and `V` the type names of its
key and value fields, and carries no `[]` marker although the field is repeated; the type
name of a repeated field that is not a map field is `[]` followed by its element type name. -/
theorem C14_map_field_type_name :
    (∀ (field_desc : FieldDescriptor) (fn n : String) (k v : FieldDescriptor)
        (package_name : String),
        field_desc.message_type = MessageType.map_entry fn n k v →
        GetOdinFieldTypeName field_desc package_name
          = (GetOdinFieldTypeName k package_name).bind (fun key_type =>
              (GetOdinFieldTypeName v package_name).map (fun value_type =>
                "map[" ++ key_type ++ "]" ++ value_type)))
    ∧ (∀ (field_desc : FieldDescriptor) (package_name : String),
        field_desc.message_type.has_map_key = false → field_desc.is_repeated = true →
        GetOdinFieldTypeName field_desc package_name
          = (ElementTypeName field_desc package_name).map (fun t => "[]" ++ t))
    ∧ (∀ (field_desc : FieldDescriptor) (package_name : String),
        field_desc.message_type.has_map_key = false → field_desc.is_repeated = false →
        GetOdinFieldTypeName field_desc package_name
          = ElementTypeName field_desc package_name) := by
  refine ⟨?_, ?_, ?_⟩
  · intro field_desc fn n k v package_name h
    obtain ⟨name, number, type, rep, packed, oneof, loc, options, en, mt⟩ := field_desc
    simp only [FieldDescriptor.message_type] at h
    rw [h]
    exact GetOdinFieldTypeName_map _ _ _ _ _ _ _ _ _ _ _ _ _ _
  · intro field_desc package_name h hr
    rw [GetOdinFieldTypeName_not_map _ _ h, hr]
    rfl
  · intro field_desc package_name h hr
    rw [GetOdinFieldTypeName_not_map _ _ h, hr]
    cases ElementTypeName field_desc package_name <;> rfl

/-- C14 at `map<string, int32> attrs = 7` and at `repeated int32 scores = 5`. -/
theorem C14_map_field_type_name_witness :
    exampleMapField.is_repeated = true
    ∧ GetOdinFieldTypeName exampleMapField "pkg" = some "map[string]i32"
    ∧ GetOdinFieldTypeName exampleRepeatedInt32 "pkg" = some "[]i32" := by
  have h1 := C14_map_field_type_name.1 exampleMapField "pkg.Item.AttrsEntry" "AttrsEntry"
    (.mk "key" 1 TYPE_STRING false false false none none none .null)
    (.mk "value" 2 TYPE_INT32 false false false none none none .null) "pkg" rfl
  have h2 := C14_map_field_type_name.2.1 exampleRepeatedInt32 "pkg" rfl rfl
  exact ⟨rfl, h1.trans (by decide), h2.trans (by decide)⟩

/-- C20 at the failing input: a `typedef` override on the enum-typed member `tint` registers
the alias `Shade` with the empty underlying type, and `PrintFile` prints `Shade :: distinct `
with nothing after it. -/
theorem C20_enum_typedef_has_empty_underlying :
    PrintOneof { name := "kind", fields := [exampleEnumTypedef] } (startContext "pkg") []
      = Outcome.returned true
          ({ startContext "pkg" with
              printer := [PrinterOp.Print "\nkind: union \x7b\n", PrinterOp.Indent,
                PrinterOp.Print "Shade,\n", PrinterOp.Outdent, PrinterOp.Print "\x7d,\n"] },
            [("Shade", "")])
    ∧ PrintFile (fun m => m) exampleEnumTypedefFile (startContext "pkg")
      = Outcome.returned true
          { startContext "pkg" with
              printer := [PrinterOp.Print "\npackage proto_pkg\n",
                PrinterOp.Print "\nPaint :: struct \x7b\n", PrinterOp.Indent,
                PrinterOp.Print "\nkind: union \x7b\n", PrinterOp.Indent,
                PrinterOp.Print "Shade,\n", PrinterOp.Outdent, PrinterOp.Print "\x7d,\n",
                PrinterOp.Outdent, PrinterOp.Print "\x7d\n",
                PrinterOp.Print "Shade :: distinct \n"] } := by
  refine ⟨by decide, by decide⟩

/-! ## Tagged-union spellings -/

theorem SetError_ne_returned_true {σ : Type} (context : Context) (field : FieldDescriptor)
    (message : String) (rest : Context → σ) (s : σ) :
    SetError context field message rest ≠ Outcome.returned true s := by
  unfold SetError
  cases field.source_location <;> simp

theorem ValidateLoop_tagged_inv (fields : List FieldDescriptor) :
    ∀ (force_tagged : Bool) (used : List String) (context : Context) (out : Bool)
      (c : Context),
      ValidateOneofFieldTypesLoop fields force_tagged used context out
        = Outcome.returned true (c, true) →
      c = context ∧ ∃ pairs : List (String × Bool),
        fields.map OneofFieldTypeKey = pairs.map (fun p => FieldTypeKey.key p.1 p.2)
        ∧ (pairs.map Prod.fst).Nodup ∧ ∀ k ∈ pairs.map Prod.fst, k ∉ used := by
  induction fields with
  | nil =>
    intro force_tagged used context out c h
    simp only [ValidateOneofFieldTypesLoop, Outcome.returned.injEq, Prod.mk.injEq, true_and,
      and_true] at h
    exact ⟨h.symm, [], by simp⟩
  | cons f rest ih =>
    intro force_tagged used context out c h
    rw [ValidateOneofFieldTypesLoop] at h
    cases hk : OneofFieldTypeKey f with
    | null_deref => rw [hk] at h; simp at h
    | invalid message =>
      rw [hk] at h
      exact absurd h (SetError_ne_returned_true _ _ _ _ _)
    | key k e =>
      rw [hk] at h
      simp only at h
      by_cases hmem : k ∈ used
      · simp only [hmem, if_true] at h
        split_ifs at h
        · exact absurd h (SetError_ne_returned_true _ _ _ _ _)
        · simp at h
      · simp only [hmem, if_false] at h
        obtain ⟨hc, pairs, hkeys, hnd, hdisj⟩ := ih _ _ _ _ _ h
        refine ⟨hc, (k, e) :: pairs, ?_, ?_, ?_⟩
        · simp [hk, hkeys]
        · simp only [List.map_cons, List.nodup_cons]
          exact ⟨fun hin => hdisj k hin (List.mem_cons_self _ _), hnd⟩
        · intro k2 hk2
          simp only [List.map_cons, List.mem_cons] at hk2
          rcases hk2 with h2 | h2
          · rw [h2]; exact hmem
          · exact fun hu => hdisj k2 h2 (List.mem_cons_of_mem _ hu)

theorem PrintOneofTaggedLoop_success (fields : List FieldDescriptor) :
    ∀ (context : Context) (al : TypeAliasMap) (c : Context) (al2 : TypeAliasMap),
      PrintOneofTaggedLoop fields context al = Outcome.returned true (c, al2) →
      ∃ spellings : List String,
        fields.map (fun f => EffectiveType f context.proto_package) = spellings.map some
        ∧ c = { context with printer := context.printer ++ variantLines spellings } := by
  induction fields with
  | nil =>
    intro context al c al2 h
    simp only [PrintOneofTaggedLoop, Outcome.returned.injEq, Prod.mk.injEq, true_and] at h
    exact ⟨[], rfl, by simp [variantLines, ← h.1]⟩
  | cons f rest ih =>
    intro context al c al2 h
    rw [PrintOneofTaggedLoop] at h
    have key : ∀ (s : String) (al1 : TypeAliasMap),
        EffectiveType f context.proto_package = some s →
        PrintOneofTaggedLoop rest (context.Print (s ++ ",\n")) al1
          = Outcome.returned true (c, al2) →
        ∃ spellings : List String,
          (f :: rest).map (fun f => EffectiveType f context.proto_package)
            = spellings.map some
          ∧ c = { context with printer := context.printer ++ variantLines spellings } := by
      intro s al1 hs hrest
      obtain ⟨sp, hsp, hc⟩ := ih _ _ _ _ hrest
      refine ⟨s :: sp, ?_, ?_⟩
      · simp only [List.map_cons, hs]
        congr 1
      · rw [hc]
        simp [Context.Print, variantLines, List.append_assoc]
    cases ho : f.options with
    | none =>
      rw [ho] at h
      simp only at h
      by_cases ht : f.type = TYPE_MESSAGE
      · simp only [if_pos ht] at h
        cases hn : f.message_type.name with
        | none => rw [hn] at h; simp at h
        | some s =>
          rw [hn] at h
          exact key s al (by simp [EffectiveType, ho, ht, hn]) h
      · simp only [if_neg ht] at h
        cases hn : GetOdinFieldTypeName f context.proto_package with
        | none => rw [hn] at h; simp at h
        | some s =>
          rw [hn] at h
          exact key s al (by simp [EffectiveType, ho, ht, hn]) h
    | some o =>
      rw [ho] at h
      simp only at h
      by_cases h1 : o.has_external = true
      · simp only [h1, if_true] at h
        exact key _ al (by simp [EffectiveType, ho, h1]) h
      · simp only [h1, Bool.false_eq_true, if_false] at h
        by_cases h2 : o.has_typedef_ = true
        · simp only [h2, if_true] at h
          generalize (if f.type = TYPE_MESSAGE then f.message_type.name
            else some (GetOdinBuiltinTypeName (GetOdinBuiltinType f.type))) = u? at h
          cases u? with
          | none => simp at h
          | some underlying =>
            simp only at h
            split_ifs at h
            · exact absurd h (SetError_ne_returned_true _ _ _ _ _)
            · exact key _ _ (by simp [EffectiveType, ho, h1, h2]) h
        · simp only [h2, Bool.false_eq_true, if_false] at h
          exact key "" al (by simp [EffectiveType, ho, h1, h2]) h

theorem effective_eq_key (f : FieldDescriptor) (package_name k : String) (e : Bool)
    (hk : OneofFieldTypeKey f = FieldTypeKey.key k e)
    (hc : f.options ≠ none ∨ (f.type ≠ TYPE_MESSAGE ∧ f.message_type.full_name = none
      ∧ f.enum_type = none ∧ f.is_repeated = false)) :
    EffectiveType f package_name = some k := by
  unfold OneofFieldTypeKey at hk
  unfold EffectiveType
  cases ho : f.options with
  | some o =>
    rw [ho] at hk
    simp only at hk ⊢
    split_ifs at hk with h1 h2 h3
    · simp only [FieldTypeKey.key.injEq] at hk
      simp [h3, hk.1]
    · simp only [FieldTypeKey.key.injEq] at hk
      simp only [h3, Bool.false_eq_true, if_false]
      split_ifs with h4
      · rw [hk.1]
      · have : o.typedef_ = "" := by
          simp only [OdinOptions.has_typedef_, Option.isSome_iff_ne_none, ne_eq,
            Decidable.not_not, Bool.not_eq_true, Option.not_isSome, Option.isNone_iff_eq_none]
            at h4
          simp [OdinOptions.typedef_, h4]
        rw [← hk.1, this]
  | none =>
    rw [ho] at hk
    rcases hc with hc | ⟨ht, hm, hen, hr⟩
    · exact absurd ho hc
    · simp only [if_neg ht, FieldTypeKey.key.injEq] at hk ⊢
      have hmap : f.message_type.has_map_key = false := by
        cases hmt : f.message_type with
        | null => rfl
        | message fn n => rfl
        | map_entry fn n kk v => rw [hmt] at hm; simp [MessageType.full_name] at hm
      rw [GetOdinFieldTypeName_not_map f package_name hmap]
      simp [ElementTypeName, hm, hen, hr, hk.1]

theorem effective_eq_keys (fields : List FieldDescriptor) (package_name : String) :
    ∀ pairs : List (String × Bool),
      fields.map OneofFieldTypeKey = pairs.map (fun p => FieldTypeKey.key p.1 p.2) →
      (∀ f ∈ fields, f.options ≠ none ∨ (f.type ≠ TYPE_MESSAGE
        ∧ f.message_type.full_name = none ∧ f.enum_type = none ∧ f.is_repeated = false)) →
      fields.map (fun f => EffectiveType f package_name) = (pairs.map Prod.fst).map some := by
  induction fields with
  | nil =>
    intro pairs hkeys _
    cases pairs with
    | nil => rfl
    | cons p ps => simp at hkeys
  | cons f rest ih =>
    intro pairs hkeys hcond
    cases pairs with
    | nil => simp at hkeys
    | cons p ps =>
      simp only [List.map_cons, List.cons.injEq] at hkeys ⊢
      exact ⟨effective_eq_key f package_name p.1 p.2 hkeys.1 (hcond f (List.mem_cons_self _ _)),
        ih ps hkeys.2 (fun g hg => hcond g (List.mem_cons_of_mem _ hg))⟩

/-- When `PrintOneof` succeeds with the tagged union, the discriminating keys of the members
are pairwise distinct and one variant line is printed per member; when every member is
overridden or of a builtin type (no message, group or enum type, not repeated), each spelling
printed is the member's key, so the spellings are pairwise distinct. -/
theorem spellings_distinct_when_keys_are_spellings (oneof_desc : OneofDescriptor)
    (context cv c : Context) (al al2 : TypeAliasMap)
    (htag : ValidateOneofFieldTypes oneof_desc context false = Outcome.returned true (cv, true))
    (hprint : PrintOneof oneof_desc context al = Outcome.returned true (c, al2)) :
    ∃ (pairs : List (String × Bool)) (spellings : List String),
      oneof_desc.fields.map OneofFieldTypeKey = pairs.map (fun p => FieldTypeKey.key p.1 p.2)
      ∧ (pairs.map Prod.fst).Nodup
      ∧ oneof_desc.fields.map (fun f => EffectiveType f context.proto_package)
          = spellings.map some
      ∧ c.printer = context.printer
          ++ ([PrinterOp.Print ("\n" ++ oneof_desc.name ++ ": union \x7b\n"), PrinterOp.Indent]
            ++ variantLines spellings ++ [PrinterOp.Outdent, PrinterOp.Print "\x7d,\n"])
      ∧ ((∀ f ∈ oneof_desc.fields, f.options ≠ none ∨ (f.type ≠ TYPE_MESSAGE
            ∧ f.message_type.full_name = none ∧ f.enum_type = none ∧ f.is_repeated = false)) →
          spellings = pairs.map Prod.fst ∧ spellings.Nodup) := by
  obtain ⟨hcv, pairs, hkeys, hnd, _⟩ :=
    ValidateLoop_tagged_inv oneof_desc.fields false [] context false cv htag
  subst hcv
  unfold PrintOneof at hprint
  rw [htag] at hprint
  simp only [if_true] at hprint
  cases hloop : PrintOneofTaggedLoop oneof_desc.fields
      (cv.Print ("\n" ++ oneof_desc.name ++ ": union \x7b\n")).Indent al with
  | aborted => rw [hloop] at hprint; simp at hprint
  | returned ok s =>
    obtain ⟨c2, a2⟩ := s
    rw [hloop] at hprint
    cases ok with
    | false => simp at hprint
    | true =>
      simp only [Outcome.returned.injEq, Prod.mk.injEq, true_and] at hprint
      obtain ⟨sp, hsp, hc2⟩ := PrintOneofTaggedLoop_success _ _ _ _ _ hloop
      have hsp2 : oneof_desc.fields.map (fun f => EffectiveType f cv.proto_package)
          = sp.map some := hsp
      refine ⟨pairs, sp, hkeys, hnd, hsp2, ?_, ?_⟩
      · rw [← hprint.1, hc2]
        simp [Context.Print, Context.Indent, Context.Outdent, List.append_assoc]
      · intro hcond
        have hall := effective_eq_keys oneof_desc.fields cv.proto_package pairs hkeys hcond
        have heq : sp = pairs.map Prod.fst := by
          have h4 : sp.map some = (pairs.map Prod.fst).map some := by rw [← hsp2, hall]
          exact List.map_injective_iff.mpr (Option.some_injective _) h4
        exact ⟨heq, heq ▸ hnd⟩

/-- C19 at the failing input: the members of the distinct message types `pkg.A.Item` and
`pkg.B.Item` have distinct keys and distinct flattened names `A_Item` and `B_Item`, the
tagged union is selected, and `PrintOneof` prints the short name `Item` for both (line 341),
so the union lists one spelling twice.  Everywhere else the keys stand for the spellings:
when `PrintOneof` succeeds with the tagged union the keys are pairwise distinct, one variant
line is printed per member, and when every member is overridden or of a builtin type each
spelling printed is the member's key, so the spellings are pairwise distinct. -/
theorem C19_same_short_name_listed_twice :
    exampleSameShortName.fields.map OneofFieldTypeKey
      = [FieldTypeKey.key "pkg.A.Item" false, FieldTypeKey.key "pkg.B.Item" false]
    ∧ exampleSameShortName.fields.map (fun f => GetOdinFieldTypeName f "pkg")
      = [some "A_Item", some "B_Item"]
    ∧ ValidateOneofFieldTypes exampleSameShortName (startContext "pkg") false
      = Outcome.returned true (startContext "pkg", true)
    ∧ PrintOneof exampleSameShortName (startContext "pkg") []
      = Outcome.returned true
          ({ startContext "pkg" with
              printer := [PrinterOp.Print "\nchoice: union \x7b\n", PrinterOp.Indent,
                PrinterOp.Print "Item,\n", PrinterOp.Print "Item,\n",
                PrinterOp.Outdent, PrinterOp.Print "\x7d,\n"] }, [])
    ∧ (∀ (oneof_desc : OneofDescriptor) (context cv c : Context) (al al2 : TypeAliasMap),
        ValidateOneofFieldTypes oneof_desc context false = Outcome.returned true (cv, true) →
        PrintOneof oneof_desc context al = Outcome.returned true (c, al2) →
        ∃ (pairs : List (String × Bool)) (spellings : List String),
          oneof_desc.fields.map OneofFieldTypeKey
            = pairs.map (fun p => FieldTypeKey.key p.1 p.2)
          ∧ (pairs.map Prod.fst).Nodup
          ∧ oneof_desc.fields.map (fun f => EffectiveType f context.proto_package)
              = spellings.map some
          ∧ c.printer = context.printer
              ++ ([PrinterOp.Print ("\n" ++ oneof_desc.name ++ ": union \x7b\n"),
                    PrinterOp.Indent]
                ++ variantLines spellings ++ [PrinterOp.Outdent, PrinterOp.Print "\x7d,\n"])
          ∧ ((∀ f ∈ oneof_desc.fields, f.options ≠ none ∨ (f.type ≠ TYPE_MESSAGE
                ∧ f.message_type.full_name = none ∧ f.enum_type = none
                ∧ f.is_repeated = false)) →
              spellings = pairs.map Prod.fst ∧ spellings.Nodup)) :=
  ⟨by decide, by decide, by decide, by decide,
    spellings_distinct_when_keys_are_spellings⟩

/-- C19: the general part at a oneof over `int32`, an override `Name` and `bool`. -/
theorem C19_same_short_name_listed_twice_witness :
    ∃ (pairs : List (String × Bool)) (spellings : List String),
      exampleKeysAreSpellings.fields.map OneofFieldTypeKey
        = pairs.map (fun p => FieldTypeKey.key p.1 p.2)
      ∧ spellings = pairs.map Prod.fst ∧ spellings.Nodup
      ∧ spellings = ["i32", "Name", "bool"] := by
  obtain ⟨pairs, spellings, hkeys, _, hsp, _, hcond⟩ :=
    C19_same_short_name_listed_twice.2.2.2.2 exampleKeysAreSpellings (startContext "pkg")
      (startContext "pkg")
      { startContext "pkg" with
          printer := [PrinterOp.Print "\nchoice: union \x7b\n", PrinterOp.Indent,
            PrinterOp.Print "i32,\n", PrinterOp.Print "Name,\n", PrinterOp.Print "bool,\n",
            PrinterOp.Outdent, PrinterOp.Print "\x7d,\n"] }
      [] [] (by decide) (by decide)
  have h := hcond (by decide)
  refine ⟨pairs, spellings, hkeys, h.1, h.2, ?_⟩
  have h2 : spellings.map some = [some "i32", some "Name", some "bool"] := by
    rw [← hsp]; decide
  exact List.map_injective_iff.mpr (Option.some_injective _) (h2.trans (by rfl))

/-- The enum `pkg.Color`, keyed by the empty string, and a member overridden to `Color` have
distinct keys and are both printed as `Color`. -/
theorem enum_and_override_share_spelling :
    ValidateOneofFieldTypes exampleEnumAndOverride (startContext "pkg") false
      = Outcome.returned true (startContext "pkg", true)
    ∧ PrintOneof exampleEnumAndOverride (startContext "pkg") []
      = Outcome.returned true
          ({ startContext "pkg" with
              printer := [PrinterOp.Print "\nchoice: union \x7b\n", PrinterOp.Indent,
                PrinterOp.Print "Color,\n", PrinterOp.Print "Color,\n",
                PrinterOp.Outdent, PrinterOp.Print "\x7d,\n"] }, []) := by
  refine ⟨by decide, by decide⟩

/-! ## Printer calls of the traversal -/

theorem not_struct_comma (s : String) : isStructDecl (PrinterOp.Print (s ++ ",\n")) = false := by
  simp [isStructDecl, List.isSuffixOf, List.isPrefixOf, String.data_append]

theorem not_struct_quote (s : String) : isStructDecl (PrinterOp.Print (s ++ "\"")) = false := by
  simp [isStructDecl, List.isSuffixOf, List.isPrefixOf, String.data_append]

theorem not_struct_backquote (s : String) :
    isStructDecl (PrinterOp.Print (s ++ " `")) = false := by
  simp [isStructDecl, List.isSuffixOf, List.isPrefixOf, String.data_append]

theorem not_struct_union (s : String) :
    isStructDecl (PrinterOp.Print (s ++ ": union \x7b\n")) = false := by
  simp [isStructDecl, List.isSuffixOf, List.isPrefixOf, String.data_append]

theorem not_struct_raw_union (s : String) :
    isStructDecl (PrinterOp.Print (s ++ ": struct #raw_union \x7b\n")) = false := by
  simp [isStructDecl, List.isSuffixOf, List.isPrefixOf, String.data_append]

theorem not_struct_variant (s : String) :
    isStructDecl (PrinterOp.Print (s ++ "_variant: enum \x7b\n")) = false := by
  simp [isStructDecl, List.isSuffixOf, List.isPrefixOf, String.data_append]

theorem not_struct_enum (s : String) :
    isStructDecl (PrinterOp.Print (s ++ " :: enum \x7b\n")) = false := by
  simp [isStructDecl, List.isSuffixOf, List.isPrefixOf, String.data_append]

theorem is_struct_header (s : String) :
    isStructDecl (PrinterOp.Print (s ++ " :: struct \x7b\n")) = true := by
  simp [isStructDecl, List.isSuffixOf, List.isPrefixOf, String.data_append]

theorem Stepped_refl (c : Context) (ok : Bool) : Stepped c ok c [] :=
  ⟨by simp, rfl, fun _ => rfl⟩

theorem Stepped_trans {a b c : Context} {ok : Bool} {n1 n2 : List PrinterOp}
    (h1 : Stepped a true b n1) (h2 : Stepped b ok c n2) : Stepped a ok c (n1 ++ n2) :=
  ⟨by rw [h2.1, h1.1, List.append_assoc], h2.2.1.trans h1.2.1,
    fun hok => (h2.2.2 hok).trans (h1.2.2 rfl)⟩

theorem Stepped.weaken {a b : Context} {ok : Bool} {n : List PrinterOp}
    (h : Stepped a true b n) : Stepped a ok b n :=
  ⟨h.1, h.2.1, fun _ => h.2.2 rfl⟩

theorem Stepped_print (c : Context) (text : String) :
    Stepped c true (c.Print text) [PrinterOp.Print text] :=
  ⟨rfl, rfl, fun _ => rfl⟩

theorem Stepped_indent (c : Context) : Stepped c true c.Indent [PrinterOp.Indent] :=
  ⟨rfl, rfl, fun _ => rfl⟩

theorem Stepped_outdent (c : Context) : Stepped c true c.Outdent [PrinterOp.Outdent] :=
  ⟨rfl, rfl, fun _ => rfl⟩

theorem Stepped.extended (c : Context) (new : List PrinterOp) :
    Stepped c true { c with printer := c.printer ++ new } new :=
  ⟨rfl, rfl, fun _ => rfl⟩

theorem Stepped.eq_of_true {a b : Context} {n : List PrinterOp} (h : Stepped a true b n) :
    b = { a with printer := a.printer ++ n } := by
  obtain ⟨h1, h2, h3⟩ := h
  have h4 := h3 rfl
  cases a; cases b
  simp only [Context.mk.injEq] at *
  exact ⟨h1, h4, h2⟩

theorem NoStruct.nil : NoStruct [] := fun _ h => absurd h (List.not_mem_nil _)

theorem NoStruct_append {n1 n2 : List PrinterOp} (h1 : NoStruct n1) (h2 : NoStruct n2) :
    NoStruct (n1 ++ n2) := by
  intro op hop
  rcases List.mem_append.mp hop with h | h
  · exact h1 op h
  · exact h2 op h

theorem NoStruct.cons {op : PrinterOp} {n : List PrinterOp} (h1 : isStructDecl op = false)
    (h2 : NoStruct n) : NoStruct (op :: n) := by
  intro o ho
  rcases List.mem_cons.mp ho with h | h
  · rw [h]; exact h1
  · exact h2 o h

theorem NoStruct.filter {n : List PrinterOp} (h : NoStruct n) : n.filter isStructDecl = [] := by
  rw [List.filter_eq_nil_iff]
  intro op hop
  rw [h op hop]
  simp

theorem Clean.seq {σ : Type} {ctx : σ → Context} {c c1 : Context} {n1 : List PrinterOp}
    {r : Outcome σ} (h1 : Stepped c true c1 n1) (hn : NoStruct n1) (h2 : Clean ctx c1 r) :
    Clean ctx c r := by
  cases r with
  | aborted => trivial
  | returned ok s =>
    obtain ⟨n2, hs, hn2⟩ := h2
    exact ⟨n1 ++ n2, Stepped_trans h1 hs, NoStruct_append hn hn2⟩

theorem Clean_print {σ : Type} {ctx : σ → Context} (c : Context) (text : String)
    {r : Outcome σ} (ht : isStructDecl (PrinterOp.Print text) = false)
    (h : Clean ctx (c.Print text) r) : Clean ctx c r :=
  Clean.seq (Stepped_print c text) (NoStruct.cons ht NoStruct.nil) h

theorem Clean_indent {σ : Type} {ctx : σ → Context} (c : Context) {r : Outcome σ}
    (h : Clean ctx c.Indent r) : Clean ctx c r :=
  Clean.seq (Stepped_indent c) (NoStruct.cons rfl NoStruct.nil) h

theorem Clean_outdent {σ : Type} {ctx : σ → Context} (c : Context) {r : Outcome σ}
    (h : Clean ctx c.Outdent r) : Clean ctx c r :=
  Clean.seq (Stepped_outdent c) (NoStruct.cons rfl NoStruct.nil) h

theorem Clean.done {σ : Type} (ctx : σ → Context) (ok : Bool) (s : σ) :
    Clean ctx (ctx s) (Outcome.returned ok s) :=
  ⟨[], Stepped_refl _ _, NoStruct.nil⟩

theorem SetError_clean {σ : Type} (ctx : σ → Context) (context : Context)
    (field : FieldDescriptor) (message : String) (rest : Context → σ)
    (hrest : ∀ c, ctx (rest c) = c) :
    Clean ctx context (SetError context field message rest) := by
  unfold SetError
  cases field.source_location with
  | none => trivial
  | some loc =>
    refine ⟨[], ⟨?_, ?_, ?_⟩, NoStruct.nil⟩
    · rw [hrest]; simp
    · rw [hrest]
    · intro h; simp at h

theorem NoStruct_FieldLines (field_desc : FieldDescriptor) (odin_type : String) :
    NoStruct (FieldLines field_desc odin_type) := by
  unfold FieldLines
  refine NoStruct_append (NoStruct_append (NoStruct_append ?_ ?_) ?_) ?_
  · exact NoStruct.cons (not_struct_backquote _)
      (NoStruct.cons (not_struct_quote _) (NoStruct.cons (not_struct_quote _) NoStruct.nil))
  · split_ifs
    · exact NoStruct.cons (not_struct_quote _) NoStruct.nil
    · exact NoStruct.nil
  · cases field_desc.message_type with
    | null => exact NoStruct.nil
    | message fn n => exact NoStruct.nil
    | map_entry fn n k v =>
      exact NoStruct.cons (not_struct_quote _) (NoStruct.cons (not_struct_quote _) NoStruct.nil)
  · exact NoStruct.cons (by decide) NoStruct.nil

theorem PrintField_clean (field_desc : FieldDescriptor) (context : Context) :
    Clean id context (PrintField field_desc context) := by
  rw [PrintField_output]
  cases GetOdinFieldTypeName field_desc context.proto_package with
  | none => trivial
  | some odin_type =>
    exact ⟨_, Stepped.extended context _, NoStruct_FieldLines field_desc odin_type⟩

theorem ValidateLoop_clean (fields : List FieldDescriptor) :
    ∀ (force_tagged : Bool) (used : List String) (context : Context) (out : Bool),
      Clean Prod.fst context
        (ValidateOneofFieldTypesLoop fields force_tagged used context out) := by
  induction fields with
  | nil => intro _ _ context _; exact Clean.done Prod.fst true (context, true)
  | cons f rest ih =>
    intro force_tagged used context out
    rw [ValidateOneofFieldTypesLoop]
    cases OneofFieldTypeKey f with
    | null_deref => trivial
    | invalid message => exact SetError_clean _ _ _ _ _ (fun _ => rfl)
    | key k e =>
      simp only
      split_ifs
      · exact SetError_clean _ _ _ _ _ (fun _ => rfl)
      · exact Clean.done Prod.fst true (context, false)
      · exact ih _ _ _ _

theorem PrintOneofTaggedLoop_clean (fields : List FieldDescriptor) :
    ∀ (context : Context) (al : TypeAliasMap),
      Clean Prod.fst context (PrintOneofTaggedLoop fields context al) := by
  induction fields with
  | nil => intro context al; exact Clean.done Prod.fst true (context, al)
  | cons f rest ih =>
    intro context al
    rw [PrintOneofTaggedLoop]
    cases ho : f.options with
    | none =>
      simp only
      split_ifs
      · cases f.message_type.name with
        | none => trivial
        | some s => exact Clean_print _ _ (not_struct_comma _) (ih _ _)
      · cases GetOdinFieldTypeName f context.proto_package with
        | none => trivial
        | some s => exact Clean_print _ _ (not_struct_comma _) (ih _ _)
    | some o =>
      simp only
      by_cases h1 : o.has_external = true
      · simp only [h1, if_true]
        exact Clean_print _ _ (not_struct_comma _) (ih _ _)
      · simp only [h1, Bool.false_eq_true, if_false]
        by_cases h2 : o.has_typedef_ = true
        · simp only [h2, if_true]
          generalize (if f.type = TYPE_MESSAGE then f.message_type.name
            else some (GetOdinBuiltinTypeName (GetOdinBuiltinType f.type))) = u?
          cases u? with
          | none => trivial
          | some underlying =>
            simp only
            split_ifs
            · exact SetError_clean _ _ _ _ _ (fun _ => rfl)
            · exact Clean_print _ _ (not_struct_comma _) (ih _ _)
        · simp only [h2, Bool.false_eq_true, if_false]
          exact Clean_print _ _ (not_struct_comma _) (ih _ _)

theorem PrintOneofRawLoop_clean (fields : List FieldDescriptor) :
    ∀ context : Context, Clean id context (PrintOneofRawLoop fields context) := by
  induction fields with
  | nil => intro context; exact Clean.done id true context
  | cons f rest ih =>
    intro context
    rw [PrintOneofRawLoop]
    have h := PrintField_clean f context
    cases hr : PrintField f context with
    | aborted => trivial
    | returned ok c =>
      rw [hr] at h
      obtain ⟨n, hs, hn⟩ := h
      cases ok with
      | false => exact ⟨n, hs, hn⟩
      | true => exact Clean.seq hs hn (ih c)

theorem PrintUnionDiscriminantEntries_clean (fields : List FieldDescriptor) :
    ∀ (idx : Nat) (context : Context),
      ∃ new, Stepped context true (PrintUnionDiscriminantEntries fields idx context) new
        ∧ NoStruct new := by
  induction fields with
  | nil => intro idx context; exact ⟨[], Stepped_refl _ _, NoStruct.nil⟩
  | cons f rest ih =>
    intro idx context
    rw [PrintUnionDiscriminantEntries]
    obtain ⟨n, hs, hn⟩ := ih (idx + 1) (context.Print (f.name ++ " = " ++ toString idx ++ ",\n"))
    exact ⟨_, Stepped_trans (Stepped_print _ _) hs,
      NoStruct_append (NoStruct.cons (not_struct_comma _) NoStruct.nil) hn⟩

theorem PrintUnionDiscriminantField_clean (oneof_desc : OneofDescriptor) (context : Context) :
    ∃ new, Stepped context true (PrintUnionDiscriminantField oneof_desc context) new
      ∧ NoStruct new := by
  unfold PrintUnionDiscriminantField
  obtain ⟨n, hs, hn⟩ := PrintUnionDiscriminantEntries_clean oneof_desc.fields 0
    (context.Print (oneof_desc.name ++ "_variant: enum \x7b\n")).Indent
  refine ⟨_, Stepped_trans (Stepped_print _ _) (Stepped_trans (Stepped_indent _)
    (Stepped_trans hs (Stepped_trans (Stepped_outdent _) (Stepped_print _ _)))), ?_⟩
  exact NoStruct_append (NoStruct.cons (not_struct_variant _) NoStruct.nil)
    (NoStruct_append (NoStruct.cons rfl NoStruct.nil)
      (NoStruct_append hn (NoStruct_append (NoStruct.cons rfl NoStruct.nil)
        (NoStruct.cons (by decide) NoStruct.nil))))

theorem ValidateOneofFieldTypes_clean (oneof_desc : OneofDescriptor) (context : Context)
    (out : Bool) : Clean Prod.fst context (ValidateOneofFieldTypes oneof_desc context out) :=
  ValidateLoop_clean _ _ _ _ _

theorem PrintOneof_clean (oneof_desc : OneofDescriptor) (context : Context)
    (al : TypeAliasMap) : Clean Prod.fst context (PrintOneof oneof_desc context al) := by
  unfold PrintOneof
  have hv := ValidateOneofFieldTypes_clean oneof_desc context false
  cases hr : ValidateOneofFieldTypes oneof_desc context false with
  | aborted => trivial
  | returned ok s =>
    rw [hr] at hv
    obtain ⟨c, tagged⟩ := s
    obtain ⟨n0, hs0, hn0⟩ := hv
    cases ok with
    | false => exact ⟨n0, hs0, hn0⟩
    | true =>
      cases tagged with
      | true =>
        simp only [if_true]
        refine Clean.seq hs0 hn0 (Clean_print c ("\n" ++ oneof_desc.name ++ ": union \x7b\n")
          (not_struct_union _) (Clean_indent _ ?_))
        have h := PrintOneofTaggedLoop_clean oneof_desc.fields
          (c.Print ("\n" ++ oneof_desc.name ++ ": union \x7b\n")).Indent al
        cases hl : PrintOneofTaggedLoop oneof_desc.fields
            (c.Print ("\n" ++ oneof_desc.name ++ ": union \x7b\n")).Indent al with
        | aborted => trivial
        | returned ok2 s2 =>
          rw [hl] at h
          obtain ⟨c2, al2⟩ := s2
          obtain ⟨n, hs, hn⟩ := h
          cases ok2 with
          | false => exact ⟨n, hs, hn⟩
          | true =>
            exact Clean.seq hs hn (Clean_outdent c2 (Clean_print c2.Outdent "\x7d,\n" (by decide)
              (Clean.done Prod.fst true ((c2.Outdent.Print "\x7d,\n"), al2))))
      | false =>
        simp only [Bool.false_eq_true, if_false]
        refine Clean.seq hs0 hn0 (Clean_print c
          ("\n" ++ oneof_desc.name ++ ": struct #raw_union \x7b\n")
          (not_struct_raw_union _) (Clean_indent _ ?_))
        have h := PrintOneofRawLoop_clean oneof_desc.fields
          (c.Print ("\n" ++ oneof_desc.name ++ ": struct #raw_union \x7b\n")).Indent
        cases hl : PrintOneofRawLoop oneof_desc.fields
            (c.Print ("\n" ++ oneof_desc.name ++ ": struct #raw_union \x7b\n")).Indent with
        | aborted => trivial
        | returned ok2 c2 =>
          rw [hl] at h
          obtain ⟨n, hs, hn⟩ := h
          cases ok2 with
          | false => exact ⟨n, hs, hn⟩
          | true =>
            obtain ⟨nd, hsd, hnd⟩ := PrintUnionDiscriminantField_clean oneof_desc
              (c2.Outdent.Print "\x7d,\n")
            exact Clean.seq hs hn (Clean_outdent c2 (Clean_print c2.Outdent "\x7d,\n"
              (by decide) ⟨nd, hsd, hnd⟩))

theorem PrintEnumValues_clean (values : List EnumValueDescriptor) :
    ∀ context : Context,
      PrintEnumValues values context
        = { context with
            printer := context.printer ++ values.map
              (fun v => PrinterOp.Print (v.name ++ " = " ++ toString v.number ++ ",\n")) } := by
  induction values with
  | nil => intro context; simp [PrintEnumValues]
  | cons v rest ih =>
    intro context
    rw [PrintEnumValues, ih]
    simp [Context.Print, List.append_assoc]

theorem PrintEnum_eq (enum_desc : EnumDescriptor) (context : Context) :
    PrintEnum enum_desc context =
      match EnumLines enum_desc context.proto_package with
      | none => Outcome.aborted
      | some lines =>
        Outcome.returned true { context with printer := context.printer ++ lines } := by
  unfold PrintEnum EnumLines
  cases ConvertFullTypeName enum_desc.full_name context.proto_package with
  | none => rfl
  | some name =>
    simp [PrintEnumValues_clean, Context.Print, Context.Indent, Context.Outdent,
      List.append_assoc]

theorem NoStruct_EnumLines (enum_desc : EnumDescriptor) (package_name : String)
    (lines : List PrinterOp) (h : EnumLines enum_desc package_name = some lines) :
    NoStruct lines := by
  unfold EnumLines at h
  cases hn : ConvertFullTypeName enum_desc.full_name package_name with
  | none => rw [hn] at h; simp at h
  | some name =>
    rw [hn] at h
    simp only [Option.map_some', Option.some.injEq] at h
    rw [← h]
    refine NoStruct_append (NoStruct_append ?_ ?_) ?_
    · exact NoStruct.cons (not_struct_enum _) (NoStruct.cons rfl NoStruct.nil)
    · intro op hop
      obtain ⟨v, _, hv⟩ := List.mem_map.mp hop
      rw [← hv]
      exact not_struct_comma _
    · exact NoStruct.cons rfl (NoStruct.cons (by decide) NoStruct.nil)

theorem PrintEnum_clean (enum_desc : EnumDescriptor) (context : Context) :
    Clean id context (PrintEnum enum_desc context) := by
  rw [PrintEnum_eq]
  cases h : EnumLines enum_desc context.proto_package with
  | none => trivial
  | some lines => exact ⟨lines, Stepped.extended _ _, NoStruct_EnumLines _ _ _ h⟩

theorem PrintEnums_clean (enums : List EnumDescriptor) :
    ∀ context : Context, Clean id context (PrintEnums enums context) := by
  induction enums with
  | nil => intro context; exact Clean.done id true context
  | cons e rest ih =>
    intro context
    rw [PrintEnums]
    have h := PrintEnum_clean e context
    cases hr : PrintEnum e context with
    | aborted => trivial
    | returned ok c =>
      rw [hr] at h
      obtain ⟨n, hs, hn⟩ := h
      cases ok with
      | false => exact ⟨n, hs, hn⟩
      | true => exact Clean.seq hs hn (ih c)

theorem PrintMessageFields_clean (fields : List FieldDescriptor) :
    ∀ context : Context, Clean id context (PrintMessageFields fields context) := by
  induction fields with
  | nil => intro context; exact Clean.done id true context
  | cons f rest ih =>
    intro context
    rw [PrintMessageFields]
    split_ifs
    · exact ih context
    · have h := PrintField_clean f context
      cases hr : PrintField f context with
      | aborted => trivial
      | returned ok c =>
        rw [hr] at h
        obtain ⟨n, hs, hn⟩ := h
        cases ok with
        | false => exact ⟨n, hs, hn⟩
        | true => exact Clean.seq hs hn (ih c)

theorem PrintMessageOneofs_clean (oneofs : List OneofDescriptor) :
    ∀ (context : Context) (al : TypeAliasMap),
      Clean Prod.fst context (PrintMessageOneofs oneofs context al) := by
  induction oneofs with
  | nil => intro context al; exact Clean.done Prod.fst true (context, al)
  | cons o rest ih =>
    intro context al
    rw [PrintMessageOneofs]
    have h := PrintOneof_clean o context al
    cases hr : PrintOneof o context al with
    | aborted => trivial
    | returned ok s =>
      rw [hr] at h
      obtain ⟨c, al2⟩ := s
      obtain ⟨n, hs, hn⟩ := h
      cases ok with
      | false => exact ⟨n, hs, hn⟩
      | true => exact Clean.seq hs hn (ih c al2)

/-! ## Struct declarations -/

theorem StructsEntered.of_clean_nil {c c2 : Context} {ok : Bool} {n : List PrinterOp}
    (hs : Stepped c ok c2 n) (hn : NoStruct n) : StructsEntered c ok c2 [] :=
  ⟨n, [], hs, List.prefix_refl _, fun _ => rfl, by simp [NoStruct.filter hn]⟩

theorem StructsEntered.of_clean_false {c c2 : Context} {n : List PrinterOp}
    (hs : Stepped c false c2 n) (hn : NoStruct n) (all : List Descriptor) :
    StructsEntered c false c2 all :=
  ⟨n, [], hs, List.nil_prefix, fun h => by simp at h, by simp [NoStruct.filter hn]⟩

theorem StructsEntered_append {c c1 c2 : Context} {ok : Bool} {all1 all2 : List Descriptor}
    (h1 : StructsEntered c true c1 all1) (h2 : StructsEntered c1 ok c2 all2) :
    StructsEntered c ok c2 (all1 ++ all2) := by
  obtain ⟨n1, e1, hs1, _, he1, hf1⟩ := h1
  obtain ⟨n2, e2, hs2, hp2, he2, hf2⟩ := h2
  have he1 := he1 rfl
  subst he1
  refine ⟨n1 ++ n2, e1 ++ e2, Stepped_trans hs1 hs2, ?_, ?_, ?_⟩
  · exact (List.prefix_append_right_inj e1).mpr hp2
  · intro hok; rw [he2 hok]
  · rw [List.filter_append, List.map_append, List.map_append, hf1, hf2, hs1.2.1]

theorem StructsEntered.fail_left {c c1 : Context} {all1 : List Descriptor}
    (h1 : StructsEntered c false c1 all1) (all2 : List Descriptor) :
    StructsEntered c false c1 (all1 ++ all2) := by
  obtain ⟨n1, e1, hs1, hp1, _, hf1⟩ := h1
  exact ⟨n1, e1, hs1, hp1.trans (List.prefix_append _ _), fun h => by simp at h, hf1⟩

theorem StructsEntered.header (c : Context) (message_desc : Descriptor) (name : String)
    (hname : ConvertFullTypeName message_desc.full_name c.proto_package = some name) :
    StructsEntered c true (c.Print ("\n" ++ name ++ " :: struct \x7b\n")) [message_desc] := by
  refine ⟨[PrinterOp.Print ("\n" ++ name ++ " :: struct \x7b\n")], [message_desc],
    Stepped_print _ _, List.prefix_refl _, fun _ => rfl, ?_⟩
  simp [List.filter, is_struct_header, StructDecl, hname]

theorem StructsEntered.of_clean {σ : Type} {ctx : σ → Context} {c : Context} {ok : Bool}
    {s : σ} (h : Clean ctx c (Outcome.returned ok s)) : StructsEntered c ok (ctx s) [] := by
  obtain ⟨n, hs, hn⟩ := h
  exact StructsEntered.of_clean_nil hs hn

mutual
theorem PrintMessage_structsEntered : ∀ (message_desc : Descriptor) (context : Context)
    (al : TypeAliasMap),
    (PrintMessage message_desc context al).structsEntered context (EnteredMessages message_desc)
  | .mk full_name is_map_entry fields oneof_decls nested_types enum_types, context, al => by
    rw [PrintMessage, EnteredMessages]
    cases is_map_entry with
    | true => trivial
    | false =>
      simp only [Bool.false_eq_true, if_false]
      cases hname : ConvertFullTypeName full_name context.proto_package with
      | none => trivial
      | some name =>
        simp only
        have hhead := StructsEntered.header context
          (.mk full_name false fields oneof_decls nested_types enum_types) name hname
        have hind : StructsEntered context true
            (context.Print ("\n" ++ name ++ " :: struct \x7b\n")).Indent
            [.mk full_name false fields oneof_decls nested_types enum_types] := by
          have := StructsEntered_append hhead
            (StructsEntered.of_clean_nil (Stepped_indent _) (NoStruct.cons rfl NoStruct.nil))
          simpa using this
        have hf := PrintMessageFields_clean fields
          (context.Print ("\n" ++ name ++ " :: struct \x7b\n")).Indent
        cases hrf : PrintMessageFields fields
            (context.Print ("\n" ++ name ++ " :: struct \x7b\n")).Indent with
        | aborted => trivial
        | returned ok c1 =>
          rw [hrf] at hf
          cases ok with
          | false =>
            have := StructsEntered.fail_left
              (StructsEntered_append hind (StructsEntered.of_clean hf))
              (EnteredNested nested_types)
            simpa using this
          | true =>
            simp only
            have h1 : StructsEntered context true c1
                [.mk full_name false fields oneof_decls nested_types enum_types] := by
              have := StructsEntered_append hind (StructsEntered.of_clean hf)
              simpa using this
            have ho := PrintMessageOneofs_clean oneof_decls c1 al
            cases hro : PrintMessageOneofs oneof_decls c1 al with
            | aborted => trivial
            | returned ok2 s2 =>
              rw [hro] at ho
              obtain ⟨c2, al2⟩ := s2
              cases ok2 with
              | false =>
                have := StructsEntered.fail_left
                  (StructsEntered_append h1 (StructsEntered.of_clean ho))
                  (EnteredNested nested_types)
                simpa using this
              | true =>
                simp only
                have h2 : StructsEntered context true (c2.Outdent.Print "\x7d\n")
                    [.mk full_name false fields oneof_decls nested_types enum_types] := by
                  have hclose : StructsEntered c2 true (c2.Outdent.Print "\x7d\n") [] :=
                    StructsEntered.of_clean_nil
                      (Stepped_trans (Stepped_outdent c2) (Stepped_print _ _))
                      (NoStruct.cons rfl (NoStruct.cons (by decide) NoStruct.nil))
                  have := StructsEntered_append
                    (StructsEntered_append h1 (StructsEntered.of_clean ho)) hclose
                  simpa using this
                have hn := PrintNestedTypes_structsEntered nested_types
                  (c2.Outdent.Print "\x7d\n") al2
                cases hrn : PrintNestedTypes nested_types (c2.Outdent.Print "\x7d\n") al2 with
                | aborted => trivial
                | returned ok3 s3 =>
                  rw [hrn] at hn
                  obtain ⟨c3, al3⟩ := s3
                  have h3 : StructsEntered context ok3 c3
                      (.mk full_name false fields oneof_decls nested_types enum_types
                        :: EnteredNested nested_types) := by
                    have := StructsEntered_append h2 hn
                    simpa using this
                  cases ok3 with
                  | false => exact h3
                  | true =>
                    simp only
                    have he := PrintEnums_clean enum_types c3
                    cases hre : PrintEnums enum_types c3 with
                    | aborted => trivial
                    | returned ok4 c4 =>
                      rw [hre] at he
                      have := StructsEntered_append h3 (StructsEntered.of_clean he)
                      simpa using this
theorem PrintNestedTypes_structsEntered : ∀ (nested_types : List Descriptor)
    (context : Context) (al : TypeAliasMap),
    (PrintNestedTypes nested_types context al).structsEntered context
      (EnteredNested nested_types)
  | [], context, al => by
    rw [PrintNestedTypes, EnteredNested]
    exact StructsEntered.of_clean_nil (Stepped_refl _ _) NoStruct.nil
  | nested_type :: rest, context, al => by
    rw [PrintNestedTypes, EnteredNested]
    split_ifs
    · exact PrintNestedTypes_structsEntered rest context al
    · have h := PrintMessage_structsEntered nested_type context al
      cases hr : PrintMessage nested_type context al with
      | aborted => trivial
      | returned ok s =>
        rw [hr] at h
        obtain ⟨c, al2⟩ := s
        cases ok with
        | false => exact StructsEntered.fail_left h _
        | true =>
          simp only
          have h2 := PrintNestedTypes_structsEntered rest c al2
          cases hr2 : PrintNestedTypes rest c al2 with
          | aborted => trivial
          | returned ok2 s2 =>
            rw [hr2] at h2
            exact StructsEntered_append h h2
end

mutual
theorem EnteredMessages_not_map : ∀ (message_desc : Descriptor),
    message_desc.is_map_entry = false →
    ∀ n ∈ EnteredMessages message_desc, n.is_map_entry = false
  | .mk full_name is_map_entry fields oneof_decls nested_types enum_types, h, n, hn => by
    rw [EnteredMessages] at hn
    rcases List.mem_cons.mp hn with h1 | h1
    · rw [h1]; exact h
    · exact EnteredNested_not_map nested_types n h1
theorem EnteredNested_not_map : ∀ (nested_types : List Descriptor),
    ∀ n ∈ EnteredNested nested_types, n.is_map_entry = false
  | [], n, hn => by
    rw [EnteredNested] at hn
    exact absurd hn (List.not_mem_nil _)
  | nested_type :: rest, n, hn => by
    rw [EnteredNested] at hn
    split_ifs at hn with hm
    · exact EnteredNested_not_map rest n hn
    · rcases List.mem_append.mp hn with h1 | h1
      · exact EnteredMessages_not_map nested_type (by simpa using hm) n h1
      · exact EnteredNested_not_map rest n h1
end

mutual
theorem PrintMessage_aborted_cause : ∀ (message_desc : Descriptor) (context : Context)
    (al : TypeAliasMap), message_desc.is_map_entry = false →
    PrintMessage message_desc context al = Outcome.aborted →
    ∃ n ∈ EnteredMessages message_desc, OwnPartAborts n context.proto_package
  | .mk full_name is_map_entry fields oneof_decls nested_types enum_types, context, al, hm,
      h => by
    simp only [Descriptor.is_map_entry] at hm
    subst hm
    rw [EnteredMessages]
    rw [PrintMessage] at h
    simp only [Bool.false_eq_true, if_false] at h
    cases hname : ConvertFullTypeName full_name context.proto_package with
    | none => exact ⟨_, List.mem_cons_self _ _, Or.inl hname⟩
    | some name =>
      rw [hname] at h
      simp only at h
      have hf := PrintMessageFields_clean fields
        (context.Print ("\n" ++ name ++ " :: struct \x7b\n")).Indent
      cases hrf : PrintMessageFields fields
          (context.Print ("\n" ++ name ++ " :: struct \x7b\n")).Indent with
      | aborted =>
        exact ⟨_, List.mem_cons_self _ _,
          Or.inr (Or.inl ⟨(context.Print ("\n" ++ name ++ " :: struct \x7b\n")).Indent, rfl,
            hrf⟩)⟩
      | returned ok c1 =>
        rw [hrf] at h hf
        obtain ⟨n1, hs1, _⟩ := hf
        have hp1 : c1.proto_package = context.proto_package := hs1.2.1
        cases ok with
        | false => simp at h
        | true =>
          simp only at h
          have ho := PrintMessageOneofs_clean oneof_decls c1 al
          cases hro : PrintMessageOneofs oneof_decls c1 al with
          | aborted =>
            exact ⟨_, List.mem_cons_self _ _, Or.inr (Or.inr (Or.inl ⟨c1, al, hp1, hro⟩))⟩
          | returned ok2 s2 =>
            rw [hro] at h ho
            obtain ⟨c2, al2⟩ := s2
            obtain ⟨n2, hs2, _⟩ := ho
            have hp2 : c2.proto_package = context.proto_package := hs2.2.1.trans hp1
            cases ok2 with
            | false => simp at h
            | true =>
              simp only at h
              have hn := PrintNestedTypes_structsEntered nested_types
                (c2.Outdent.Print "\x7d\n") al2
              cases hrn : PrintNestedTypes nested_types (c2.Outdent.Print "\x7d\n") al2 with
              | aborted =>
                obtain ⟨n, hmem, hcause⟩ :=
                  PrintNestedTypes_aborted_cause nested_types (c2.Outdent.Print "\x7d\n") al2 hrn
                refine ⟨n, List.mem_cons_of_mem _ hmem, ?_⟩
                have hp : (c2.Outdent.Print "\x7d\n").proto_package = context.proto_package :=
                  hp2
                rw [← hp]
                exact hcause
              | returned ok3 s3 =>
                rw [hrn] at h hn
                obtain ⟨c3, al3⟩ := s3
                obtain ⟨n3, _, hs3, _⟩ := hn
                have hp3 : c3.proto_package = context.proto_package := hs3.2.1.trans hp2
                cases ok3 with
                | false => simp at h
                | true =>
                  simp only at h
                  cases hre : PrintEnums enum_types c3 with
                  | aborted =>
                    exact ⟨_, List.mem_cons_self _ _,
                      Or.inr (Or.inr (Or.inr ⟨c3, hp3, hre⟩))⟩
                  | returned ok4 c4 => rw [hre] at h; simp at h
theorem PrintNestedTypes_aborted_cause : ∀ (nested_types : List Descriptor)
    (context : Context) (al : TypeAliasMap),
    PrintNestedTypes nested_types context al = Outcome.aborted →
    ∃ n ∈ EnteredNested nested_types, OwnPartAborts n context.proto_package
  | [], context, al, h => by
    rw [PrintNestedTypes] at h
    simp at h
  | nested_type :: rest, context, al, h => by
    rw [PrintNestedTypes] at h
    rw [EnteredNested]
    split_ifs at h ⊢ with hmap
    · exact PrintNestedTypes_aborted_cause rest context al h
    · have hm : nested_type.is_map_entry = false := by simpa using hmap
      have hs := PrintMessage_structsEntered nested_type context al
      cases hr : PrintMessage nested_type context al with
      | aborted =>
        obtain ⟨n, hmem, hcause⟩ := PrintMessage_aborted_cause nested_type context al hm hr
        exact ⟨n, List.mem_append_left _ hmem, hcause⟩
      | returned ok s =>
        rw [hr] at h hs
        obtain ⟨c, al2⟩ := s
        cases ok with
        | false => simp at h
        | true =>
          simp only at h
          obtain ⟨n1, _, hs1, _⟩ := hs
          obtain ⟨n, hmem, hcause⟩ := PrintNestedTypes_aborted_cause rest c al2 h
          refine ⟨n, List.mem_append_right _ hmem, ?_⟩
          rw [← hs1.2.1]
          exact hcause
end

/-- C15 (as amended): for a message that is no map entry, `PrintMessage` aborts only when,
for the message itself or for a nested message reached through the guard of line 446 (none
of them a map entry), resolving its name or printing its own fields, oneofs or enums aborts:
the assertion at its top never fails in a recursive call, and when none of those steps can
abort `PrintMessage` returns.  Whenever it returns, the struct declaration headers it printed
are, in order and once each, those of the messages entered so far, none of them a map entry:
of all of them when it returned `true`, of a prefix of them when a oneof failed. -/
theorem C15_map_entries_never_declared (message_desc : Descriptor) (context : Context)
    (al : TypeAliasMap) (hm : message_desc.is_map_entry = false) :
    (PrintMessage message_desc context al = Outcome.aborted →
        ∃ n ∈ EnteredMessages message_desc,
          n.is_map_entry = false ∧ OwnPartAborts n context.proto_package)
    ∧ ((∀ n ∈ EnteredMessages message_desc, ¬ OwnPartAborts n context.proto_package) →
        ∃ (ok : Bool) (c : Context) (al2 : TypeAliasMap),
          PrintMessage message_desc context al = Outcome.returned ok (c, al2))
    ∧ ∀ (ok : Bool) (c : Context) (al2 : TypeAliasMap),
        PrintMessage message_desc context al = Outcome.returned ok (c, al2) →
        ∃ (new : List PrinterOp) (entered : List Descriptor),
          c.printer = context.printer ++ new
          ∧ entered <+: EnteredMessages message_desc
          ∧ (ok = true → entered = EnteredMessages message_desc)
          ∧ (new.filter isStructDecl).map some
              = entered.map (StructDecl context.proto_package)
          ∧ ∀ n ∈ entered, n.is_map_entry = false := by
  have hall := EnteredMessages_not_map message_desc hm
  refine ⟨?_, ?_, ?_⟩
  · intro h
    obtain ⟨n, hmem, hcause⟩ := PrintMessage_aborted_cause message_desc context al hm h
    exact ⟨n, hmem, hall n hmem, hcause⟩
  · intro hparts
    cases h : PrintMessage message_desc context al with
    | aborted =>
      obtain ⟨n, hmem, hcause⟩ := PrintMessage_aborted_cause message_desc context al hm h
      exact absurd hcause (hparts n hmem)
    | returned ok s => exact ⟨ok, s.1, s.2, rfl⟩
  · intro ok c al2 h
    have hs := PrintMessage_structsEntered message_desc context al
    rw [h] at hs
    obtain ⟨new, entered, hstep, hpre, hok, hfilter⟩ := hs
    exact ⟨new, entered, hstep.1, hpre, hok, hfilter, fun n hn => hall n (hpre.subset hn)⟩

/-- C15 at `pkg.Item`: `PrintMessage` returns although `Item` and `Item.Part` each hold a
map entry; the entry messages `AttrsEntry` and `TagsEntry` get no struct declaration, `Item`
and `Item_Part` get one each. -/
theorem C15_map_entries_never_declared_witness :
    (EnteredMessages exampleItem).map Descriptor.full_name = ["pkg.Item", "pkg.Item.Part"]
    ∧ (∃ (new : List PrinterOp) (entered : List Descriptor),
        entered = EnteredMessages exampleItem
        ∧ (new.filter isStructDecl).map some = entered.map (StructDecl "pkg")
        ∧ ∀ n ∈ entered, n.is_map_entry = false)
    ∧ PrintMessage exampleItem (startContext "pkg") []
      = Outcome.returned true
          ({ startContext "pkg" with
              printer := [PrinterOp.Print "\nItem :: struct \x7b\n", PrinterOp.Indent,
                PrinterOp.Print "attrs : map[string]i32 `", PrinterOp.Print "id:\"7\"",
                PrinterOp.Print " type:\"11\"", PrinterOp.Print " key_type:\"9\"",
                PrinterOp.Print " value_type:\"5\"", PrinterOp.Print "`,\n",
                PrinterOp.Print "id : i32 `", PrinterOp.Print "id:\"1\"",
                PrinterOp.Print " type:\"5\"", PrinterOp.Print "`,\n",
                PrinterOp.Outdent, PrinterOp.Print "\x7d\n",
                PrinterOp.Print "\nItem_Part :: struct \x7b\n", PrinterOp.Indent,
                PrinterOp.Outdent, PrinterOp.Print "\x7d\n",
                PrinterOp.Print "\nItem_Kind :: enum \x7b\n", PrinterOp.Indent,
                PrinterOp.Print "UNKNOWN = 0,\n", PrinterOp.Print "BIG = 2,\n",
                PrinterOp.Outdent, PrinterOp.Print "\x7d\n"] }, []) := by
  have h := C15_map_entries_never_declared exampleItem (startContext "pkg") [] rfl
  have hret : PrintMessage exampleItem (startContext "pkg") []
      = Outcome.returned true
          ({ startContext "pkg" with
              printer := [PrinterOp.Print "\nItem :: struct \x7b\n", PrinterOp.Indent,
                PrinterOp.Print "attrs : map[string]i32 `", PrinterOp.Print "id:\"7\"",
                PrinterOp.Print " type:\"11\"", PrinterOp.Print " key_type:\"9\"",
                PrinterOp.Print " value_type:\"5\"", PrinterOp.Print "`,\n",
                PrinterOp.Print "id : i32 `", PrinterOp.Print "id:\"1\"",
                PrinterOp.Print " type:\"5\"", PrinterOp.Print "`,\n",
                PrinterOp.Outdent, PrinterOp.Print "\x7d\n",
                PrinterOp.Print "\nItem_Part :: struct \x7b\n", PrinterOp.Indent,
                PrinterOp.Outdent, PrinterOp.Print "\x7d\n",
                PrinterOp.Print "\nItem_Kind :: enum \x7b\n", PrinterOp.Indent,
                PrinterOp.Print "UNKNOWN = 0,\n", PrinterOp.Print "BIG = 2,\n",
                PrinterOp.Outdent, PrinterOp.Print "\x7d\n"] }, []) := by decide
  obtain ⟨new, entered, _, _, hok, hfilter, hnm⟩ := h.2.2 true _ [] hret
  exact ⟨by decide, ⟨new, entered, hok rfl, hfilter, hnm⟩, hret⟩

/-- C15 fails as stated: the only oneof of `pkg.Holder` fails, `PrintMessage` returns `false`
right after the struct header of `Holder`, and the nested message `pkg.Holder.Part`, which is
no map entry, gets no struct declaration. -/
theorem C15_counterexample :
    exampleCutShort.is_map_entry = false
    ∧ (EnteredMessages exampleCutShort).map Descriptor.full_name
        = ["pkg.Holder", "pkg.Holder.Part"]
    ∧ (∀ n ∈ EnteredMessages exampleCutShort, n.is_map_entry = false)
    ∧ PrintMessage exampleCutShort (startContext "pkg") []
      = Outcome.returned false
          ({ startContext "pkg" with
              printer := [PrinterOp.Print "\nHolder :: struct \x7b\n", PrinterOp.Indent],
              error := "line 6: Duplicate Odin union type string for field c after applying (odin).external/typedef overrides" },
            []) := by
  refine ⟨by decide, by decide, by decide, by decide⟩

/-! ## Message and file layout -/

theorem PrintMessageFields_eq (fields : List FieldDescriptor) :
    ∀ context : Context,
      PrintMessageFields fields context =
        match allResults ((fields.filter (fun f => !f.containing_oneof)).map
            (fun f => PrintFieldOutput f context.proto_package)) with
        | none => Outcome.aborted
        | some rendered =>
          Outcome.returned true { context with printer := context.printer ++ rendered.flatten } := by
  induction fields with
  | nil => intro context; simp [PrintMessageFields, allResults]
  | cons f rest ih =>
    intro context
    rw [PrintMessageFields]
    by_cases hc : f.containing_oneof = true
    · simp only [hc, if_true, List.filter_cons, Bool.not_true, Bool.false_eq_true, if_false]
      exact ih context
    · simp only [hc, Bool.false_eq_true, if_false, List.filter_cons, Bool.not_eq_true,
        Bool.not_false, if_true, List.map_cons]
      rw [PrintField_eq]
      cases hf : PrintFieldOutput f context.proto_package with
      | none => simp [allResults]
      | some ops =>
        simp only [allResults]
        rw [ih]
        cases hr : allResults ((rest.filter (fun f => !f.containing_oneof)).map
            (fun f => PrintFieldOutput f context.proto_package)) with
        | none => simp [hr]
        | some rendered => simp [hr, List.append_assoc]

theorem PrintEnums_eq (enums : List EnumDescriptor) :
    ∀ context : Context,
      PrintEnums enums context =
        match allResults (enums.map (fun e => EnumLines e context.proto_package)) with
        | none => Outcome.aborted
        | some rendered =>
          Outcome.returned true { context with printer := context.printer ++ rendered.flatten } := by
  induction enums with
  | nil => intro context; simp [PrintEnums, allResults]
  | cons e rest ih =>
    intro context
    rw [PrintEnums, PrintEnum_eq]
    cases he : EnumLines e context.proto_package with
    | none => simp [allResults, he]
    | some lines =>
      simp only [List.map_cons, he, allResults]
      rw [ih]
      cases hr : allResults (rest.map (fun e => EnumLines e context.proto_package)) with
      | none => simp [hr]
      | some rendered => simp [hr, List.append_assoc]

theorem PrintMessageOneofs_runs (oneofs : List OneofDescriptor) :
    ∀ (context : Context) (al : TypeAliasMap) (s : Context × TypeAliasMap),
      PrintMessageOneofs oneofs context al = Outcome.returned true s ↔
        RunsInOrder PrintOneofStep oneofs (context, al) s := by
  induction oneofs with
  | nil =>
    intro context al s
    simp only [PrintMessageOneofs, RunsInOrder, Outcome.returned.injEq, true_and]
    exact eq_comm
  | cons o rest ih =>
    intro context al s
    rw [PrintMessageOneofs]
    simp only [RunsInOrder, PrintOneofStep]
    cases hr : PrintOneof o context al with
    | aborted => simp
    | returned ok s1 =>
      obtain ⟨c1, a1⟩ := s1
      cases ok with
      | false => simp
      | true =>
        simp only [Outcome.returned.injEq, true_and, exists_eq_left']
        exact ih c1 a1 s

theorem PrintNestedTypes_runs (nested_types : List Descriptor) :
    ∀ (context : Context) (al : TypeAliasMap) (s : Context × TypeAliasMap),
      PrintNestedTypes nested_types context al = Outcome.returned true s ↔
        RunsInOrder PrintMessageStep (nested_types.filter (fun n => !n.is_map_entry))
          (context, al) s := by
  induction nested_types with
  | nil =>
    intro context al s
    rw [PrintNestedTypes]
    simp only [List.filter_nil, RunsInOrder, Outcome.returned.injEq, true_and]
    exact eq_comm
  | cons n rest ih =>
    intro context al s
    rw [PrintNestedTypes]
    by_cases hm : n.is_map_entry = true
    · simp only [hm, if_true, List.filter_cons, Bool.not_true, Bool.false_eq_true, if_false]
      exact ih context al s
    · simp only [hm, Bool.false_eq_true, if_false, List.filter_cons, Bool.not_eq_true,
        Bool.not_false, if_true, RunsInOrder, PrintMessageStep]
      cases hr : PrintMessage n context al with
      | aborted => simp
      | returned ok s1 =>
        obtain ⟨c1, a1⟩ := s1
        cases ok with
        | false => simp
        | true =>
          simp only [Outcome.returned.injEq, true_and, exists_eq_left']
          exact ih c1 a1 s

theorem PrintFileMessages_runs (messages : List Descriptor) :
    ∀ (context : Context) (al : TypeAliasMap) (s : Context × TypeAliasMap),
      PrintFileMessages messages context al = Outcome.returned true s ↔
        RunsInOrder PrintMessageStep messages (context, al) s := by
  induction messages with
  | nil =>
    intro context al s
    simp only [PrintFileMessages, RunsInOrder, Outcome.returned.injEq, true_and]
    exact eq_comm
  | cons m rest ih =>
    intro context al s
    rw [PrintFileMessages]
    simp only [RunsInOrder, PrintMessageStep]
    cases hr : PrintMessage m context al with
    | aborted => simp
    | returned ok s1 =>
      obtain ⟨c1, a1⟩ := s1
      cases ok with
      | false => simp
      | true =>
        simp only [Outcome.returned.injEq, true_and, exists_eq_left']
        exact ih c1 a1 s

theorem PrintMessageOneofs_extends (oneofs : List OneofDescriptor) (context c : Context)
    (al al2 : TypeAliasMap)
    (h : PrintMessageOneofs oneofs context al = Outcome.returned true (c, al2)) :
    ∃ new, c = { context with printer := context.printer ++ new } := by
  have hc := PrintMessageOneofs_clean oneofs context al
  rw [h] at hc
  obtain ⟨new, hs, _⟩ := hc
  exact ⟨new, Stepped.eq_of_true hs⟩

theorem PrintNestedTypes_extends (nested_types : List Descriptor) (context c : Context)
    (al al2 : TypeAliasMap)
    (h : PrintNestedTypes nested_types context al = Outcome.returned true (c, al2)) :
    ∃ new, c = { context with printer := context.printer ++ new } := by
  have hc := PrintNestedTypes_structsEntered nested_types context al
  rw [h] at hc
  obtain ⟨new, _, hs, _⟩ := hc
  exact ⟨new, Stepped.eq_of_true hs⟩

theorem PrintMessage_true_iff (full_name : String) (is_map_entry : Bool)
    (fields : List FieldDescriptor) (oneof_decls : List OneofDescriptor)
    (nested_types : List Descriptor) (enum_types : List EnumDescriptor) (context c : Context)
    (al al3 : TypeAliasMap) :
    PrintMessage (.mk full_name is_map_entry fields oneof_decls nested_types enum_types)
        context al = Outcome.returned true (c, al3) ↔
      is_map_entry = false ∧ ∃ (name : String) (c1 c2 : Context) (al2 : TypeAliasMap)
        (c3 : Context),
        ConvertFullTypeName full_name context.proto_package = some name
        ∧ PrintMessageFields fields
            (context.Print ("\n" ++ name ++ " :: struct \x7b\n")).Indent
          = Outcome.returned true c1
        ∧ PrintMessageOneofs oneof_decls c1 al = Outcome.returned true (c2, al2)
        ∧ PrintNestedTypes nested_types (c2.Outdent.Print "\x7d\n") al2
          = Outcome.returned true (c3, al3)
        ∧ PrintEnums enum_types c3 = Outcome.returned true c := by
  rw [PrintMessage]
  cases is_map_entry with
  | true => simp
  | false =>
    simp only [Bool.false_eq_true, if_false, true_and]
    cases hname : ConvertFullTypeName full_name context.proto_package with
    | none => simp
    | some name =>
      simp only [Option.some.injEq, exists_and_left, exists_eq_left']
      cases hrf : PrintMessageFields fields
          (context.Print ("\n" ++ name ++ " :: struct \x7b\n")).Indent with
      | aborted => simp
      | returned ok1 c1 =>
        cases ok1 with
        | false => simp
        | true =>
          simp only [Outcome.returned.injEq, true_and, exists_eq_left']
          cases hro : PrintMessageOneofs oneof_decls c1 al with
          | aborted => simp
          | returned ok2 s2 =>
            obtain ⟨c2, al2⟩ := s2
            cases ok2 with
            | false => simp
            | true =>
              simp only [Outcome.returned.injEq, Prod.mk.injEq, true_and]
              constructor
              · intro h
                refine ⟨c2, al2, ⟨rfl, rfl⟩, ?_⟩
                cases hrn : PrintNestedTypes nested_types (c2.Outdent.Print "\x7d\n") al2 with
                | aborted => rw [hrn] at h; simp at h
                | returned ok3 s3 =>
                  rw [hrn] at h
                  obtain ⟨c3, al4⟩ := s3
                  cases ok3 with
                  | false => simp at h
                  | true =>
                    simp only at h
                    cases hre : PrintEnums enum_types c3 with
                    | aborted => rw [hre] at h; simp at h
                    | returned ok4 c4 =>
                      rw [hre] at h
                      simp only [Outcome.returned.injEq, Prod.mk.injEq] at h
                      obtain ⟨hok, hc, hal⟩ := h
                      subst hok hc hal
                      exact ⟨c3, rfl, hre⟩
              · rintro ⟨c2b, al2b, ⟨h1, h2⟩, c3, hrn, hre⟩
                subst h1 h2
                rw [hrn]
                simp only
                rw [hre]

/-- C16: when `PrintMessage` returns `true`, what it appended is, in this order: the struct
header with the flattened name; the rendering by `PrintField` of every field outside a oneof,
in declaration order; what `PrintOneof` prints for the oneofs, run in declaration order; the
closing brace; what `PrintMessage` prints for the nested messages that are no map entries,
run in declaration order; the rendering of every nested enum, in declaration order, each
value as `<name> = <number>`. -/
theorem C16_message_layout (message_desc : Descriptor) (context c : Context)
    (al al3 : TypeAliasMap)
    (h : PrintMessage message_desc context al = Outcome.returned true (c, al3)) :
    ∃ (name : String) (fieldLines : List (List PrinterOp)) (oneofOps nestedOps : List PrinterOp)
      (al2 : TypeAliasMap) (enumLines : List (List PrinterOp)),
      ConvertFullTypeName message_desc.full_name context.proto_package = some name
      ∧ allResults ((message_desc.fields.filter (fun f => !f.containing_oneof)).map
          (fun f => PrintFieldOutput f context.proto_package)) = some fieldLines
      ∧ RunsInOrder PrintOneofStep message_desc.oneof_decls
          ({ context with
              printer := context.printer
                ++ ([PrinterOp.Print ("\n" ++ name ++ " :: struct \x7b\n"), PrinterOp.Indent]
                  ++ fieldLines.flatten) }, al)
          ({ context with
              printer := context.printer
                ++ ([PrinterOp.Print ("\n" ++ name ++ " :: struct \x7b\n"), PrinterOp.Indent]
                  ++ fieldLines.flatten ++ oneofOps) }, al2)
      ∧ RunsInOrder PrintMessageStep
          (message_desc.nested_types.filter (fun n => !n.is_map_entry))
          ({ context with
              printer := context.printer
                ++ ([PrinterOp.Print ("\n" ++ name ++ " :: struct \x7b\n"), PrinterOp.Indent]
                  ++ fieldLines.flatten ++ oneofOps
                  ++ [PrinterOp.Outdent, PrinterOp.Print "\x7d\n"]) }, al2)
          ({ context with
              printer := context.printer
                ++ ([PrinterOp.Print ("\n" ++ name ++ " :: struct \x7b\n"), PrinterOp.Indent]
                  ++ fieldLines.flatten ++ oneofOps
                  ++ [PrinterOp.Outdent, PrinterOp.Print "\x7d\n"] ++ nestedOps) }, al3)
      ∧ allResults (message_desc.enum_types.map
          (fun e => EnumLines e context.proto_package)) = some enumLines
      ∧ c = { context with
              printer := context.printer
                ++ ([PrinterOp.Print ("\n" ++ name ++ " :: struct \x7b\n"), PrinterOp.Indent]
                  ++ fieldLines.flatten ++ oneofOps
                  ++ [PrinterOp.Outdent, PrinterOp.Print "\x7d\n"] ++ nestedOps
                  ++ enumLines.flatten) } := by
  obtain ⟨full_name, is_map_entry, fields, oneof_decls, nested_types, enum_types⟩ :=
    message_desc
  obtain ⟨_, name, c1, c2, al2, c3, hname, hrf, hro, hrn, hre⟩ :=
    (PrintMessage_true_iff _ _ _ _ _ _ _ _ _ _).mp h
  rw [PrintMessageFields_eq] at hrf
  have hp0 : (context.Print ("\n" ++ name ++ " :: struct \x7b\n")).Indent.proto_package
      = context.proto_package := rfl
  rw [hp0] at hrf
  cases hfl : allResults ((fields.filter (fun f => !f.containing_oneof)).map
      (fun f => PrintFieldOutput f context.proto_package)) with
  | none => rw [hfl] at hrf; simp at hrf
  | some fieldLines =>
    rw [hfl] at hrf
    simp only [Outcome.returned.injEq, true_and] at hrf
    obtain ⟨oneofOps, hc2⟩ := PrintMessageOneofs_extends _ _ _ _ _ hro
    obtain ⟨nestedOps, hc3⟩ := PrintNestedTypes_extends _ _ _ _ _ hrn
    rw [PrintEnums_eq] at hre
    have hpkg : c3.proto_package = context.proto_package := by
      rw [hc3, hc2, ← hrf]; rfl
    rw [hpkg] at hre
    cases hel : allResults (enum_types.map (fun e => EnumLines e context.proto_package)) with
    | none => rw [hel] at hre; simp at hre
    | some enumLines =>
      rw [hel] at hre
      simp only [Outcome.returned.injEq, true_and] at hre
      have e1 : c1 = { context with
          printer := context.printer
            ++ ([PrinterOp.Print ("\n" ++ name ++ " :: struct \x7b\n"), PrinterOp.Indent]
              ++ fieldLines.flatten) } := by
        rw [← hrf]; simp [Context.Print, Context.Indent, List.append_assoc]
      have e2 : c2 = { context with
          printer := context.printer
            ++ ([PrinterOp.Print ("\n" ++ name ++ " :: struct \x7b\n"), PrinterOp.Indent]
              ++ fieldLines.flatten ++ oneofOps) } := by
        rw [hc2, e1]; simp [List.append_assoc]
      have e2b : c2.Outdent.Print "\x7d\n" = { context with
          printer := context.printer
            ++ ([PrinterOp.Print ("\n" ++ name ++ " :: struct \x7b\n"), PrinterOp.Indent]
              ++ fieldLines.flatten ++ oneofOps
              ++ [PrinterOp.Outdent, PrinterOp.Print "\x7d\n"]) } := by
        rw [e2]; simp [Context.Print, Context.Outdent, List.append_assoc]
      have e3 : c3 = { context with
          printer := context.printer
            ++ ([PrinterOp.Print ("\n" ++ name ++ " :: struct \x7b\n"), PrinterOp.Indent]
              ++ fieldLines.flatten ++ oneofOps
              ++ [PrinterOp.Outdent, PrinterOp.Print "\x7d\n"] ++ nestedOps) } := by
        rw [hc3, e2b]; simp [List.append_assoc]
      refine ⟨name, fieldLines, oneofOps, nestedOps, al2, enumLines, hname, hfl, ?_, ?_, hel,
        ?_⟩
      · have := (PrintMessageOneofs_runs _ _ _ _).mp hro
        rw [e1, e2] at this
        exact this
      · have := (PrintNestedTypes_runs _ _ _ _).mp hrn
        rw [e2b, e3] at this
        exact this
      · rw [← hre, e3]
        simp [List.append_assoc]

theorem KeysDistinct_emplace (al : TypeAliasMap) (a u : String) (h : KeysDistinct al) :
    KeysDistinct (al.emplace a u).1 := by
  unfold TypeAliasMap.emplace
  cases hl : List.lookup a al with
  | some e => exact h
  | none =>
    simp only [KeysDistinct, List.map_append, List.map_cons, List.map_nil]
    rw [List.nodup_append]
    refine ⟨h, List.nodup_singleton _, ?_⟩
    intro x hx hx2
    rw [List.mem_singleton] at hx2
    subst hx2
    obtain ⟨p, hp, hpx⟩ := List.mem_map.mp hx
    have := List.lookup_eq_none_iff.mp hl p hp
    simp [hpx] at this

theorem SetError_keysDistinct (context : Context) (field : FieldDescriptor) (message : String)
    (al : TypeAliasMap) (h : KeysDistinct al) :
    (SetError context field message (fun c => (c, al))).keysDistinct := by
  unfold SetError
  cases field.source_location with
  | none => trivial
  | some loc => exact h

theorem PrintOneofTaggedLoop_keysDistinct (fields : List FieldDescriptor) :
    ∀ (context : Context) (al : TypeAliasMap), KeysDistinct al →
      (PrintOneofTaggedLoop fields context al).keysDistinct := by
  induction fields with
  | nil => intro context al h; exact h
  | cons f rest ih =>
    intro context al h
    rw [PrintOneofTaggedLoop]
    cases ho : f.options with
    | none =>
      simp only
      split_ifs
      · cases f.message_type.name with
        | none => trivial
        | some s => exact ih _ _ h
      · cases GetOdinFieldTypeName f context.proto_package with
        | none => trivial
        | some s => exact ih _ _ h
    | some o =>
      simp only
      by_cases h1 : o.has_external = true
      · simp only [h1, if_true]
        exact ih _ _ h
      · simp only [h1, Bool.false_eq_true, if_false]
        by_cases h2 : o.has_typedef_ = true
        · simp only [h2, if_true]
          generalize (if f.type = TYPE_MESSAGE then f.message_type.name
            else some (GetOdinBuiltinTypeName (GetOdinBuiltinType f.type))) = u?
          cases u? with
          | none => trivial
          | some underlying =>
            simp only
            have hk := KeysDistinct_emplace al o.typedef_ underlying h
            split_ifs
            · exact SetError_keysDistinct _ _ _ _ hk
            · exact ih _ _ hk
        · simp only [h2, Bool.false_eq_true, if_false]
          exact ih _ _ h

theorem PrintOneof_keysDistinct (oneof_desc : OneofDescriptor) (context : Context)
    (al : TypeAliasMap) (h : KeysDistinct al) :
    (PrintOneof oneof_desc context al).keysDistinct := by
  unfold PrintOneof
  cases ValidateOneofFieldTypes oneof_desc context false with
  | aborted => trivial
  | returned ok s =>
    obtain ⟨c, tagged⟩ := s
    cases ok with
    | false => exact h
    | true =>
      cases tagged with
      | true =>
        simp only [if_true]
        have hl := PrintOneofTaggedLoop_keysDistinct oneof_desc.fields
          (c.Print ("\n" ++ oneof_desc.name ++ ": union \x7b\n")).Indent al h
        cases hr : PrintOneofTaggedLoop oneof_desc.fields
            (c.Print ("\n" ++ oneof_desc.name ++ ": union \x7b\n")).Indent al with
        | aborted => trivial
        | returned ok2 s2 =>
          rw [hr] at hl
          obtain ⟨c2, al2⟩ := s2
          cases ok2 <;> exact hl
      | false =>
        simp only [Bool.false_eq_true, if_false]
        cases PrintOneofRawLoop oneof_desc.fields
            (c.Print ("\n" ++ oneof_desc.name ++ ": struct #raw_union \x7b\n")).Indent with
        | aborted => trivial
        | returned ok2 c2 => cases ok2 <;> exact h

theorem PrintMessageOneofs_keysDistinct (oneofs : List OneofDescriptor) :
    ∀ (context : Context) (al : TypeAliasMap), KeysDistinct al →
      (PrintMessageOneofs oneofs context al).keysDistinct := by
  induction oneofs with
  | nil => intro context al h; exact h
  | cons o rest ih =>
    intro context al h
    rw [PrintMessageOneofs]
    have ho := PrintOneof_keysDistinct o context al h
    cases hr : PrintOneof o context al with
    | aborted => trivial
    | returned ok s =>
      rw [hr] at ho
      obtain ⟨c, al2⟩ := s
      cases ok with
      | false => exact ho
      | true => exact ih c al2 ho

mutual
theorem PrintMessage_keysDistinct : ∀ (message_desc : Descriptor) (context : Context)
    (al : TypeAliasMap), KeysDistinct al → (PrintMessage message_desc context al).keysDistinct
  | .mk full_name is_map_entry fields oneof_decls nested_types enum_types, context, al, h => by
    rw [PrintMessage]
    cases is_map_entry with
    | true => trivial
    | false =>
      simp only [Bool.false_eq_true, if_false]
      cases ConvertFullTypeName full_name context.proto_package with
      | none => trivial
      | some name =>
        simp only
        cases PrintMessageFields fields
            (context.Print ("\n" ++ name ++ " :: struct \x7b\n")).Indent with
        | aborted => trivial
        | returned ok c =>
          cases ok with
          | false => exact h
          | true =>
            simp only
            have ho := PrintMessageOneofs_keysDistinct oneof_decls c al h
            cases hr : PrintMessageOneofs oneof_decls c al with
            | aborted => trivial
            | returned ok2 s2 =>
              rw [hr] at ho
              obtain ⟨c2, al2⟩ := s2
              cases ok2 with
              | false => exact ho
              | true =>
                simp only
                have h3 := PrintNestedTypes_keysDistinct nested_types
                  (c2.Outdent.Print "\x7d\n") al2 ho
                cases hr3 : PrintNestedTypes nested_types (c2.Outdent.Print "\x7d\n") al2 with
                | aborted => trivial
                | returned ok3 s3 =>
                  rw [hr3] at h3
                  obtain ⟨c3, al3⟩ := s3
                  cases ok3 with
                  | false => exact h3
                  | true =>
                    simp only
                    cases PrintEnums enum_types c3 with
                    | aborted => trivial
                    | returned ok4 c4 => exact h3
theorem PrintNestedTypes_keysDistinct : ∀ (nested_types : List Descriptor) (context : Context)
    (al : TypeAliasMap), KeysDistinct al →
    (PrintNestedTypes nested_types context al).keysDistinct
  | [], context, al, h => by
    rw [PrintNestedTypes]
    exact h
  | nested_type :: rest, context, al, h => by
    rw [PrintNestedTypes]
    split_ifs
    · exact PrintNestedTypes_keysDistinct rest context al h
    · have hm := PrintMessage_keysDistinct nested_type context al h
      cases hr : PrintMessage nested_type context al with
      | aborted => trivial
      | returned ok s =>
        rw [hr] at hm
        obtain ⟨c, al2⟩ := s
        cases ok with
        | false => exact hm
        | true => exact PrintNestedTypes_keysDistinct rest c al2 hm
end

theorem PrintFileMessages_keysDistinct (messages : List Descriptor) :
    ∀ (context : Context) (al : TypeAliasMap), KeysDistinct al →
      (PrintFileMessages messages context al).keysDistinct := by
  induction messages with
  | nil => intro context al h; exact h
  | cons m rest ih =>
    intro context al h
    rw [PrintFileMessages]
    have hm := PrintMessage_keysDistinct m context al h
    cases hr : PrintMessage m context al with
    | aborted => trivial
    | returned ok s =>
      rw [hr] at hm
      obtain ⟨c, al2⟩ := s
      cases ok with
      | false => exact hm
      | true => exact ih c al2 hm

theorem PrintTypeAliases_eq (entries : List (String × String)) :
    ∀ context : Context,
      PrintTypeAliases entries context
        = { context with printer := context.printer ++ entries.map AliasLine } := by
  induction entries with
  | nil => intro context; simp [PrintTypeAliases]
  | cons e rest ih =>
    intro context
    obtain ⟨a, u⟩ := e
    rw [PrintTypeAliases, ih]
    simp [Context.Print, AliasLine, List.append_assoc]

theorem PackageName_eq (file_desc : FileDescriptor) :
    PackageName file_desc
      = if file_desc.package = "" then "proto"
        else "proto_" ++ String.mk (file_desc.package.data.map
          (fun ch => if ch = '.' then '_' else ch)) := by
  unfold PackageName
  split_ifs
  · rfl
  · rw [ConvertFullTypeName_empty_package]
    rfl

theorem PrintFileMessages_extends (messages : List Descriptor) :
    ∀ (context c : Context) (al al2 : TypeAliasMap),
      PrintFileMessages messages context al = Outcome.returned true (c, al2) →
      ∃ new, c = { context with printer := context.printer ++ new } := by
  induction messages with
  | nil =>
    intro context c al al2 h
    simp only [PrintFileMessages, Outcome.returned.injEq, Prod.mk.injEq, true_and] at h
    exact ⟨[], by simp [← h.1]⟩
  | cons m rest ih =>
    intro context c al al2 h
    rw [PrintFileMessages] at h
    have hm := PrintMessage_structsEntered m context al
    cases hr : PrintMessage m context al with
    | aborted => rw [hr] at h; simp at h
    | returned ok s =>
      rw [hr] at h hm
      obtain ⟨c1, al1⟩ := s
      cases ok with
      | false => simp at h
      | true =>
        simp only at h
        obtain ⟨n1, _, hs, _⟩ := hm
        obtain ⟨n2, h2⟩ := ih _ _ _ _ h
        have h1 : c1 = { context with printer := context.printer ++ n1 } :=
          Stepped.eq_of_true hs
        refine ⟨n1 ++ n2, ?_⟩
        rw [h2, h1]
        simp [List.append_assoc]

/-- C16 at `pkg.Item`. -/
theorem C16_message_layout_witness :
    ∃ (name : String) (fieldLines : List (List PrinterOp)) (oneofOps nestedOps : List PrinterOp)
      (enumLines : List (List PrinterOp)),
      ConvertFullTypeName "pkg.Item" "pkg" = some name
      ∧ allResults ((exampleItem.fields.filter (fun f => !f.containing_oneof)).map
          (fun f => PrintFieldOutput f "pkg")) = some fieldLines
      ∧ allResults (exampleItem.enum_types.map (fun e => EnumLines e "pkg")) = some enumLines
      ∧ [PrinterOp.Print "\nItem :: struct \x7b\n", PrinterOp.Indent,
          PrinterOp.Print "attrs : map[string]i32 `", PrinterOp.Print "id:\"7\"",
          PrinterOp.Print " type:\"11\"", PrinterOp.Print " key_type:\"9\"",
          PrinterOp.Print " value_type:\"5\"", PrinterOp.Print "`,\n",
          PrinterOp.Print "id : i32 `", PrinterOp.Print "id:\"1\"",
          PrinterOp.Print " type:\"5\"", PrinterOp.Print "`,\n",
          PrinterOp.Outdent, PrinterOp.Print "\x7d\n",
          PrinterOp.Print "\nItem_Part :: struct \x7b\n", PrinterOp.Indent,
          PrinterOp.Outdent, PrinterOp.Print "\x7d\n",
          PrinterOp.Print "\nItem_Kind :: enum \x7b\n", PrinterOp.Indent,
          PrinterOp.Print "UNKNOWN = 0,\n", PrinterOp.Print "BIG = 2,\n",
          PrinterOp.Outdent, PrinterOp.Print "\x7d\n"]
        = [PrinterOp.Print ("\n" ++ name ++ " :: struct \x7b\n"), PrinterOp.Indent]
            ++ fieldLines.flatten ++ oneofOps
            ++ [PrinterOp.Outdent, PrinterOp.Print "\x7d\n"] ++ nestedOps
            ++ enumLines.flatten := by
  obtain ⟨name, fieldLines, oneofOps, nestedOps, al2, enumLines, h1, h2, _, _, h5, h6⟩ :=
    C16_message_layout exampleItem (startContext "pkg")
      { startContext "pkg" with
          printer := [PrinterOp.Print "\nItem :: struct \x7b\n", PrinterOp.Indent,
            PrinterOp.Print "attrs : map[string]i32 `", PrinterOp.Print "id:\"7\"",
            PrinterOp.Print " type:\"11\"", PrinterOp.Print " key_type:\"9\"",
            PrinterOp.Print " value_type:\"5\"", PrinterOp.Print "`,\n",
            PrinterOp.Print "id : i32 `", PrinterOp.Print "id:\"1\"",
            PrinterOp.Print " type:\"5\"", PrinterOp.Print "`,\n",
            PrinterOp.Outdent, PrinterOp.Print "\x7d\n",
            PrinterOp.Print "\nItem_Part :: struct \x7b\n", PrinterOp.Indent,
            PrinterOp.Outdent, PrinterOp.Print "\x7d\n",
            PrinterOp.Print "\nItem_Kind :: enum \x7b\n", PrinterOp.Indent,
            PrinterOp.Print "UNKNOWN = 0,\n", PrinterOp.Print "BIG = 2,\n",
            PrinterOp.Outdent, PrinterOp.Print "\x7d\n"] }
      [] [] (by decide)
  refine ⟨name, fieldLines, oneofOps, nestedOps, enumLines, h1, h2, h5, ?_⟩
  have h7 := congrArg Context.printer h6
  simpa [startContext] using h7

/-- C17: when `PrintFile` returns `true`, what it appended is, in this order: the package
line, whose identifier is `proto` for the empty schema package and `proto_` followed by the
package with every dot replaced by an underscore otherwise; what `PrintMessage` prints for
the top-level messages, run in declaration order from the empty registry; one
`<alias> :: distinct <underlying>` line per entry of the registry the messages left, each
alias being bound once, in the iteration order of the registry (some permutation of its
entries); the rendering of every top-level enum, in declaration order. -/
theorem C17_file_layout (iteration_order : TypeAliasMap → List (String × String))
    (horder : ∀ al, (iteration_order al).Perm al) (file_desc : FileDescriptor)
    (context c : Context)
    (h : PrintFile iteration_order file_desc context = Outcome.returned true c) :
    ∃ (messageOps aliasLines : List PrinterOp) (registry : TypeAliasMap)
      (enumLines : List (List PrinterOp)),
      RunsInOrder PrintMessageStep file_desc.message_types
          ({ context with
              printer := context.printer ++ [PrinterOp.Print
                ("\npackage "
                  ++ (if file_desc.package = "" then "proto"
                      else "proto_" ++ String.mk (file_desc.package.data.map
                        (fun ch => if ch = '.' then '_' else ch)))
                  ++ "\n")] }, [])
          ({ context with
              printer := context.printer ++ ([PrinterOp.Print
                ("\npackage "
                  ++ (if file_desc.package = "" then "proto"
                      else "proto_" ++ String.mk (file_desc.package.data.map
                        (fun ch => if ch = '.' then '_' else ch)))
                  ++ "\n")] ++ messageOps) }, registry)
      ∧ KeysDistinct registry
      ∧ aliasLines.Perm (registry.map AliasLine)
      ∧ allResults (file_desc.enum_types.map (fun e => EnumLines e context.proto_package))
          = some enumLines
      ∧ c = { context with
              printer := context.printer ++ ([PrinterOp.Print
                ("\npackage "
                  ++ (if file_desc.package = "" then "proto"
                      else "proto_" ++ String.mk (file_desc.package.data.map
                        (fun ch => if ch = '.' then '_' else ch)))
                  ++ "\n")] ++ messageOps ++ aliasLines ++ enumLines.flatten) } := by
  unfold PrintFile at h
  simp only at h
  rw [PackageName_eq] at h
  generalize (if file_desc.package = "" then "proto"
      else "proto_" ++ String.mk (file_desc.package.data.map
        (fun ch => if ch = '.' then '_' else ch))) = pkgid at h ⊢
  cases hm : PrintFileMessages file_desc.message_types
      (context.Print ("\npackage " ++ pkgid ++ "\n")) [] with
  | aborted => rw [hm] at h; simp at h
  | returned ok s =>
    rw [hm] at h
    obtain ⟨c1, registry⟩ := s
    cases ok with
    | false => simp at h
    | true =>
      simp only at h
      obtain ⟨messageOps, hc1⟩ := PrintFileMessages_extends _ _ _ _ _ hm
      have hkd := PrintFileMessages_keysDistinct file_desc.message_types
        (context.Print ("\npackage " ++ pkgid ++ "\n")) [] (by simp [KeysDistinct])
      rw [hm] at hkd
      rw [PrintTypeAliases_eq, PrintEnums_eq] at h
      have hpkg : c1.proto_package = context.proto_package := by rw [hc1]; rfl
      simp only [hpkg] at h
      cases hel : allResults (file_desc.enum_types.map
          (fun e => EnumLines e context.proto_package)) with
      | none => rw [hel] at h; simp at h
      | some enumLines =>
        rw [hel] at h
        simp only [Outcome.returned.injEq, true_and] at h
        refine ⟨messageOps, (iteration_order registry).map AliasLine, registry, enumLines,
          ?_, hkd, (horder registry).map AliasLine, rfl, ?_⟩
        · have := (PrintFileMessages_runs _ _ _ _).mp hm
          rw [hc1] at this
          simpa [Context.Print, List.append_assoc] using this
        · rw [← h, hc1]
          simp [Context.Print, List.append_assoc]

/-- C17 at the file whose two oneofs both request `Foo` over `i32`. -/
theorem C17_file_layout_witness :
    ∃ (messageOps aliasLines : List PrinterOp) (registry : TypeAliasMap),
      KeysDistinct registry
      ∧ aliasLines.Perm (registry.map AliasLine)
      ∧ [PrinterOp.Print "\npackage proto_pkg\n",
          PrinterOp.Print "\nA :: struct \x7b\n", PrinterOp.Indent,
          PrinterOp.Print "\nx: union \x7b\n", PrinterOp.Indent,
          PrinterOp.Print "Foo,\n", PrinterOp.Outdent, PrinterOp.Print "\x7d,\n",
          PrinterOp.Outdent, PrinterOp.Print "\x7d\n",
          PrinterOp.Print "\nB :: struct \x7b\n", PrinterOp.Indent,
          PrinterOp.Print "\ny: union \x7b\n", PrinterOp.Indent,
          PrinterOp.Print "Foo,\n", PrinterOp.Outdent, PrinterOp.Print "\x7d,\n",
          PrinterOp.Outdent, PrinterOp.Print "\x7d\n",
          PrinterOp.Print "Foo :: distinct i32\n"]
        = [PrinterOp.Print "\npackage proto_pkg\n"] ++ messageOps ++ aliasLines := by
  obtain ⟨messageOps, aliasLines, registry, enumLines, _, h2, h3, h4, h5⟩ :=
    C17_file_layout (fun m => m) (fun al => List.Perm.refl al) exampleAliasTwice
      (startContext "pkg")
      { startContext "pkg" with
          printer := [PrinterOp.Print "\npackage proto_pkg\n",
            PrinterOp.Print "\nA :: struct \x7b\n", PrinterOp.Indent,
            PrinterOp.Print "\nx: union \x7b\n", PrinterOp.Indent,
            PrinterOp.Print "Foo,\n", PrinterOp.Outdent, PrinterOp.Print "\x7d,\n",
            PrinterOp.Outdent, PrinterOp.Print "\x7d\n",
            PrinterOp.Print "\nB :: struct \x7b\n", PrinterOp.Indent,
            PrinterOp.Print "\ny: union \x7b\n", PrinterOp.Indent,
            PrinterOp.Print "Foo,\n", PrinterOp.Outdent, PrinterOp.Print "\x7d,\n",
            PrinterOp.Outdent, PrinterOp.Print "\x7d\n",
            PrinterOp.Print "Foo :: distinct i32\n"] }
      (by decide)
  refine ⟨messageOps, aliasLines, registry, h2, h3, ?_⟩
  have hel : enumLines = [] := by
    have : allResults (exampleAliasTwice.enum_types.map (fun e => EnumLines e "pkg"))
        = some [] := by decide
    have h4b : allResults (exampleAliasTwice.enum_types.map (fun e => EnumLines e "pkg"))
        = some enumLines := h4
    rw [this] at h4b
    exact (Option.some.inj h4b).symm
  have h7 := congrArg Context.printer h5
  rw [hel] at h7
  have hp : (if exampleAliasTwice.package = "" then "proto"
      else "proto_" ++ String.mk (exampleAliasTwice.package.data.map
        (fun ch => if ch = '.' then '_' else ch))) = "proto_pkg" := by decide
  rw [hp] at h7
  have hq : "\npackage " ++ "proto_pkg" ++ "\n" = "\npackage proto_pkg\n" := by decide
  rw [hq] at h7
  simpa [startContext] using h7

/-! ## First error -/

theorem PrintMessageFields_never_false (fields : List FieldDescriptor) (context c : Context) :
    PrintMessageFields fields context ≠ Outcome.returned false c := by
  rw [PrintMessageFields_eq]
  cases allResults ((fields.filter (fun f => !f.containing_oneof)).map
    (fun f => PrintFieldOutput f context.proto_package)) <;> simp

theorem PrintEnums_never_false (enums : List EnumDescriptor) (context c : Context) :
    PrintEnums enums context ≠ Outcome.returned false c := by
  rw [PrintEnums_eq]
  cases allResults (enums.map (fun e => EnumLines e context.proto_package)) <;> simp

theorem PrintMessageOneofs_append (before rest : List OneofDescriptor) :
    ∀ (context : Context) (al : TypeAliasMap),
      PrintMessageOneofs (before ++ rest) context al =
        match PrintMessageOneofs before context al with
        | .aborted => Outcome.aborted
        | .returned false s => Outcome.returned false s
        | .returned true (c, a) => PrintMessageOneofs rest c a := by
  induction before with
  | nil => intro context al; simp [PrintMessageOneofs]
  | cons o before ih =>
    intro context al
    rw [List.cons_append, PrintMessageOneofs]
    conv_rhs => rw [PrintMessageOneofs]
    cases PrintOneof o context al with
    | aborted => rfl
    | returned ok s =>
      obtain ⟨c, a⟩ := s
      cases ok with
      | false => rfl
      | true => exact ih c a

theorem PrintNestedTypes_append (before rest : List Descriptor) :
    ∀ (context : Context) (al : TypeAliasMap),
      PrintNestedTypes (before ++ rest) context al =
        match PrintNestedTypes before context al with
        | .aborted => Outcome.aborted
        | .returned false s => Outcome.returned false s
        | .returned true (c, a) => PrintNestedTypes rest c a := by
  induction before with
  | nil => intro context al; rw [List.nil_append]; conv_rhs => rw [PrintNestedTypes]
  | cons n before ih =>
    intro context al
    rw [List.cons_append, PrintNestedTypes]
    conv_rhs => rw [PrintNestedTypes]
    split_ifs
    · exact ih context al
    · cases PrintMessage n context al with
      | aborted => rfl
      | returned ok s =>
        obtain ⟨c, a⟩ := s
        cases ok with
        | false => rfl
        | true => exact ih c a

theorem PrintFileMessages_append (before rest : List Descriptor) :
    ∀ (context : Context) (al : TypeAliasMap),
      PrintFileMessages (before ++ rest) context al =
        match PrintFileMessages before context al with
        | .aborted => Outcome.aborted
        | .returned false s => Outcome.returned false s
        | .returned true (c, a) => PrintFileMessages rest c a := by
  induction before with
  | nil => intro context al; simp [PrintFileMessages]
  | cons m before ih =>
    intro context al
    rw [List.cons_append, PrintFileMessages]
    conv_rhs => rw [PrintFileMessages]
    cases PrintMessage m context al with
    | aborted => rfl
    | returned ok s =>
      obtain ⟨c, a⟩ := s
      cases ok with
      | false => rfl
      | true => exact ih c a

theorem PrintMessageOneofs_false (oneofs : List OneofDescriptor) :
    ∀ (context : Context) (al : TypeAliasMap) (s : Context × TypeAliasMap),
      PrintMessageOneofs oneofs context al = Outcome.returned false s →
      ∃ (before : List OneofDescriptor) (o : OneofDescriptor) (after : List OneofDescriptor)
        (s1 : Context × TypeAliasMap),
        oneofs = before ++ o :: after
        ∧ PrintMessageOneofs before context al = Outcome.returned true s1
        ∧ PrintOneof o s1.1 s1.2 = Outcome.returned false s := by
  induction oneofs with
  | nil => intro context al s h; simp [PrintMessageOneofs] at h
  | cons o rest ih =>
    intro context al s h
    rw [PrintMessageOneofs] at h
    cases hr : PrintOneof o context al with
    | aborted => rw [hr] at h; simp at h
    | returned ok s1 =>
      rw [hr] at h
      obtain ⟨c1, a1⟩ := s1
      cases ok with
      | false =>
        simp only [Outcome.returned.injEq, true_and] at h
        exact ⟨[], o, rest, (context, al), rfl, by simp [PrintMessageOneofs], by rw [← h]; exact hr⟩
      | true =>
        simp only at h
        obtain ⟨before, o2, after, s2, h1, h2, h3⟩ := ih c1 a1 s h
        refine ⟨o :: before, o2, after, s2, by rw [h1]; rfl, ?_, h3⟩
        rw [PrintMessageOneofs, hr]
        exact h2

mutual
theorem PrintMessage_false_reaches : ∀ (message_desc : Descriptor) (context : Context)
    (al : TypeAliasMap) (s : Context × TypeAliasMap),
    PrintMessage message_desc context al = Outcome.returned false s →
    ∃ (o : OneofDescriptor) (at_oneof : Context × TypeAliasMap),
      ReachesOneof message_desc (context, al) o at_oneof
      ∧ PrintOneof o at_oneof.1 at_oneof.2 = Outcome.returned false s
  | .mk full_name is_map_entry fields oneof_decls nested_types enum_types, context, al, s,
      h => by
    rw [PrintMessage] at h
    cases is_map_entry with
    | true => simp at h
    | false =>
      simp only [Bool.false_eq_true, if_false] at h
      cases hname : ConvertFullTypeName full_name context.proto_package with
      | none => rw [hname] at h; simp at h
      | some name =>
        rw [hname] at h
        simp only at h
        cases hrf : PrintMessageFields fields
            (context.Print ("\n" ++ name ++ " :: struct \x7b\n")).Indent with
        | aborted => rw [hrf] at h; simp at h
        | returned ok1 c1 =>
          rw [hrf] at h
          cases ok1 with
          | false => exact absurd hrf (PrintMessageFields_never_false _ _ _)
          | true =>
            simp only at h
            cases hro : PrintMessageOneofs oneof_decls c1 al with
            | aborted => rw [hro] at h; simp at h
            | returned ok2 s2 =>
              rw [hro] at h
              cases ok2 with
              | false =>
                simp only [Outcome.returned.injEq, true_and] at h
                subst h
                obtain ⟨before, o, after, s1, h1, h2, h3⟩ :=
                  PrintMessageOneofs_false _ _ _ _ hro
                exact ⟨o, s1, ReachesOneof.own _ (context, al) name c1 before o after s1 rfl
                  hname hrf h1 h2, h3⟩
              | true =>
                obtain ⟨c2, al2⟩ := s2
                simp only at h
                cases hrn : PrintNestedTypes nested_types (c2.Outdent.Print "\x7d\n") al2 with
                | aborted => rw [hrn] at h; simp at h
                | returned ok3 s3 =>
                  rw [hrn] at h
                  obtain ⟨c3, al3⟩ := s3
                  cases ok3 with
                  | false =>
                    simp only [Outcome.returned.injEq, true_and] at h
                    subst h
                    obtain ⟨before, n, after, s1, o, at_oneof, h1, h2, h3, h4, h5⟩ :=
                      PrintNestedTypes_false_reaches nested_types _ _ _ hrn
                    exact ⟨o, at_oneof, ReachesOneof.nested _ (context, al) name c1 (c2, al2)
                      before n after s1 o at_oneof rfl hname hrf hro h1 h3 h2 h4, h5⟩
                  | true =>
                    simp only at h
                    cases hre : PrintEnums enum_types c3 with
                    | aborted => rw [hre] at h; simp at h
                    | returned ok4 c4 =>
                      rw [hre] at h
                      simp only [Outcome.returned.injEq] at h
                      rw [h.1] at hre
                      exact absurd hre (PrintEnums_never_false _ _ _)
theorem PrintNestedTypes_false_reaches : ∀ (nested_types : List Descriptor)
    (context : Context) (al : TypeAliasMap) (s : Context × TypeAliasMap),
    PrintNestedTypes nested_types context al = Outcome.returned false s →
    ∃ (before : List Descriptor) (n : Descriptor) (after : List Descriptor)
      (s1 : Context × TypeAliasMap) (o : OneofDescriptor) (at_oneof : Context × TypeAliasMap),
      nested_types = before ++ n :: after
      ∧ n.is_map_entry = false
      ∧ PrintNestedTypes before context al = Outcome.returned true s1
      ∧ ReachesOneof n s1 o at_oneof
      ∧ PrintOneof o at_oneof.1 at_oneof.2 = Outcome.returned false s
  | [], context, al, s, h => by
    rw [PrintNestedTypes] at h
    simp at h
  | nested_type :: rest, context, al, s, h => by
    rw [PrintNestedTypes] at h
    by_cases hm : nested_type.is_map_entry = true
    · simp only [hm, if_true] at h
      obtain ⟨before, n, after, s1, o, at_oneof, h1, h2, h3, h4, h5⟩ :=
        PrintNestedTypes_false_reaches rest context al s h
      refine ⟨nested_type :: before, n, after, s1, o, at_oneof, by rw [h1]; rfl, h2, ?_, h4,
        h5⟩
      rw [PrintNestedTypes]
      simp only [hm, if_true]
      exact h3
    · simp only [hm, Bool.false_eq_true, if_false] at h
      cases hr : PrintMessage nested_type context al with
      | aborted => rw [hr] at h; simp at h
      | returned ok s1 =>
        rw [hr] at h
        obtain ⟨c1, a1⟩ := s1
        cases ok with
        | false =>
          simp only [Outcome.returned.injEq, true_and] at h
          subst h
          obtain ⟨o, at_oneof, h4, h5⟩ :=
            PrintMessage_false_reaches nested_type context al _ hr
          refine ⟨[], nested_type, rest, (context, al), o, at_oneof, rfl, by simpa using hm,
            ?_, h4, h5⟩
          rw [PrintNestedTypes]
        | true =>
          simp only at h
          obtain ⟨before, n, after, s2, o, at_oneof, h1, h2, h3, h4, h5⟩ :=
            PrintNestedTypes_false_reaches rest c1 a1 s h
          refine ⟨nested_type :: before, n, after, s2, o, at_oneof, by rw [h1]; rfl, h2, ?_,
            h4, h5⟩
          rw [PrintNestedTypes]
          simp only [hm, Bool.false_eq_true, if_false, hr]
          exact h3
end

theorem ReachesOneof_fails (message_desc : Descriptor) (start : Context × TypeAliasMap)
    (o : OneofDescriptor) (at_oneof s : Context × TypeAliasMap)
    (hreach : ReachesOneof message_desc start o at_oneof)
    (hfail : PrintOneof o at_oneof.1 at_oneof.2 = Outcome.returned false s) :
    PrintMessage message_desc start.1 start.2 = Outcome.returned false s := by
  induction hreach with
  | own m start name c1 before o after at_oneof hm hname hrf hdecl hbefore =>
    obtain ⟨full_name, is_map_entry, fields, oneof_decls, nested_types, enum_types⟩ := m
    simp only [Descriptor.is_map_entry, Descriptor.full_name, Descriptor.fields,
      Descriptor.oneof_decls] at hm hname hrf hdecl
    rw [PrintMessage]
    simp only [hm, Bool.false_eq_true, if_false, hname, hrf, hdecl]
    rw [PrintMessageOneofs_append, hbefore]
    obtain ⟨c, a⟩ := at_oneof
    simp only
    rw [PrintMessageOneofs, hfail]
  | nested m start name c1 s2 before n after s3 o at_oneof hm hname hrf hro hdecl hbefore hn
      _ ih =>
    obtain ⟨full_name, is_map_entry, fields, oneof_decls, nested_types, enum_types⟩ := m
    simp only [Descriptor.is_map_entry, Descriptor.full_name, Descriptor.fields,
      Descriptor.oneof_decls, Descriptor.nested_types] at hm hname hrf hro hdecl
    rw [PrintMessage]
    obtain ⟨c2, a2⟩ := s2
    simp only [hm, Bool.false_eq_true, if_false, hname, hrf, hro, hdecl]
    rw [PrintNestedTypes_append, hbefore]
    obtain ⟨c3, a3⟩ := s3
    simp only
    rw [PrintNestedTypes]
    simp only [hn, Bool.false_eq_true, if_false]
    rw [ih hfail]

theorem PrintMessageFields_stepped (fields : List FieldDescriptor) (context c : Context)
    (h : PrintMessageFields fields context = Outcome.returned true c) :
    ∃ new, Stepped context true c new := by
  have hc := PrintMessageFields_clean fields context
  rw [h] at hc
  obtain ⟨new, hs, _⟩ := hc
  exact ⟨new, hs⟩

theorem PrintMessageOneofs_stepped (oneofs : List OneofDescriptor) (context : Context)
    (al : TypeAliasMap) (s : Context × TypeAliasMap)
    (h : PrintMessageOneofs oneofs context al = Outcome.returned true s) :
    ∃ new, Stepped context true s.1 new := by
  have hc := PrintMessageOneofs_clean oneofs context al
  rw [h] at hc
  obtain ⟨new, hs, _⟩ := hc
  exact ⟨new, hs⟩

theorem PrintNestedTypes_stepped (nested_types : List Descriptor) (context : Context)
    (al : TypeAliasMap) (s : Context × TypeAliasMap)
    (h : PrintNestedTypes nested_types context al = Outcome.returned true s) :
    ∃ new, Stepped context true s.1 new := by
  have hc := PrintNestedTypes_structsEntered nested_types context al
  rw [h] at hc
  obtain ⟨new, _, hs, _⟩ := hc
  exact ⟨new, hs⟩

theorem PrintFileMessages_stepped (messages : List Descriptor) (context : Context)
    (al : TypeAliasMap) (s : Context × TypeAliasMap)
    (h : PrintFileMessages messages context al = Outcome.returned true s) :
    ∃ new, Stepped context true s.1 new := by
  obtain ⟨c, a⟩ := s
  obtain ⟨new, hc⟩ := PrintFileMessages_extends messages context c al a h
  refine ⟨new, ?_⟩
  rw [hc]
  exact Stepped.extended context new

theorem ReachesOneof_stepped (message_desc : Descriptor) (start : Context × TypeAliasMap)
    (o : OneofDescriptor) (at_oneof : Context × TypeAliasMap)
    (hreach : ReachesOneof message_desc start o at_oneof) :
    ∃ new, Stepped start.1 true at_oneof.1 new := by
  induction hreach with
  | own m start name c1 before o after at_oneof hm hname hrf hdecl hbefore =>
    obtain ⟨n1, h1⟩ := PrintMessageFields_stepped _ _ _ hrf
    obtain ⟨n2, h2⟩ := PrintMessageOneofs_stepped _ _ _ _ hbefore
    exact ⟨_, Stepped_trans (Stepped_print _ _) (Stepped_trans (Stepped_indent _)
      (Stepped_trans h1 h2))⟩
  | nested m start name c1 s2 before n after s3 o at_oneof hm hname hrf hro hdecl hbefore hn
      _ ih =>
    obtain ⟨n1, h1⟩ := PrintMessageFields_stepped _ _ _ hrf
    obtain ⟨n2, h2⟩ := PrintMessageOneofs_stepped _ _ _ _ hro
    obtain ⟨n3, h3⟩ := PrintNestedTypes_stepped _ _ _ _ hbefore
    obtain ⟨n4, h4⟩ := ih
    exact ⟨_, Stepped_trans (Stepped_print _ _) (Stepped_trans (Stepped_indent _)
      (Stepped_trans h1 (Stepped_trans h2 (Stepped_trans (Stepped_outdent _)
        (Stepped_trans (Stepped_print _ _) (Stepped_trans h3 h4))))))⟩

theorem PrintFileMessages_false (messages : List Descriptor) :
    ∀ (context : Context) (al : TypeAliasMap) (s : Context × TypeAliasMap),
      PrintFileMessages messages context al = Outcome.returned false s →
      ∃ (before : List Descriptor) (m : Descriptor) (after : List Descriptor)
        (s1 : Context × TypeAliasMap),
        messages = before ++ m :: after
        ∧ PrintFileMessages before context al = Outcome.returned true s1
        ∧ PrintMessage m s1.1 s1.2 = Outcome.returned false s := by
  induction messages with
  | nil => intro context al s h; simp [PrintFileMessages] at h
  | cons m rest ih =>
    intro context al s h
    rw [PrintFileMessages] at h
    cases hr : PrintMessage m context al with
    | aborted => rw [hr] at h; simp at h
    | returned ok s1 =>
      rw [hr] at h
      obtain ⟨c1, a1⟩ := s1
      cases ok with
      | false =>
        simp only [Outcome.returned.injEq, true_and] at h
        exact ⟨[], m, rest, (context, al), rfl, by simp [PrintFileMessages],
          by rw [← h]; exact hr⟩
      | true =>
        simp only at h
        obtain ⟨before, m2, after, s2, h1, h2, h3⟩ := ih c1 a1 s h
        refine ⟨m :: before, m2, after, s2, by rw [h1]; rfl, ?_, h3⟩
        rw [PrintFileMessages, hr]
        exact h2

theorem PrintFile_false_iff (iteration_order : TypeAliasMap → List (String × String))
    (file_desc : FileDescriptor) (context c : Context) :
    PrintFile iteration_order file_desc context = Outcome.returned false c ↔
      ∃ al, PrintFileMessages file_desc.message_types
          (context.Print ("\npackage " ++ PackageName file_desc ++ "\n")) []
        = Outcome.returned false (c, al) := by
  unfold PrintFile
  simp only
  cases hm : PrintFileMessages file_desc.message_types
      (context.Print ("\npackage " ++ PackageName file_desc ++ "\n")) [] with
  | aborted => simp
  | returned ok s =>
    obtain ⟨c1, al1⟩ := s
    cases ok with
    | false => simp
    | true =>
      simp only [Outcome.returned.injEq, Bool.true_eq_false, false_and, exists_false,
        iff_false]
      exact PrintEnums_never_false _ _ _

theorem SetError_inv {σ : Type} (context : Context) (field : FieldDescriptor)
    (message : String) (rest : Context → σ) (ok : Bool) (s : σ)
    (h : SetError context field message rest = Outcome.returned ok s) :
    ok = false ∧ ∃ loc, field.source_location = some loc
      ∧ s = rest { context with
          error := "line " ++ toString (loc.start_line + 1) ++ ": " ++ message } := by
  unfold SetError at h
  cases hl : field.source_location with
  | none => rw [hl] at h; simp at h
  | some loc =>
    rw [hl] at h
    simp only [Outcome.returned.injEq] at h
    exact ⟨h.1.symm, loc, rfl, h.2.symm⟩

theorem ValidateLoop_false (fields : List FieldDescriptor) :
    ∀ (force_tagged : Bool) (used : List String) (context : Context) (out : Bool)
      (c : Context) (b : Bool),
      ValidateOneofFieldTypesLoop fields force_tagged used context out
        = Outcome.returned false (c, b) →
      ∃ f ∈ fields, ∃ (loc : SourceLocation) (message : String),
        f.source_location = some loc
        ∧ c = { context with
            error := "line " ++ toString (loc.start_line + 1) ++ ": " ++ message } := by
  induction fields with
  | nil => intro _ _ _ _ _ _ h; simp [ValidateOneofFieldTypesLoop] at h
  | cons f rest ih =>
    intro force_tagged used context out c b h
    rw [ValidateOneofFieldTypesLoop] at h
    cases hk : OneofFieldTypeKey f with
    | null_deref => rw [hk] at h; simp at h
    | invalid message =>
      rw [hk] at h
      obtain ⟨_, loc, hloc, hs⟩ := SetError_inv _ _ _ _ _ _ h
      simp only [Prod.mk.injEq] at hs
      exact ⟨f, List.mem_cons_self _ _, loc, message, hloc, hs.1⟩
    | key k e =>
      rw [hk] at h
      simp only at h
      split_ifs at h
      · obtain ⟨_, loc, hloc, hs⟩ := SetError_inv _ _ _ _ _ _ h
        simp only [Prod.mk.injEq] at hs
        exact ⟨f, List.mem_cons_self _ _, loc, _, hloc, hs.1⟩
      · simp at h
      · obtain ⟨g, hg, loc, message, hloc, hc⟩ := ih _ _ _ _ _ _ h
        exact ⟨g, List.mem_cons_of_mem _ hg, loc, message, hloc, hc⟩

theorem PrintOneofTaggedLoop_false (fields : List FieldDescriptor) :
    ∀ (context : Context) (al : TypeAliasMap) (c : Context) (al2 : TypeAliasMap),
      PrintOneofTaggedLoop fields context al = Outcome.returned false (c, al2) →
      ∃ f ∈ fields, ∃ (loc : SourceLocation) (message : String) (printed : List PrinterOp),
        f.source_location = some loc
        ∧ c.error = "line " ++ toString (loc.start_line + 1) ++ ": " ++ message
        ∧ c.printer = context.printer ++ printed := by
  induction fields with
  | nil => intro _ _ _ _ h; simp [PrintOneofTaggedLoop] at h
  | cons f rest ih =>
    intro context al c al2 h
    rw [PrintOneofTaggedLoop] at h
    have key : ∀ (s : String) (al1 : TypeAliasMap),
        PrintOneofTaggedLoop rest (context.Print s) al1 = Outcome.returned false (c, al2) →
        ∃ g ∈ f :: rest, ∃ (loc : SourceLocation) (message : String)
          (printed : List PrinterOp),
          g.source_location = some loc
          ∧ c.error = "line " ++ toString (loc.start_line + 1) ++ ": " ++ message
          ∧ c.printer = context.printer ++ printed := by
      intro s al1 hrest
      obtain ⟨g, hg, loc, message, printed, hloc, he, hp⟩ := ih _ _ _ _ hrest
      refine ⟨g, List.mem_cons_of_mem _ hg, loc, message, PrinterOp.Print s :: printed, hloc,
        he, ?_⟩
      rw [hp]
      simp [Context.Print]
    cases ho : f.options with
    | none =>
      rw [ho] at h
      simp only at h
      split_ifs at h
      · cases hn : f.message_type.name with
        | none => rw [hn] at h; simp at h
        | some s => rw [hn] at h; exact key _ _ h
      · cases hn : GetOdinFieldTypeName f context.proto_package with
        | none => rw [hn] at h; simp at h
        | some s => rw [hn] at h; exact key _ _ h
    | some o =>
      rw [ho] at h
      simp only at h
      by_cases h1 : o.has_external = true
      · simp only [h1, if_true] at h
        exact key _ _ h
      · simp only [h1, Bool.false_eq_true, if_false] at h
        by_cases h2 : o.has_typedef_ = true
        · simp only [h2, if_true] at h
          generalize (if f.type = TYPE_MESSAGE then f.message_type.name
            else some (GetOdinBuiltinTypeName (GetOdinBuiltinType f.type))) = u? at h
          cases u? with
          | none => simp at h
          | some underlying =>
            simp only at h
            split_ifs at h
            · obtain ⟨_, loc, hloc, hs⟩ := SetError_inv _ _ _ _ _ _ h
              simp only [Prod.mk.injEq] at hs
              refine ⟨f, List.mem_cons_self _ _, loc,
                "Type alias '" ++ o.typedef_ ++ "' already refers to '"
                  ++ (al.emplace o.typedef_ underlying).2.1
                  ++ "', cannot redefine as '" ++ underlying ++ "'", [], hloc, ?_, ?_⟩
              · rw [hs.1]
              · rw [hs.1]; simp
            · exact key _ _ h
        · simp only [h2, Bool.false_eq_true, if_false] at h
          exact key _ _ h

theorem ValidateLoop_true_context (fields : List FieldDescriptor) :
    ∀ (force_tagged : Bool) (used : List String) (context : Context) (out : Bool)
      (c : Context) (b : Bool),
      ValidateOneofFieldTypesLoop fields force_tagged used context out
        = Outcome.returned true (c, b) → c = context := by
  induction fields with
  | nil =>
    intro _ _ context _ c b h
    simp only [ValidateOneofFieldTypesLoop, Outcome.returned.injEq, Prod.mk.injEq,
      true_and] at h
    exact h.1.symm
  | cons f rest ih =>
    intro force_tagged used context out c b h
    rw [ValidateOneofFieldTypesLoop] at h
    cases hk : OneofFieldTypeKey f with
    | null_deref => rw [hk] at h; simp at h
    | invalid message =>
      rw [hk] at h
      exact absurd h (SetError_ne_returned_true _ _ _ _ _)
    | key k e =>
      rw [hk] at h
      simp only at h
      split_ifs at h
      · exact absurd h (SetError_ne_returned_true _ _ _ _ _)
      · simp only [Outcome.returned.injEq, Prod.mk.injEq, true_and] at h
        exact h.1.symm
      · exact ih _ _ _ _ _ _ h

theorem PrintOneofRawLoop_never_false (fields : List FieldDescriptor) :
    ∀ context c : Context, PrintOneofRawLoop fields context ≠ Outcome.returned false c := by
  intro context c
  rw [PrintOneofRawLoop_eq]
  cases allResults (fields.map (fun f => PrintFieldOutput f context.proto_package)) <;> simp

theorem PrintOneof_false_error (oneof_desc : OneofDescriptor) (context : Context)
    (al : TypeAliasMap) (c : Context) (al2 : TypeAliasMap)
    (h : PrintOneof oneof_desc context al = Outcome.returned false (c, al2)) :
    ∃ f ∈ oneof_desc.fields, ∃ (loc : SourceLocation) (message : String)
      (printed : List PrinterOp),
      f.source_location = some loc
      ∧ c.error = "line " ++ toString (loc.start_line + 1) ++ ": " ++ message
      ∧ c.printer = context.printer ++ printed := by
  unfold PrintOneof at h
  cases hv : ValidateOneofFieldTypes oneof_desc context false with
  | aborted => rw [hv] at h; simp at h
  | returned ok s =>
    rw [hv] at h
    obtain ⟨cv, tagged⟩ := s
    cases ok with
    | false =>
      simp only [Outcome.returned.injEq, Prod.mk.injEq, true_and] at h
      obtain ⟨f, hf, loc, message, hloc, hc⟩ := ValidateLoop_false _ _ _ _ _ _ _ hv
      refine ⟨f, hf, loc, message, [], hloc, ?_, ?_⟩
      · rw [← h.1, hc]
      · rw [← h.1, hc]; simp
    | true =>
      have hcv : cv = context := ValidateLoop_true_context _ _ _ _ _ _ _ hv
      subst hcv
      cases tagged with
      | true =>
        simp only [if_true] at h
        cases hl : PrintOneofTaggedLoop oneof_desc.fields
            (cv.Print ("\n" ++ oneof_desc.name ++ ": union \x7b\n")).Indent al with
        | aborted => rw [hl] at h; simp at h
        | returned ok2 s2 =>
          rw [hl] at h
          obtain ⟨c2, a2⟩ := s2
          cases ok2 with
          | true => simp at h
          | false =>
            simp only [Outcome.returned.injEq, Prod.mk.injEq, true_and] at h
            obtain ⟨f, hf, loc, message, printed, hloc, he, hp⟩ :=
              PrintOneofTaggedLoop_false _ _ _ _ _ hl
            refine ⟨f, hf, loc, message,
              [PrinterOp.Print ("\n" ++ oneof_desc.name ++ ": union \x7b\n"),
                PrinterOp.Indent] ++ printed, hloc, ?_, ?_⟩
            · rw [← h.1]; exact he
            · rw [← h.1, hp]
              simp [Context.Print, Context.Indent]
      | false =>
        simp only [Bool.false_eq_true, if_false] at h
        cases hl : PrintOneofRawLoop oneof_desc.fields
            (cv.Print ("\n" ++ oneof_desc.name ++ ": struct #raw_union \x7b\n")).Indent with
        | aborted => rw [hl] at h; simp at h
        | returned ok2 c2 =>
          rw [hl] at h
          cases ok2 with
          | true => simp at h
          | false => exact absurd hl (PrintOneofRawLoop_never_false _ _ _)

/-- C18: `PrintFile` returns `false` exactly when its traversal (top-level messages in
order; in a message the own oneofs in declaration order, then the nested messages) gets to a
`PrintOneof` call that returns `false`, everything before it having returned `true`; the
context `PrintFile` leaves is then the one that call returned, error and printer, so nothing
is printed after it.  When the traversal gets to a oneof the error string is still the
initial one, and a failing `PrintOneof` sets it to the `line <n>: <message>` of one of its
members. -/
theorem C18_first_error_abort (iteration_order : TypeAliasMap → List (String × String))
    (file_desc : FileDescriptor) (context c : Context) :
    (PrintFile iteration_order file_desc context = Outcome.returned false c ↔
      ∃ (o : OneofDescriptor) (at_oneof : Context × TypeAliasMap) (al : TypeAliasMap),
        FileReachesOneof file_desc context o at_oneof
        ∧ PrintOneof o at_oneof.1 at_oneof.2 = Outcome.returned false (c, al))
    ∧ (∀ (o : OneofDescriptor) (at_oneof : Context × TypeAliasMap),
        FileReachesOneof file_desc context o at_oneof →
        at_oneof.1.error = context.error
        ∧ ∃ printed, at_oneof.1.printer = context.printer ++ printed)
    ∧ (∀ (o : OneofDescriptor) (at_oneof : Context × TypeAliasMap) (c2 : Context)
        (al2 : TypeAliasMap),
        PrintOneof o at_oneof.1 at_oneof.2 = Outcome.returned false (c2, al2) →
        ∃ f ∈ o.fields, ∃ (loc : SourceLocation) (message : String)
          (printed : List PrinterOp),
          f.source_location = some loc
          ∧ c2.error = "line " ++ toString (loc.start_line + 1) ++ ": " ++ message
          ∧ c2.printer = at_oneof.1.printer ++ printed) := by
  refine ⟨?_, ?_, ?_⟩
  · rw [PrintFile_false_iff]
    constructor
    · rintro ⟨al, h⟩
      obtain ⟨before, m, after, s1, h1, h2, h3⟩ := PrintFileMessages_false _ _ _ _ h
      obtain ⟨o, at_oneof, h4, h5⟩ := PrintMessage_false_reaches m s1.1 s1.2 _ h3
      exact ⟨o, at_oneof, al, ⟨before, m, after, s1, h1, h2, h4⟩, h5⟩
    · rintro ⟨o, at_oneof, al, ⟨before, m, after, s1, h1, h2, h4⟩, h5⟩
      refine ⟨al, ?_⟩
      rw [h1, PrintFileMessages_append, h2]
      obtain ⟨c1, a1⟩ := s1
      simp only
      rw [PrintFileMessages]
      have := ReachesOneof_fails m (c1, a1) o at_oneof (c, al) h4 h5
      simp only at this
      rw [this]
  · rintro o at_oneof ⟨before, m, after, s1, _, h2, h4⟩
    obtain ⟨n1, hs1⟩ := PrintFileMessages_stepped _ _ _ _ h2
    obtain ⟨n2, hs2⟩ := ReachesOneof_stepped _ _ _ _ h4
    have hs := Stepped_trans (Stepped_print context _) (Stepped_trans hs1 hs2)
    exact ⟨hs.2.2 rfl, _, hs.1⟩
  · intro o at_oneof c2 al2 h
    exact PrintOneof_false_error o at_oneof.1 at_oneof.2 c2 al2 h

/-- C18 at the file that requests `Foo` over `i32` and then over `string`: the oneof `y` of
the second message is reached after the first message was done, fails, and `PrintFile`
leaves the context that call returned. -/
theorem C18_first_error_abort_witness :
    ∃ (o : OneofDescriptor) (at_oneof : Context × TypeAliasMap) (al : TypeAliasMap),
      FileReachesOneof exampleAliasConflict (startContext "pkg") o at_oneof
      ∧ PrintOneof o at_oneof.1 at_oneof.2
        = Outcome.returned false
            ({ startContext "pkg" with
                printer := [PrinterOp.Print "\npackage proto_pkg\n",
                  PrinterOp.Print "\nA :: struct \x7b\n", PrinterOp.Indent,
                  PrinterOp.Print "\nx: union \x7b\n", PrinterOp.Indent,
                  PrinterOp.Print "Foo,\n", PrinterOp.Outdent, PrinterOp.Print "\x7d,\n",
                  PrinterOp.Outdent, PrinterOp.Print "\x7d\n",
                  PrinterOp.Print "\nB :: struct \x7b\n", PrinterOp.Indent,
                  PrinterOp.Print "\ny: union \x7b\n", PrinterOp.Indent],
                error := "line 9: Type alias 'Foo' already refers to 'i32', cannot redefine as 'string'" },
              al) :=
  (C18_first_error_abort (fun m => m) exampleAliasConflict (startContext "pkg") _).1.mp
    (by decide)

end OdinGen
